import Mathlib

/-! Plugin catalog, plugin discovery and trust configuration of the tanzu CLI
(`pkg/catalog/catalog.go`, `pkg/discovery/kubernetes.go`, `pkg/discovery/rest.go`,
`pkg/discovery/utils.go`, `pkg/config/defaults.go`).

A shallow embedding of the context-scoped plugin catalog.  Go maps are finite
maps with string keys (`AList`), Go slices are lists, and the pointer
`ContextCatalog.plugins` (which aliases one map of the shared store) is
represented by the context that selects that map inside the store.  The
environment is the record of the strings `os.Getenv` returns, and the order in
which `range` visits a map is an explicit list.
-/

/-! ## Data model -/

/-- A non-nil Go `map[string]V`: a finite map with pairwise distinct string keys.
`m[k] = v` is `AList.insert`, `delete(m, k)` is `AList.erase`, and the
comma-ok read `v, ok := m[k]` is `AList.lookup`. -/
abbrev GoMap (V : Type) := AList (fun _ : String => V)

/-- Modelled from the spec: `cli.PluginInfo` is declared in `pkg/cli`, outside
the files at hand.  The record holds the identity of one installed plugin
binary: name, target, version, installation path and descriptive text. -/
structure PluginInfo where
  Name : String
  Description : String
  Version : String
  InstallationPath : String
  Target : String
  deriving DecidableEq, Repr

/-- The zero value `cli.PluginInfo{}`, which a Go map read yields for a missing key. -/
def PluginInfo.zero : PluginInfo :=
  { Name := "", Description := "", Version := "", InstallationPath := "", Target := "" }

/-- Modelled from the spec: `PluginAssociation` (`map[string]string`, key to
active installation path) is declared outside the files at hand.  A value of
this Go type may be the nil map, which reads as empty and cannot be written:
`none` is the nil map. -/
abbrev PluginAssociation := Option (GoMap String)

/-- Modelled from the spec: the `Catalog` struct is declared outside the files
at hand; its four maps are the ones `newSharedCatalog` and `getCatalogCache`
initialise.  Both constructors return the four top-level maps non-nil, so they
are plain maps here; the values stored under `ServerPlugins` are
`PluginAssociation`s and may be nil. -/
structure Catalog where
  IndexByPath : GoMap PluginInfo
  IndexByName : GoMap (List String)
  StandAlonePlugins : GoMap String
  ServerPlugins : GoMap PluginAssociation

/-- Modelled from the spec: `configtypes.TargetUnknown` of the plugin runtime
library, the unspecified (empty) target. -/
def TargetUnknown : String := ""

/-- Modelled from the spec: `configtypes.TargetGlobal` of the plugin runtime library. -/
def TargetGlobal : String := "global"

/-- Modelled from the spec: `configtypes.TargetK8s` of the plugin runtime library. -/
def TargetK8s : String := "kubernetes"

/-- Modelled from the spec: `utils.ContainsString` is declared outside the
files at hand; it reports whether the slice holds the string. -/
def ContainsString (slice : List String) (s : String) : Bool :=
  slice.contains s

/-- The Go read `m[k]` of a slice-valued map: a missing key yields the nil slice. -/
def GoMap.sliceAt (m : GoMap (List String)) (k : String) : List String :=
  (m.lookup k).getD []

/-- The Go read `m[k]` of `IndexByPath`: a missing key yields the zero value. -/
def GoMap.infoAt (m : GoMap PluginInfo) (k : String) : PluginInfo :=
  (m.lookup k).getD PluginInfo.zero

/-! ## Key formatting -/

/-- `PluginNameTarget`: the bare name for the empty target, otherwise
`fmt.Sprintf("%s_%s", pluginName, target)`. -/
def PluginNameTarget (pluginName : String) (target : String) : String :=
  if target = "" then pluginName else pluginName ++ "_" ++ target

/-! ## The context view -/

/-- `ContextCatalog`: the shared store together with the map `plugins` points
to.  In the source `plugins` is a reference to `sharedCatalog.StandAlonePlugins`
(empty context) or to `sharedCatalog.ServerPlugins[context]`; here the context
itself stands for that reference. -/
structure ContextCatalog where
  sharedCatalog : Catalog
  context : String

/-- The map behind the reference `c.plugins`. -/
def ContextCatalog.plugins (c : ContextCatalog) : PluginAssociation :=
  if c.context = "" then some c.sharedCatalog.StandAlonePlugins
  else (c.sharedCatalog.ServerPlugins.lookup c.context).join

/-- Write a new content through the reference `c.plugins`. -/
def ContextCatalog.setPlugins (c : ContextCatalog) (m : GoMap String) : ContextCatalog :=
  if c.context = "" then
    { c with sharedCatalog := { c.sharedCatalog with StandAlonePlugins := m } }
  else
    { c with sharedCatalog :=
        { c.sharedCatalog with
          ServerPlugins := c.sharedCatalog.ServerPlugins.insert c.context (some m) } }

/-- The comma-ok read `path, ok := c.plugins[key]`; a nil map has no key. -/
def ContextCatalog.activePath (c : ContextCatalog) (key : String) : Option String :=
  c.plugins.bind (fun m => m.lookup key)

/-- `newSharedCatalog`: the store with four empty maps. -/
def newSharedCatalog : Catalog :=
  { IndexByPath := ∅, IndexByName := ∅, StandAlonePlugins := ∅, ServerPlugins := ∅ }

/-- `NewContextCatalog`, applied to the store `sc` that `getCatalogCache`
returned: the empty context binds the view to `StandAlonePlugins`, another
context to `ServerPlugins[context]`, which is created empty when the key is
absent. -/
def NewContextCatalog (sc : Catalog) (context : String) : ContextCatalog :=
  if context = "" then { sharedCatalog := sc, context := context }
  else
    match sc.ServerPlugins.lookup context with
    | some _ => { sharedCatalog := sc, context := context }
    | none =>
      { sharedCatalog := { sc with ServerPlugins := sc.ServerPlugins.insert context (some ∅) },
        context := context }

/-- `deleteOldTargetEntries`: when `key` is active in the view, drop the
`IndexByPath` entry of its path, the active entry and the `IndexByName` entry. -/
def ContextCatalog.deleteOldTargetEntries (c : ContextCatalog) (key : String) : ContextCatalog :=
  match c.plugins with
  | none => c
  | some m =>
    match m.lookup key with
    | none => c
    | some oldInstallationPath =>
      let c1 : ContextCatalog :=
        { c with sharedCatalog :=
            { c.sharedCatalog with
              IndexByPath := c.sharedCatalog.IndexByPath.erase oldInstallationPath } }
      let c2 := c1.setPlugins (m.erase key)
      { c2 with sharedCatalog :=
          { c2.sharedCatalog with IndexByName := c2.sharedCatalog.IndexByName.erase key } }

/-- Lines 67-72 of `Upsert`, for a view whose active map is the non-nil `m`:
the active entry, the `IndexByPath` entry, and the append to
`IndexByName[key]` when the path is not yet listed there. -/
def ContextCatalog.recordPlugin (c : ContextCatalog) (m : GoMap String)
    (plugin : PluginInfo) : ContextCatalog :=
  let pluginNameTarget := PluginNameTarget plugin.Name plugin.Target
  let c1 := c.setPlugins (m.insert pluginNameTarget plugin.InstallationPath)
  let c2 : ContextCatalog :=
    { c1 with sharedCatalog :=
        { c1.sharedCatalog with
          IndexByPath := c1.sharedCatalog.IndexByPath.insert plugin.InstallationPath plugin } }
  if !ContainsString (c2.sharedCatalog.IndexByName.sliceAt pluginNameTarget)
      plugin.InstallationPath then
    { c2 with sharedCatalog :=
        { c2.sharedCatalog with
          IndexByName := c2.sharedCatalog.IndexByName.insert pluginNameTarget
            (c2.sharedCatalog.IndexByName.sliceAt pluginNameTarget
              ++ [plugin.InstallationPath]) } }
  else c2

/-- Lines 79-86 of `Upsert`: a global or kubernetes plugin evicts the entries of
the unknown target of its name, an unknown-target plugin evicts those of the
global and of the kubernetes target, any other target evicts nothing. -/
def ContextCatalog.evictOtherTargets (c : ContextCatalog) (plugin : PluginInfo) :
    ContextCatalog :=
  if plugin.Target = TargetGlobal ∨ plugin.Target = TargetK8s then
    c.deleteOldTargetEntries (PluginNameTarget plugin.Name TargetUnknown)
  else if plugin.Target = TargetUnknown then
    (c.deleteOldTargetEntries (PluginNameTarget plugin.Name TargetGlobal)).deleteOldTargetEntries
      (PluginNameTarget plugin.Name TargetK8s)
  else c

/-- `Upsert`.  The result is `none` when the first statement writes to a nil
map (a run-time panic); otherwise it is the view after the call together with
the error of `saveCatalogCache` (`none` is the nil error).  Writing the cache
file is outside the embedding, so `saveCatalogCache` is a parameter. -/
def ContextCatalog.Upsert (saveCatalogCache : Catalog → Option String)
    (c : ContextCatalog) (plugin : PluginInfo) : Option (ContextCatalog × Option String) :=
  match c.plugins with
  | none => none
  | some m =>
    let c1 := (c.recordPlugin m plugin).evictOtherTargets plugin
    some (c1, saveCatalogCache c1.sharedCatalog)

/-- `Get`: the active path of the key, then the `PluginInfo` of that path.  The
function only reads the view. -/
def ContextCatalog.Get (c : ContextCatalog) (plugin : String) : PluginInfo × Bool :=
  match c.activePath plugin with
  | none => (PluginInfo.zero, false)
  | some path =>
    match c.sharedCatalog.IndexByPath.lookup path with
    | none => (PluginInfo.zero, false)
    | some pd => (pd, true)

/-- `Delete`: remove the key from the view's active map when it is there, then
save the store. -/
def ContextCatalog.Delete (saveCatalogCache : Catalog → Option String)
    (c : ContextCatalog) (plugin : String) : ContextCatalog × Option String :=
  let c1 : ContextCatalog :=
    match c.plugins with
    | none => c
    | some m =>
      match m.lookup plugin with
      | none => c
      | some _ => c.setPlugins (m.erase plugin)
  (c1, saveCatalogCache c1.sharedCatalog)

/-- The entries of a possibly nil active map, as (key, path) pairs. -/
def ContextCatalog.activeEntries (c : ContextCatalog) : List (String × String) :=
  match c.plugins with
  | none => []
  | some m => m.entries.map (fun e => (e.1, e.2))

/-- The body of `List` for one visiting order of the active map: Go leaves the
order of `range` over a map unspecified, so the order is an argument. -/
def ContextCatalog.listIn (c : ContextCatalog) (order : List (String × String)) :
    List PluginInfo :=
  order.foldl (fun pds e => pds ++ [c.sharedCatalog.IndexByPath.infoAt e.2]) []

/-- `List`, visiting the active map in the order of its entries. -/
def ContextCatalog.List (c : ContextCatalog) : List PluginInfo :=
  c.listIn c.activeEntries

/-! ## Specification predicates and runs -/

/-- Referential integrity of a store: every path in `StandAlonePlugins`, in any
(non-nil) `ServerPlugins[context]` map and in any `IndexByName` list is a key of
`IndexByPath`. -/
def Catalog.refIntegrity (s : Catalog) : Prop :=
  (∀ e ∈ s.StandAlonePlugins.entries, e.2 ∈ s.IndexByPath.keys) ∧
  (∀ ce ∈ s.ServerPlugins.entries, ∀ e ∈ (ce.2.map (fun m => m.entries)).getD [],
    e.2 ∈ s.IndexByPath.keys) ∧
  (∀ ne ∈ s.IndexByName.entries, ∀ p ∈ ne.2, p ∈ s.IndexByPath.keys)

instance (s : Catalog) : Decidable s.refIntegrity := by
  unfold Catalog.refIntegrity
  infer_instance

/-- A run of `Upsert` calls.  Each step names a context and a plugin and is
applied through the view that `NewContextCatalog` opens for that context on the
store the previous step left; the run is `none` when a step panics. -/
def upsertAll (saveCatalogCache : Catalog → Option String) :
    Catalog → List (String × PluginInfo) → Option Catalog
  | sc, [] => some sc
  | sc, step :: rest =>
    match (NewContextCatalog sc step.1).Upsert saveCatalogCache step.2 with
    | none => none
    | some r => upsertAll saveCatalogCache r.1.sharedCatalog rest

/-- The string holds no underscore. -/
def noUnderscore (s : String) : Prop := '_' ∉ s.data

instance (s : String) : Decidable (noUnderscore s) := by
  unfold noUnderscore
  infer_instance

/-- The step of the `IndexByName` bookkeeping on one list: append the path
unless it is already listed. -/
def addPath (paths : List String) (path : String) : List String :=
  if ContainsString paths path then paths else paths ++ [path]

/-- The keys whose entries lines 79-86 of `Upsert` evict for the plugin. -/
def evictedKeys (plugin : PluginInfo) : List String :=
  if plugin.Target = TargetGlobal ∨ plugin.Target = TargetK8s then
    [PluginNameTarget plugin.Name TargetUnknown]
  else if plugin.Target = TargetUnknown then
    [PluginNameTarget plugin.Name TargetGlobal, PluginNameTarget plugin.Name TargetK8s]
  else []

/-- The view `d` has the context of `c`, and every active map other than the one
the two views point to is the same in both stores. -/
def sameOthers (c d : ContextCatalog) : Prop :=
  d.context = c.context ∧
  (c.context ≠ "" →
    d.sharedCatalog.StandAlonePlugins = c.sharedCatalog.StandAlonePlugins) ∧
  (∀ ctx, c.context = "" ∨ ctx ≠ c.context →
    d.sharedCatalog.ServerPlugins.lookup ctx = c.sharedCatalog.ServerPlugins.lookup ctx)

/-- Every active map of the store (`StandAlonePlugins` and each value of
`ServerPlugins`) is non-nil and satisfies `Q`. -/
def allMaps (Q : GoMap String → Prop) (sc : Catalog) : Prop :=
  Q sc.StandAlonePlugins ∧
  ∀ ctx v, sc.ServerPlugins.lookup ctx = some v → ∃ m, v = some m ∧ Q m

/-- Every active map of the store other than the one the view points to is
non-nil and satisfies `Q`. -/
def otherMaps (Q : GoMap String → Prop) (c : ContextCatalog) : Prop :=
  (c.context ≠ "" → Q c.sharedCatalog.StandAlonePlugins) ∧
  ∀ ctx v, c.context = "" ∨ ctx ≠ c.context →
    c.sharedCatalog.ServerPlugins.lookup ctx = some v → ∃ m, v = some m ∧ Q m

/-- The unknown-target key of the name is not active in the map together with
the global or the kubernetes key of the name. -/
def unknownExclusive (m : GoMap String) : Prop :=
  ∀ name, noUnderscore name →
    m.lookup (PluginNameTarget name TargetUnknown) = none ∨
    (m.lookup (PluginNameTarget name TargetGlobal) = none ∧
      m.lookup (PluginNameTarget name TargetK8s) = none)

/-- No key other than `key` is active in the map. -/
def onlyKey (key : String) (m : GoMap String) : Prop :=
  ∀ k, k ≠ key → m.lookup k = none

/-- The number of target variants (unknown, global, kubernetes) of the name that
have an entry in the view's active-path map. -/
def activeVariants (c : ContextCatalog) (name : String) : Nat :=
  ([TargetUnknown, TargetGlobal, TargetK8s].filter
    (fun t => (c.activePath (PluginNameTarget name t)).isSome)).length

/-! ## Concrete inputs -/

/-- A cache write that always succeeds. -/
def saveOk : Catalog → Option String := fun _ => none

/-- Plugin `foo` with the unknown target, installed at `/p`. -/
def fooUnknown : PluginInfo :=
  { Name := "foo", Description := "", Version := "v0.1.0", InstallationPath := "/p",
    Target := TargetUnknown }

/-- Plugin `foo` with the global target, installed at `/q`. -/
def fooGlobal : PluginInfo :=
  { Name := "foo", Description := "", Version := "v1.0.0", InstallationPath := "/q",
    Target := TargetGlobal }

/-- Plugin `foo` with the kubernetes target, installed at `/k`. -/
def fooK8s : PluginInfo :=
  { Name := "foo", Description := "", Version := "v1.0.0", InstallationPath := "/k",
    Target := TargetK8s }

/-- Plugin `foo` with the global target, installed at `/p`, the path of `fooUnknown`. -/
def fooGlobalAtP : PluginInfo :=
  { Name := "foo", Description := "", Version := "v1.0.0", InstallationPath := "/p",
    Target := TargetGlobal }

/-- A store in which the unknown-target `foo` at `/p` is active both stand-alone
and in the context `ctx`. -/
def legacyStore : Catalog :=
  { IndexByPath := AList.singleton "/p" fooUnknown,
    IndexByName := AList.singleton "foo" ["/p"],
    StandAlonePlugins := AList.singleton "foo" "/p",
    ServerPlugins := AList.singleton "ctx" (some (AList.singleton "foo" "/p")) }

/-- A store in which the context `ctx` has both the global `foo` at `/q` and the
kubernetes `foo` at `/k` active. -/
def targetedStore : Catalog :=
  { IndexByPath := (AList.singleton "/q" fooGlobal).insert "/k" fooK8s,
    IndexByName := (AList.singleton "foo_global" ["/q"]).insert "foo_kubernetes" ["/k"],
    StandAlonePlugins := ∅,
    ServerPlugins := AList.singleton "ctx"
      (some ((AList.singleton "foo_global" "/q").insert "foo_kubernetes" "/k")) }

/-- Plugin `foo` with the global target, installed at `/r`. -/
def fooGlobalNew : PluginInfo :=
  { Name := "foo", Description := "", Version := "v1.1.0", InstallationPath := "/r",
    Target := TargetGlobal }

/-- A plugin of the unknown target whose name is `foo_global`, installed at `/g`. -/
def fooGlobalNamed : PluginInfo :=
  { Name := "foo_global", Description := "", Version := "v1.0.0", InstallationPath := "/g",
    Target := TargetUnknown }

/-- The global and then the kubernetes `foo`, both on the stand-alone view. -/
def coexistRun : List (String × PluginInfo) := [("", fooGlobal), ("", fooK8s)]

/-- The unknown-target `foo` and then the unknown-target `foo_global`, both on
the stand-alone view. -/
def collisionRun : List (String × PluginInfo) := [("", fooUnknown), ("", fooGlobalNamed)]

/-- Three upserts of the global `foo`: `/q` stand-alone, `/q` again in the
context `ctx`, then `/r` stand-alone. -/
def sameKeyRun : List (String × PluginInfo) :=
  [("", fooGlobal), ("ctx", fooGlobal), ("", fooGlobalNew)]

/-- The unknown-target `foo` stand-alone, the kubernetes `foo` in `ctx`, then
the global `foo` stand-alone. -/
def migrationRun : List (String × PluginInfo) :=
  [("", fooUnknown), ("ctx", fooK8s), ("", fooGlobal)]

/-- The unknown-target `foo` stand-alone and in `ctx`, then the global `foo`
stand-alone. -/
def danglingRun : List (String × PluginInfo) :=
  [("", fooUnknown), ("ctx", fooUnknown), ("", fooGlobal)]

/-! ## Loading the cache file -/

/-- The `Catalog` value right after `yaml.Unmarshal` in `getCatalogCache`: a map
that the file does not mention, or gives as null, is nil (`none`); the same
holds for the value of a context inside `ServerPlugins`. -/
structure DecodedCatalog where
  IndexByPath : Option (GoMap PluginInfo)
  IndexByName : Option (GoMap (List String))
  StandAlonePlugins : Option (GoMap String)
  ServerPlugins : Option (GoMap PluginAssociation)

/-- What `getCatalogCache` finds at the cache path.  Reading the file and
decoding YAML are outside the embedding, so their outcomes are the input: the
file cannot be read (then `ensureRoot` is run and yields its error, if any), the
content cannot be decoded, or the content decodes to a `DecodedCatalog`. -/
inductive CacheFile where
  | unreadable (ensureRoot : Option String)
  | undecodable (err : String)
  | decoded (c : DecodedCatalog)

/-- `getCatalogCache`: a fresh store when the file cannot be read, an error when
its content cannot be decoded, and otherwise the decoded store with each nil
top-level map replaced by an empty map. -/
def getCatalogCache : CacheFile → Except String Catalog
  | .unreadable none => .ok newSharedCatalog
  | .unreadable (some err) => .error err
  | .undecodable err => .error ("could not decode catalog file: " ++ err)
  | .decoded c =>
    .ok { IndexByPath := c.IndexByPath.getD ∅,
          IndexByName := c.IndexByName.getD ∅,
          StandAlonePlugins := c.StandAlonePlugins.getD ∅,
          ServerPlugins := c.ServerPlugins.getD ∅ }

/-- The whole of the source's `NewContextCatalog(context)`: `getCatalogCache`
and then the binding of the view. -/
def loadContextCatalog (file : CacheFile) (context : String) : Except String ContextCatalog :=
  match getCatalogCache file with
  | .error err => .error err
  | .ok sc => .ok (NewContextCatalog sc context)

/-- A decoded cache content without the three index maps and with a null entry
for the context `ctx` in `ServerPlugins`. -/
def nullContextFile : CacheFile :=
  .decoded { IndexByPath := none, IndexByName := none, StandAlonePlugins := none,
             ServerPlugins := some (AList.singleton "ctx" none) }

/-! ## Discovery: errors and the version ordering policy -/

/-- A Go `error` value as the discovery code builds or forwards it: the failure
of `SortVersions` on a version string, `errors.Wrap(f)` of a cause under a
message, the status error of `doRequest`
(`fmt.Errorf("API error, status code: %d", ...)`), or an error handed over by a
collaborator. -/
inductive GoError where
  | versionParse (version : String)
  | wrap (message : String) (cause : GoError)
  | apiStatus (statusCode : Int)
  | external (message : String)
  deriving DecidableEq, Repr

/-- Modelled from the spec: the precedence of the pre-release part of a
semantic version.  A version without pre-release (`⊤`) is above every
pre-release; pre-release identifiers are compared from the left, a numeric
identifier (by value) is below an alphanumeric one (by character codes), and a
list of identifiers is above each of its proper initial segments. -/
abbrev PreKey := WithTop (List (Nat ⊕ₗ List Nat))

/-- Modelled from the spec: the semantic-version precedence of the Version
Ordering Policy: major, minor and patch number compared in this order, then the
pre-release part.  Build metadata does not take part. -/
abbrev VersionKey := Nat ×ₗ Nat ×ₗ Nat ×ₗ PreKey

/-- The value of a string of decimal digits. -/
def numericValue (cs : List Char) : Nat :=
  cs.foldl (fun n c => 10 * n + (c.toNat - 48)) 0

/-- A numeric identifier: a non-empty string of digits without a leading zero. -/
def numericIdentifier (cs : List Char) : Option Nat :=
  if cs ≠ [] ∧ cs.all Char.isDigit = true ∧ (cs.length = 1 ∨ cs.head? ≠ some '0') then
    some (numericValue cs)
  else none

/-- The characters of an identifier: letters, digits and the hyphen. -/
def identifierChar (c : Char) : Bool := c.isAlphanum || c == '-'

/-- A pre-release identifier and its place in the precedence. -/
def preReleaseIdentifier (cs : List Char) : Option (Nat ⊕ₗ List Nat) :=
  if cs = [] ∨ cs.all identifierChar = false then none
  else if cs.all Char.isDigit = true then
    (numericIdentifier cs).map (fun n => toLex (Sum.inl n))
  else some (toLex (Sum.inr (cs.map Char.toNat)))

/-- A build-metadata identifier: non-empty, of identifier characters. -/
def buildIdentifier (cs : List Char) : Bool := !cs.isEmpty && cs.all identifierChar

/-- All the values of a list of options, when none is missing. -/
def allSome {α : Type} : List (Option α) → Option (List α)
  | [] => some []
  | none :: _ => none
  | some a :: rest => (allSome rest).map (fun l => a :: l)

/-- Split at the first occurrence of the separator, when there is one. -/
def splitFirst (sep : Char) (cs : List Char) : List Char × Option (List Char) :=
  match cs.span (fun c => c != sep) with
  | (a, []) => (a, none)
  | (a, _ :: b) => (a, some b)

/-- Modelled from the spec: the parser of the Version Ordering Policy, which is
outside the files at hand.  A semantic version is `MAJOR.MINOR.PATCH`, optionally
followed by `-` and dot-separated pre-release identifiers and by `+` and
dot-separated build identifiers; a leading `v`, as in the spec's `v1.2.0`, is
accepted.  The result is the precedence of the version, `none` for a malformed
string. -/
def parseVersion (s : String) : Option VersionKey :=
  let cs := match s.data with
    | 'v' :: rest => rest
    | cs => cs
  let mainBuild := splitFirst '+' cs
  let buildOk := match mainBuild.2 with
    | none => true
    | some b => (b.splitOn '.').all buildIdentifier
  let corePre := splitFirst '-' mainBuild.1
  let preKey : Option PreKey := match corePre.2 with
    | none => some ⊤
    | some p =>
      (allSome ((p.splitOn '.').map preReleaseIdentifier)).map (fun l => (↑l : PreKey))
  match buildOk, preKey, (corePre.1.splitOn '.').map numericIdentifier with
  | true, some pk, [some major, some minor, some patch] =>
    some (toLex (major, toLex (minor, toLex (patch, pk))))
  | _, _, _ => none

/-- The precedence of a version string, with every malformed string at the bottom. -/
def keyOf (s : String) : WithBot VersionKey := parseVersion s

/-- The first version string is not above the second in semantic-version order. -/
def versionLE (a b : String) : Prop := keyOf a ≤ keyOf b

instance : DecidableRel versionLE := fun a b => by
  unfold versionLE
  infer_instance

instance : IsTotal String versionLE := ⟨fun a b => le_total (keyOf a) (keyOf b)⟩

instance : IsTrans String versionLE :=
  ⟨fun _ _ _ h1 h2 => le_trans (α := WithBot VersionKey) h1 h2⟩

/-- Modelled from the spec: `utils.SortVersions` is outside the files at hand.
It parses every string of the slice as a semantic version, fails at the first
one that does not parse (a malformed version is surfaced, never skipped) and
otherwise reorders the slice into ascending semantic-version order. -/
def SortVersions (vStrArr : List String) : Except GoError (List String) :=
  match vStrArr.find? (fun v => (parseVersion v).isNone) with
  | some v => .error (.versionParse v)
  | none => .ok (vStrArr.insertionSort versionLE)

/-! ## Discovery: records -/

/-- Modelled from the spec: `cliv1alpha1.Artifact` is declared outside the files
at hand: where to fetch one build of a plugin version (image reference or URI,
digest, operating system, architecture, type). -/
structure Artifact where
  Image : String
  URI : String
  Digest : String
  OS : String
  Arch : String
  ArtifactType : String
  deriving DecidableEq, Repr

/-- The type `cliv1alpha1.ArtifactList`, a slice of artifacts. -/
abbrev ArtifactList := List Artifact

/-- Modelled from the spec: the `Spec` of a `cliv1alpha1.CLIPlugin`, declared
outside the files at hand, with the fields the discovery code reads.  A nil
`Artifacts` map is read as the empty map. -/
structure CLIPluginSpec where
  Description : String
  RecommendedVersion : String
  Artifacts : GoMap ArtifactList
  Optional : Bool
  Target : String

/-- Modelled from the spec: the `cliv1alpha1.CLIPlugin` resource, declared
outside the files at hand: the resource name and its `Spec`. -/
structure CLIPlugin where
  Name : String
  Spec : CLIPluginSpec

/-- The REST payload entry `Plugin`.  A nil `Artifacts` map is read as the empty map. -/
structure Plugin where
  Name : String
  Description : String
  RecommendedVersion : String
  Artifacts : GoMap ArtifactList
  Optional : Bool
  Target : String

/-- The REST payload `ListPluginsResponse`. -/
structure ListPluginsResponse where
  Plugins : List Plugin

/-- Modelled from the spec: the canonical record `Discovered`, declared outside
the files at hand: name, description, recommended version, optional flag,
target, supported versions, distribution descriptor (`none` is the nil
interface), source discovery name and discovery type tag. -/
structure Discovered where
  Name : String
  Description : String
  RecommendedVersion : String
  SupportedVersions : List String
  Distribution : Option (GoMap ArtifactList)
  Optional : Bool
  Source : String
  DiscoveryType : String
  Target : String

/-- Modelled from the spec: `distribution.ArtifactsFromK8sV1alpha1` is outside
the files at hand; the descriptor keeps, for each version, the artifact list of
that version. -/
def ArtifactsFromK8sV1alpha1 (artifacts : GoMap ArtifactList) : GoMap ArtifactList :=
  artifacts

/-- Modelled from the spec: `common.DiscoveryTypeKubernetes`, the type tag of the
Kubernetes backend. -/
def DiscoveryTypeKubernetes : String := "kubernetes"

/-- Modelled from the spec: `common.DiscoveryTypeREST`, the type tag of the REST
backend. -/
def DiscoveryTypeREST : String := "rest"

/-! ## Discovery: image repository override -/

/-- The function `strings.HasPrefix`. -/
def HasPrefix (s pre : String) : Bool := pre.data.isPrefixOf s.data

/-- The call `strings.Replace(s, old, new, 1)` on character lists: the first
occurrence of `old` is replaced by `new`; an empty `old` matches at the start. -/
def replaceOnce (old new : List Char) : List Char → List Char
  | [] => if old = [] then new else []
  | c :: cs =>
    if old.isPrefixOf (c :: cs) then new ++ (c :: cs).drop old.length
    else c :: replaceOnce old new cs

/-- The call `strings.Replace(s, old, new, 1)`. -/
def Replace1 (s old new : String) : String :=
  ⟨replaceOnce old.data new.data s.data⟩

/-- The closure `replaceImageRepository` of
`UpdateArtifactsBasedOnImageRepositoryOverride`.  Go leaves the order of `range`
over the override map unspecified, so the pairs (original, override) come as a
list in the order they are visited. -/
def replaceImageRepository (imageRepoOverride : List (String × String)) (a : Artifact) :
    Artifact :=
  if a.Image ≠ "" then
    imageRepoOverride.foldl
      (fun a pair =>
        if HasPrefix a.Image pair.1 then { a with Image := Replace1 a.Image pair.1 pair.2 }
        else a)
      a
  else a

/-- Apply a function to every value of a map. -/
def GoMap.mapValues {V W : Type} (f : V → W) (m : GoMap V) : GoMap W :=
  ⟨m.entries.map (fun e => ⟨e.1, f e.2⟩), by
    have h := m.nodupKeys
    rw [List.nodupKeys_iff_pairwise] at h ⊢
    exact List.Pairwise.map _ (fun _ _ hab => hab) h⟩

/-- `UpdateArtifactsBasedOnImageRepositoryOverride`: every artifact of every
version goes through `replaceImageRepository`; the plugin is returned in place
of the in-place update. -/
def UpdateArtifactsBasedOnImageRepositoryOverride (p : CLIPlugin)
    (imageRepoOverride : List (String × String)) : CLIPlugin :=
  { p with Spec :=
      { p.Spec with
        Artifacts := p.Spec.Artifacts.mapValues
          (fun l => l.map (replaceImageRepository imageRepoOverride)) } }

/-! ## Discovery: normalisation -/

/-- `DiscoveredFromK8sV1alpha1WithImageRepositoryOverride`.  The result is the
pair (record, error) of the source, `none` being the nil error.  The version keys
are collected in the order of the map's entries (Go leaves the order
unspecified; they are then sorted).  `configtypes.StringToTarget` belongs to the
plugin runtime library and is a parameter. -/
def DiscoveredFromK8sV1alpha1WithImageRepositoryOverride (StringToTarget : String → String)
    (p : CLIPlugin) (imageRepoOverride : List (String × String)) :
    Discovered × Option GoError :=
  let p := UpdateArtifactsBasedOnImageRepositoryOverride p imageRepoOverride
  let dp : Discovered :=
    { Name := p.Name,
      Description := p.Spec.Description,
      RecommendedVersion := p.Spec.RecommendedVersion,
      SupportedVersions := p.Spec.Artifacts.keys,
      Distribution := none,
      Optional := p.Spec.Optional,
      Source := "",
      DiscoveryType := "",
      Target := StringToTarget p.Spec.Target }
  match SortVersions dp.SupportedVersions with
  | .error err =>
    (dp, some (.wrap ("error parsing supported versions for plugin " ++ p.Name) err))
  | .ok sorted =>
    ({ dp with SupportedVersions := sorted,
               Distribution := some (ArtifactsFromK8sV1alpha1 p.Spec.Artifacts) }, none)

/-- `DiscoveredFromREST`, with the same conventions as
`DiscoveredFromK8sV1alpha1WithImageRepositoryOverride`. -/
def DiscoveredFromREST (StringToTarget : String → String) (p : Plugin) :
    Discovered × Option GoError :=
  let dp : Discovered :=
    { Name := p.Name,
      Description := p.Description,
      RecommendedVersion := p.RecommendedVersion,
      SupportedVersions := p.Artifacts.keys,
      Distribution := none,
      Optional := p.Optional,
      Source := "",
      DiscoveryType := "",
      Target := StringToTarget p.Target }
  match SortVersions dp.SupportedVersions with
  | .error err =>
    (dp, some (.wrap ("error parsing supported versions for plugin " ++ p.Name) err))
  | .ok sorted =>
    ({ dp with SupportedVersions := sorted,
               Distribution := some (ArtifactsFromK8sV1alpha1 p.Artifacts) }, none)

/-! ## Discovery: the Kubernetes backend -/

/-- The struct `KubernetesDiscovery`. -/
structure KubernetesDiscovery where
  name : String
  kubeconfigPath : String
  kubecontext : String

/-- `KubernetesDiscovery.Name`. -/
def KubernetesDiscovery.Name (k : KubernetesDiscovery) : String := k.name

/-- `KubernetesDiscovery.Type`. -/
def KubernetesDiscovery.Type (_k : KubernetesDiscovery) : String := DiscoveryTypeKubernetes

/-- The collaborator `cluster.Client`, by what each of its three methods
returns when called: the pair (value, error) of the Go signature, `none` being
the nil error. -/
structure ClusterClient where
  VerifyCLIPluginCRD : Bool × Option GoError
  ListCLIPluginResources : List CLIPlugin × Option GoError
  GetCLIPluginImageRepositoryOverride : List (String × String) × Option GoError

/-- The loop of `GetDiscoveredPlugins` (lines 84-92): each resource is
normalised, stamped with the backend's name and type and appended to `plugins`;
the first error ends the loop. -/
def KubernetesDiscovery.convertAll (k : KubernetesDiscovery) (StringToTarget : String → String)
    (imageRepositoryOverride : List (String × String)) :
    List Discovered → List CLIPlugin → Except GoError (List Discovered)
  | plugins, [] => .ok plugins
  | plugins, p :: rest =>
    match DiscoveredFromK8sV1alpha1WithImageRepositoryOverride StringToTarget p
        imageRepositoryOverride with
    | (_, some err) => .error err
    | (dp, none) =>
      KubernetesDiscovery.convertAll k StringToTarget imageRepositoryOverride
        (plugins ++ [{ dp with Source := k.name, DiscoveryType := k.Type }]) rest

/-- `KubernetesDiscovery.GetDiscoveredPlugins`.  The result is the pair (list,
error) of the source: `none` in the first place is the nil slice, `none` in the
second the nil error.  An error of `GetCLIPluginImageRepositoryOverride` is only
logged. -/
def KubernetesDiscovery.GetDiscoveredPlugins (k : KubernetesDiscovery)
    (StringToTarget : String → String) (clusterClient : ClusterClient) :
    Option (List Discovered) × Option GoError :=
  if clusterClient.VerifyCLIPluginCRD.1 = false ∨ clusterClient.VerifyCLIPluginCRD.2 ≠ none then
    (none, none)
  else
    match clusterClient.ListCLIPluginResources with
    | (_, some err) => (none, some err)
    | (cliplugins, none) =>
      match k.convertAll StringToTarget clusterClient.GetCLIPluginImageRepositoryOverride.1
          [] cliplugins with
      | .error err => (none, some err)
      | .ok plugins => (some plugins, none)

/-! ## Discovery: the REST backend -/

/-- The struct `RESTDiscovery`, without its HTTP client. -/
structure RESTDiscovery where
  name : String
  endpoint : String
  basePath : String

/-- `RESTDiscovery.Name`. -/
def RESTDiscovery.Name (d : RESTDiscovery) : String := d.name

/-- `RESTDiscovery.Type`. -/
def RESTDiscovery.Type (_d : RESTDiscovery) : String := DiscoveryTypeREST

/-- An HTTP response as `doRequest` uses it: the status code, and what decoding
the body as a `ListPluginsResponse` yields (JSON decoding is outside the
embedding). -/
structure Response where
  StatusCode : Int
  Body : Except GoError ListPluginsResponse

/-- What the HTTP collaborators of `List` return: the error of
`http.NewRequestWithContext`, if any, and the result of `client.Do`. -/
structure Exchange where
  newRequest : Option GoError
  response : Except GoError Response

/-- `RESTDiscovery.doRequest`, given the result of `client.Do`: the transport
error, the status error for a status code below 200 or from 400 on, and
otherwise the outcome of decoding the body. -/
def RESTDiscovery.doRequest (res : Except GoError Response) :
    Except GoError ListPluginsResponse :=
  match res with
  | .error err => .error err
  | .ok res =>
    if res.StatusCode < 200 ∨ res.StatusCode ≥ 400 then .error (.apiStatus res.StatusCode)
    else res.Body

/-- The loop of `RESTDiscovery.List` (lines 119-129): each entry is normalised,
an error ends the loop, an entry with an empty name is skipped, and every other
record is stamped with the backend's name and appended to `plugins`. -/
def RESTDiscovery.convertAll (d : RESTDiscovery) (StringToTarget : String → String) :
    List Discovered → List Plugin → Except GoError (List Discovered)
  | plugins, [] => .ok plugins
  | plugins, p :: rest =>
    match DiscoveredFromREST StringToTarget p with
    | (_, some err) => .error err
    | (dp, none) =>
      if dp.Name = "" then RESTDiscovery.convertAll d StringToTarget plugins rest
      else
        RESTDiscovery.convertAll d StringToTarget (plugins ++ [{ dp with Source := d.name }]) rest

/-- `RESTDiscovery.List`, with the result pair (list, error) as for
`GetDiscoveredPlugins`. -/
def RESTDiscovery.List (d : RESTDiscovery) (StringToTarget : String → String)
    (x : Exchange) : Option (List Discovered) × Option GoError :=
  match x.newRequest with
  | some err => (none, some err)
  | none =>
    match RESTDiscovery.doRequest x.response with
    | .error err => (none, some err)
    | .ok res =>
      match d.convertAll StringToTarget [] res.Plugins with
      | .error err => (none, some err)
      | .ok plugins => (some plugins, none)

/-! ## Concrete discovery inputs -/

/-- An artifact with an image reference. -/
def imageArtifact : Artifact :=
  { Image := "registry.example/foo:v1", URI := "", Digest := "", OS := "linux",
    Arch := "amd64", ArtifactType := "oci" }

/-- The artifact map decoded from a payload that lists the versions `v1.2.0`,
`v1.0.0` and `v1.2.0` again: a map keeps one entry per key. -/
def duplicateArtifacts : GoMap ArtifactList :=
  (["v1.2.0", "v1.0.0", "v1.2.0"].map
    (fun v => (⟨v, [imageArtifact]⟩ : Sigma fun _ : String => ArtifactList))).toAList

/-- An artifact map with the malformed version key `latest`. -/
def malformedArtifacts : GoMap ArtifactList :=
  (AList.singleton "v1.0.0" [imageArtifact]).insert "latest" [imageArtifact]

/-- The REST payload entry `foo` with `duplicateArtifacts`. -/
def restFoo : Plugin :=
  { Name := "foo", Description := "", RecommendedVersion := "v1.2.0",
    Artifacts := duplicateArtifacts, Optional := false, Target := "kubernetes" }

/-- The REST payload entry `bar` with a malformed version key. -/
def restBar : Plugin :=
  { Name := "bar", Description := "", RecommendedVersion := "",
    Artifacts := malformedArtifacts, Optional := false, Target := "" }

/-- A REST payload entry with an empty name and well-formed versions. -/
def restUnnamed : Plugin :=
  { Name := "", Description := "", RecommendedVersion := "",
    Artifacts := duplicateArtifacts, Optional := false, Target := "" }

/-- A REST payload entry with an empty name and a malformed version key. -/
def restUnnamedMalformed : Plugin :=
  { Name := "", Description := "", RecommendedVersion := "",
    Artifacts := malformedArtifacts, Optional := false, Target := "" }

/-- The CLIPlugin resource `foo` with `duplicateArtifacts`. -/
def k8sFoo : CLIPlugin :=
  { Name := "foo",
    Spec := { Description := "", RecommendedVersion := "v1.2.0",
              Artifacts := duplicateArtifacts, Optional := false, Target := "kubernetes" } }

/-- The CLIPlugin resource `bar` with a malformed version key. -/
def k8sBar : CLIPlugin :=
  { Name := "bar",
    Spec := { Description := "", RecommendedVersion := "",
              Artifacts := malformedArtifacts, Optional := false, Target := "" } }

/-- A REST backend named `central`. -/
def restCentral : RESTDiscovery :=
  { name := "central", endpoint := "api.example", basePath := "v1alpha1/cli/plugins" }

/-- A Kubernetes backend named `cluster`. -/
def k8sCluster : KubernetesDiscovery :=
  { name := "cluster", kubeconfigPath := "/kubeconfig", kubecontext := "ctx" }

/-- An exchange whose response has the given status code and a body that
decodes to the given entries. -/
def exchangeWith (statusCode : Int) (plugins : List Plugin) : Exchange :=
  { newRequest := none,
    response := .ok { StatusCode := statusCode, Body := .ok { Plugins := plugins } } }

/-- A cluster client on a cluster with the CLIPlugin resource type, the given
resources and no image repository override. -/
def clientWith (cliplugins : List CLIPlugin) : ClusterClient :=
  { VerifyCLIPluginCRD := (true, none),
    ListCLIPluginResources := (cliplugins, none),
    GetCLIPluginImageRepositoryOverride := ([], none) }

/-- A cluster client on a cluster without the CLIPlugin resource type, whose
other methods would return the resource `foo`. -/
def clientWithoutCRD : ClusterClient :=
  { VerifyCLIPluginCRD := (false, none),
    ListCLIPluginResources := ([k8sFoo], none),
    GetCLIPluginImageRepositoryOverride := ([], none) }

/-! ## Configuration: string helpers -/

/-- The predicate `unicode.IsSpace`, by which `strings.TrimSpace` recognises
white space. -/
def IsSpace (c : Char) : Bool :=
  (9 ≤ c.toNat && c.toNat ≤ 13) || c.toNat == 32 || c.toNat == 133 || c.toNat == 160 ||
  c.toNat == 5760 || (8192 ≤ c.toNat && c.toNat ≤ 8202) || c.toNat == 8232 ||
  c.toNat == 8233 || c.toNat == 8239 || c.toNat == 8287 || c.toNat == 12288

/-- Drop the characters that satisfy `p` from both ends of a character list. -/
def trimChars (p : Char → Bool) (cs : List Char) : List Char :=
  ((cs.dropWhile p).reverse.dropWhile p).reverse

/-- The function `strings.TrimSpace`. -/
def TrimSpace (s : String) : String := ⟨trimChars IsSpace s.data⟩

/-- The function `strings.Trim(s, cutset)`: the characters of `cutset` are
removed from both ends of `s`. -/
def Trim (s cutset : String) : String := ⟨trimChars (fun c => cutset.data.contains c) s.data⟩

/-- The pieces of a character list between the occurrences of `sep`. -/
def splitChars (sep : Char) : List Char → List (List Char)
  | [] => [[]]
  | c :: cs =>
    if c = sep then [] :: splitChars sep cs
    else
      match splitChars sep cs with
      | [] => [[c]]
      | w :: ws => (c :: w) :: ws

/-- The call `strings.Split(s, sep)` for a separator of one character, as in
`strings.Split(s, ",")`; the empty string splits into one empty piece. -/
def Split (s : String) (sep : Char) : List String := (splitChars sep s.data).map String.mk

/-! ## Configuration: defaults and trust -/

/-- The build-time variables of `pkg/config/defaults.go` that the functions
below read. -/
structure BuildVariables where
  DefaultAllowedPluginRepositories : String
  DefaultStandaloneDiscoveryRepository : String
  DefaultStandaloneDiscoveryImagePath : String
  DefaultStandaloneDiscoveryImageTag : String

/-- The environment as the functions below read it: for each variable named by
a constant of the package `constants`, the string `os.Getenv` returns for it
(the empty string for an unset variable). -/
structure Environment where
  ConfigVariableCustomImageRepository : String
  ConfigVariableDefaultStandaloneDiscoveryImagePath : String
  ConfigVariableDefaultStandaloneDiscoveryImageTag : String
  ConfigVariablePreReleasePluginRepoImage : String
  ConfigVariableAdditionalDiscoveryForTesting : String
  AllowedRegistries : String

/-- The part of a parsed `url.URL` that is read: the host name. -/
structure URL where
  hostname : String

/-- The method `Hostname` of a parsed `url.URL`. -/
def URL.Hostname (u : URL) : String := u.hostname

/-- `GetDefaultStandaloneDiscoveryImage`: each of repository, image path and
tag is the build-time default unless its environment variable is non-empty;
repository and path lose their leading and trailing slashes. -/
def GetDefaultStandaloneDiscoveryImage (b : BuildVariables) (env : Environment) : String :=
  let defaultStandaloneDiscoveryRepository :=
    if env.ConfigVariableCustomImageRepository ≠ "" then env.ConfigVariableCustomImageRepository
    else b.DefaultStandaloneDiscoveryRepository
  let defaultStandaloneDiscoveryImagePath :=
    if env.ConfigVariableDefaultStandaloneDiscoveryImagePath ≠ "" then
      env.ConfigVariableDefaultStandaloneDiscoveryImagePath
    else b.DefaultStandaloneDiscoveryImagePath
  let defaultStandaloneDiscoveryImageTag :=
    if env.ConfigVariableDefaultStandaloneDiscoveryImageTag ≠ "" then
      env.ConfigVariableDefaultStandaloneDiscoveryImageTag
    else b.DefaultStandaloneDiscoveryImageTag
  Trim defaultStandaloneDiscoveryRepository "/" ++ "/" ++
    Trim defaultStandaloneDiscoveryImagePath "/" ++ ":" ++ defaultStandaloneDiscoveryImageTag

/-- `GetAdditionalTestDiscoveryImages`: the trimmed, non-empty pieces of the
comma-separated variable. -/
def GetAdditionalTestDiscoveryImages (env : Environment) : List String :=
  (Split env.ConfigVariableAdditionalDiscoveryForTesting ',').foldl
    (fun additionalImages image =>
      if TrimSpace image ≠ "" then additionalImages ++ [TrimSpace image] else additionalImages)
    []

/-- The statement `if u, err := url.ParseRequestURI("https://" + image); err == nil
{ trustedRegistries = append(trustedRegistries, u.Hostname()) }`. -/
def appendHostname (ParseRequestURI : String → Except GoError URL)
    (trustedRegistries : List String) (image : String) : List String :=
  match ParseRequestURI ("https://" ++ image) with
  | .ok u => trustedRegistries ++ [u.Hostname]
  | .error _ => trustedRegistries

/-- The loop `for _, r := range strings.Split(list, ",")` that appends every
trimmed piece. -/
def appendTrimmed (trustedRegistries : List String) (list : String) : List String :=
  (Split list ',').foldl (fun trustedRegistries r => trustedRegistries ++ [TrimSpace r])
    trustedRegistries

/-- `GetTrustedRegistries`.  The library function `url.ParseRequestURI` and the
constant `constants.TanzuCLIDefaultCentralPluginDiscoveryImage` are outside the
files at hand and come as parameters. -/
def GetTrustedRegistries (ParseRequestURI : String → Except GoError URL)
    (TanzuCLIDefaultCentralPluginDiscoveryImage : String)
    (b : BuildVariables) (env : Environment) : List String :=
  let trustedRegistries : List String := []
  let trustedRegistries :=
    if b.DefaultAllowedPluginRepositories ≠ "" then
      appendTrimmed trustedRegistries b.DefaultAllowedPluginRepositories
    else trustedRegistries
  let trustedRegistries :=
    if env.ConfigVariableCustomImageRepository ≠ "" then
      trustedRegistries ++ [env.ConfigVariableCustomImageRepository]
    else trustedRegistries
  let trustedRegistries :=
    if env.ConfigVariablePreReleasePluginRepoImage ≠ "" then
      appendHostname ParseRequestURI trustedRegistries env.ConfigVariablePreReleasePluginRepoImage
    else trustedRegistries
  let trustedRegistries :=
    appendHostname ParseRequestURI trustedRegistries TanzuCLIDefaultCentralPluginDiscoveryImage
  let trustedRegistries :=
    (GetAdditionalTestDiscoveryImages env).foldl (appendHostname ParseRequestURI)
      trustedRegistries
  let trustedRegistries :=
    if env.AllowedRegistries ≠ "" then appendTrimmed trustedRegistries env.AllowedRegistries
    else trustedRegistries
  trustedRegistries

/-- Modelled from the spec: `configtypes.GCPPluginRepository` is declared outside
the files at hand; the bucket name and the repository name. -/
structure GCPPluginRepository where
  BucketName : String
  Name : String

/-- `AdvancedRepositoryName`. -/
def AdvancedRepositoryName : String := "advanced"

/-- `AdvancedGCPBucketRepository`. -/
def AdvancedGCPBucketRepository : GCPPluginRepository :=
  { BucketName := "tanzu-cli-advanced-plugins", Name := AdvancedRepositoryName }

/-- `DefaultTMCPluginsArtifactRepository`. -/
def DefaultTMCPluginsArtifactRepository : String :=
  "https://tmc-cli.s3-us-west-2.amazonaws.com/plugins/artifacts"

/-- `getHTTPURIForGCPPluginRepository`:
`fmt.Sprintf("https://storage.googleapis.com/%s/", repo.BucketName)`. -/
def getHTTPURIForGCPPluginRepository (repo : GCPPluginRepository) : String :=
  "https://storage.googleapis.com/" ++ repo.BucketName ++ "/"

/-- `GetTrustedArtifactLocations`. -/
def GetTrustedArtifactLocations : List String :=
  [getHTTPURIForGCPPluginRepository AdvancedGCPBucketRepository,
    DefaultTMCPluginsArtifactRepository]

/-! ## Discovery sources -/

/-- Modelled from the spec: `configtypes.GCPDiscovery` is declared outside the
files at hand; the fields that are compared. -/
structure GCPDiscovery where
  Name : String
  Bucket : String
  ManifestPath : String

/-- Modelled from the spec: `configtypes.OCIDiscovery` is declared outside the
files at hand; the fields that are compared. -/
structure OCIDiscovery where
  Name : String
  Image : String

/-- Modelled from the spec: `configtypes.LocalDiscovery` is declared outside the
files at hand; the fields that are compared. -/
structure LocalDiscovery where
  Name : String
  Path : String

/-- Modelled from the spec: `configtypes.KubernetesDiscovery` is declared outside
the files at hand; the fields that are compared. -/
structure configtypes.KubernetesDiscovery where
  Name : String
  Path : String
  Context : String

/-- Modelled from the spec: `configtypes.GenericRESTDiscovery` is declared
outside the files at hand; the fields that are compared. -/
structure GenericRESTDiscovery where
  Name : String
  Endpoint : String
  BasePath : String

/-- Modelled from the spec: `configtypes.PluginDiscovery` is declared outside the
files at hand: one optional configuration per discovery type (`none` is the nil
pointer). -/
structure PluginDiscovery where
  GCP : Option GCPDiscovery
  OCI : Option OCIDiscovery
  Local : Option LocalDiscovery
  Kubernetes : Option configtypes.KubernetesDiscovery
  REST : Option GenericRESTDiscovery

/-- Modelled from the spec: `common.DiscoveryTypeLocal`. -/
def DiscoveryTypeLocal : String := "local"

/-- Modelled from the spec: `common.DiscoveryTypeOCI`. -/
def DiscoveryTypeOCI : String := "oci"

/-- Modelled from the spec: `common.DiscoveryTypeGCP`. -/
def DiscoveryTypeGCP : String := "gcp"

/-- `compareGCPDiscoverySources`. -/
def compareGCPDiscoverySources (ds1 ds2 : PluginDiscovery) : Bool :=
  match ds1.GCP, ds2.GCP with
  | some g1, some g2 =>
    g1.Name == g2.Name && g1.Bucket == g2.Bucket && g1.ManifestPath == g2.ManifestPath
  | _, _ => false

/-- `compareLocalDiscoverySources`. -/
def compareLocalDiscoverySources (ds1 ds2 : PluginDiscovery) : Bool :=
  match ds1.Local, ds2.Local with
  | some l1, some l2 => l1.Name == l2.Name && l1.Path == l2.Path
  | _, _ => false

/-- `compareOCIDiscoverySources`. -/
def compareOCIDiscoverySources (ds1 ds2 : PluginDiscovery) : Bool :=
  match ds1.OCI, ds2.OCI with
  | some o1, some o2 => o1.Name == o2.Name && o1.Image == o2.Image
  | _, _ => false

/-- `compareK8sDiscoverySources`. -/
def compareK8sDiscoverySources (ds1 ds2 : PluginDiscovery) : Bool :=
  match ds1.Kubernetes, ds2.Kubernetes with
  | some k1, some k2 => k1.Name == k2.Name && k1.Path == k2.Path && k1.Context == k2.Context
  | _, _ => false

/-- `compareRESTDiscoverySources`. -/
def compareRESTDiscoverySources (ds1 ds2 : PluginDiscovery) : Bool :=
  match ds1.REST, ds2.REST with
  | some r1, some r2 =>
    r1.Name == r2.Name && r1.BasePath == r2.BasePath && r1.Endpoint == r2.Endpoint
  | _, _ => false

/-- `CompareDiscoverySource`: the `switch` on the type string. -/
def CompareDiscoverySource (ds1 ds2 : PluginDiscovery) (dsType : String) : Bool :=
  if dsType = DiscoveryTypeLocal then compareLocalDiscoverySources ds1 ds2
  else if dsType = DiscoveryTypeOCI then compareOCIDiscoverySources ds1 ds2
  else if dsType = DiscoveryTypeKubernetes then compareK8sDiscoverySources ds1 ds2
  else if dsType = DiscoveryTypeGCP then compareGCPDiscoverySources ds1 ds2
  else if dsType = DiscoveryTypeREST then compareRESTDiscoverySources ds1 ds2
  else false

/-! ## Override pairs that do not interact -/

/-- The body of the loop of `replaceImageRepository` for one override pair. -/
def overrideStep (a : Artifact) (pair : String × String) : Artifact :=
  if HasPrefix a.Image pair.1 then { a with Image := Replace1 a.Image pair.1 pair.2 } else a

/-- The override pairs do not interact on the image: when the original of one
pair is a prefix of the image, the original of no other pair is a prefix of the
image or of the image as that pair rewrites it. -/
def nonInterfering (imageRepoOverride : List (String × String)) (image : String) : Prop :=
  ∀ pair ∈ imageRepoOverride, HasPrefix image pair.1 = true →
    ∀ other ∈ imageRepoOverride, other.1 ≠ pair.1 →
      HasPrefix image other.1 = false ∧
      HasPrefix (Replace1 image pair.1 pair.2) other.1 = false

instance (imageRepoOverride : List (String × String)) (image : String) :
    Decidable (nonInterfering imageRepoOverride image) := by
  unfold nonInterfering
  infer_instance

/-! ## Concrete configuration and override inputs -/

/-- An artifact whose image lies under `a.com/tkg`. -/
def tkgArtifact : Artifact :=
  { Image := "a.com/tkg/p:v1", URI := "", Digest := "", OS := "linux", Arch := "amd64",
    ArtifactType := "oci" }

/-- The CLIPlugin resource `p` with the one version `v1.0.0` and `tkgArtifact`. -/
def tkgPlugin : CLIPlugin :=
  { Name := "p",
    Spec := { Description := "", RecommendedVersion := "v1.0.0",
              Artifacts := AList.singleton "v1.0.0" [tkgArtifact], Optional := false,
              Target := "kubernetes" } }

/-- An override map with two pairs whose originals are both a prefix of the image
of `tkgArtifact`, in one visiting order. -/
def overlappingOverride : List (String × String) :=
  [("a.com/tkg", "x.com/tkg"), ("a.com", "y.com")]

/-- An override map with two pairs for two unrelated registries, in one visiting
order. -/
def disjointOverride : List (String × String) :=
  [("a.com", "x.com"), ("b.com", "y.com")]

/-- The build-time defaults that the test helper
`configureTestDefaultStandaloneDiscoveryOCI` sets. -/
def testDefaults : BuildVariables :=
  { DefaultAllowedPluginRepositories := "",
    DefaultStandaloneDiscoveryRepository := "fake.image.repo",
    DefaultStandaloneDiscoveryImagePath := "package/standalone-plugins",
    DefaultStandaloneDiscoveryImageTag := "v1.0.0" }

/-- An environment in which none of the variables is set. -/
def unsetEnvironment : Environment :=
  { ConfigVariableCustomImageRepository := "",
    ConfigVariableDefaultStandaloneDiscoveryImagePath := "",
    ConfigVariableDefaultStandaloneDiscoveryImageTag := "",
    ConfigVariablePreReleasePluginRepoImage := "",
    ConfigVariableAdditionalDiscoveryForTesting := "",
    AllowedRegistries := "" }

/-- The environment of the test
`TestConfigPopulateDefaultStandaloneDiscoveryEnvVariables`: repository, image
path and image tag are overridden. -/
def testEnvironment : Environment :=
  { unsetEnvironment with
    ConfigVariableCustomImageRepository := "env.fake.image.repo",
    ConfigVariableDefaultStandaloneDiscoveryImagePath := "package/env/standalone-plugins",
    ConfigVariableDefaultStandaloneDiscoveryImageTag := "v2.0.0" }

/-- Build-time variables with the allow-list `a.com,b.com`. -/
def trustDefaults : BuildVariables :=
  { testDefaults with DefaultAllowedPluginRepositories := "a.com,b.com" }

/-- An environment in which only `AllowedRegistries` is set, to `c.com`. -/
def allowedEnvironment : Environment :=
  { unsetEnvironment with AllowedRegistries := "c.com" }

/-- Build-time variables whose allow-list ends in a comma. -/
def trailingCommaDefaults : BuildVariables :=
  { testDefaults with DefaultAllowedPluginRepositories := "a.com," }

/-- Build-time variables whose allow-list is one blank. -/
def blankDefaults : BuildVariables :=
  { testDefaults with DefaultAllowedPluginRepositories := " " }

/-- An environment in which only `AllowedRegistries` is set, with an empty piece
between two commas. -/
def emptyPieceEnvironment : Environment :=
  { unsetEnvironment with AllowedRegistries := "c.com,,d.com" }

/-- Build-time variables whose allow-list has white space around its pieces: a
blank before and after `a.com`, a tab before `b.com`. -/
def spacedDefaults : BuildVariables :=
  { testDefaults with DefaultAllowedPluginRepositories := " a.com ,\tb.com" }

/-- An environment whose comma-separated variables have white space around
their pieces, and an empty piece among the additional test discovery images. -/
def spacedEnvironment : Environment :=
  { unsetEnvironment with
    ConfigVariableAdditionalDiscoveryForTesting := " x.example/a , ,y.example/b\n",
    AllowedRegistries := "  c.com " }

/-- A central discovery image for the examples. -/
def centralImage : String := "registry.example/plugins/plugin-inventory:latest"

/-- A stand-in for `url.ParseRequestURI` on the strings of the examples: a string
with a blank or without the scheme `https://` is rejected, otherwise the host
name is what stands between the scheme and the first `/` or `:`. -/
def hostBeforePath (rawURL : String) : Except GoError URL :=
  if HasPrefix rawURL "https://" = true ∧ ' ' ∉ rawURL.data then
    .ok ⟨⟨(rawURL.data.drop 8).takeWhile (fun c => c != '/' && c != ':')⟩⟩
  else .error (.external "invalid URI for request")

/-- A discovery source with an OCI configuration only. -/
def ociSource : PluginDiscovery :=
  { GCP := none,
    OCI := some { Name := "default", Image := "fake.image.repo/package/standalone-plugins:v1.0.0" },
    Local := none, Kubernetes := none, REST := none }

/-- A discovery source with the OCI configuration of `ociSource` under another
image. -/
def ociSourceOther : PluginDiscovery :=
  { GCP := none, OCI := some { Name := "default", Image := "fake.image/path:v2.0.0" },
    Local := none, Kubernetes := none, REST := none }

/-! ## Basic facts about the reference `plugins` -/

theorem setPlugins_context (c : ContextCatalog) (m : GoMap String) :
    (c.setPlugins m).context = c.context := by
  unfold ContextCatalog.setPlugins
  split <;> rfl

theorem plugins_setPlugins (c : ContextCatalog) (m : GoMap String) :
    (c.setPlugins m).plugins = some m := by
  rw [ContextCatalog.plugins, setPlugins_context]
  by_cases h : c.context = ""
  · simp [ContextCatalog.setPlugins, h]
  · simp [ContextCatalog.setPlugins, h, AList.lookup_insert]

theorem setPlugins_IndexByPath (c : ContextCatalog) (m : GoMap String) :
    (c.setPlugins m).sharedCatalog.IndexByPath = c.sharedCatalog.IndexByPath := by
  unfold ContextCatalog.setPlugins
  split <;> rfl

theorem setPlugins_IndexByName (c : ContextCatalog) (m : GoMap String) :
    (c.setPlugins m).sharedCatalog.IndexByName = c.sharedCatalog.IndexByName := by
  unfold ContextCatalog.setPlugins
  split <;> rfl

theorem setPlugins_StandAlone_of_ne (c : ContextCatalog) (m : GoMap String)
    (h : c.context ≠ "") :
    (c.setPlugins m).sharedCatalog.StandAlonePlugins = c.sharedCatalog.StandAlonePlugins := by
  unfold ContextCatalog.setPlugins
  simp [h]

theorem setPlugins_ServerPlugins_of_eq (c : ContextCatalog) (m : GoMap String)
    (h : c.context = "") :
    (c.setPlugins m).sharedCatalog.ServerPlugins = c.sharedCatalog.ServerPlugins := by
  unfold ContextCatalog.setPlugins
  simp [h]

theorem setPlugins_ServerPlugins_lookup_ne (c : ContextCatalog) (m : GoMap String)
    (ctx : String) (h : ctx ≠ c.context) :
    (c.setPlugins m).sharedCatalog.ServerPlugins.lookup ctx
      = c.sharedCatalog.ServerPlugins.lookup ctx := by
  unfold ContextCatalog.setPlugins
  split
  · rfl
  · simp [AList.lookup_insert_ne h]

theorem Get_of_inactive (c : ContextCatalog) (key : String)
    (h : c.activePath key = none) : c.Get key = (PluginInfo.zero, false) := by
  simp [ContextCatalog.Get, h]

theorem Get_of_dangling (c : ContextCatalog) (key path : String)
    (h : c.activePath key = some path)
    (h2 : c.sharedCatalog.IndexByPath.lookup path = none) :
    c.Get key = (PluginInfo.zero, false) := by
  simp [ContextCatalog.Get, h, h2]

theorem Get_of_found (c : ContextCatalog) (key path : String) (pd : PluginInfo)
    (h : c.activePath key = some path)
    (h2 : c.sharedCatalog.IndexByPath.lookup path = some pd) :
    c.Get key = (pd, true) := by
  simp [ContextCatalog.Get, h, h2]

/-! ## Strings and keys -/

theorem str_append_cancel_left (a b c : String) (h : a ++ b = a ++ c) : b = c := by
  have h2 := congrArg String.data h
  simp only [String.data_append] at h2
  exact String.ext (List.append_cancel_left h2)

theorem str_append_ne_self (n s : String) (hs : s ≠ "") : n ++ s ≠ n := by
  intro h
  have h2 := congrArg String.data h
  rw [String.data_append] at h2
  have h3 : s.data = [] := List.append_right_eq_self.mp h2
  exact hs (String.ext h3)

theorem key_unknown (name : String) : PluginNameTarget name TargetUnknown = name := by
  simp [PluginNameTarget, TargetUnknown]

theorem key_global (name : String) :
    PluginNameTarget name TargetGlobal = name ++ "_global" := by
  have h : TargetGlobal ≠ "" := by decide
  rw [PluginNameTarget, if_neg h, String.append_assoc]
  rfl

theorem key_k8s (name : String) :
    PluginNameTarget name TargetK8s = name ++ "_kubernetes" := by
  have h : TargetK8s ≠ "" := by decide
  rw [PluginNameTarget, if_neg h, String.append_assoc]
  rfl

theorem key_global_ne_unknown (name : String) :
    PluginNameTarget name TargetGlobal ≠ PluginNameTarget name TargetUnknown := by
  rw [key_global, key_unknown]
  exact str_append_ne_self name _ (by decide)

theorem key_k8s_ne_unknown (name : String) :
    PluginNameTarget name TargetK8s ≠ PluginNameTarget name TargetUnknown := by
  rw [key_k8s, key_unknown]
  exact str_append_ne_self name _ (by decide)

theorem key_global_ne_k8s (name : String) :
    PluginNameTarget name TargetGlobal ≠ PluginNameTarget name TargetK8s := by
  rw [key_global, key_k8s]
  intro h
  exact absurd (str_append_cancel_left _ _ _ h) (by decide)

/-! ## Effect of the steps of `Upsert` -/

theorem activePath_of_plugins (c : ContextCatalog) (m : GoMap String) (key : String)
    (h : c.plugins = some m) : c.activePath key = m.lookup key := by
  simp [ContextCatalog.activePath, h]

theorem plugins_of_activePath (c : ContextCatalog) (key path : String)
    (h : c.activePath key = some path) : ∃ m, c.plugins = some m ∧ m.lookup key = some path := by
  unfold ContextCatalog.activePath at h
  cases hp : c.plugins with
  | none => rw [hp] at h; cases h
  | some m => rw [hp] at h; exact ⟨m, rfl, h⟩

theorem recordPlugin_plugins (c : ContextCatalog) (m : GoMap String) (plugin : PluginInfo) :
    (c.recordPlugin m plugin).plugins
      = some (m.insert (PluginNameTarget plugin.Name plugin.Target) plugin.InstallationPath) := by
  have h := plugins_setPlugins c
    (m.insert (PluginNameTarget plugin.Name plugin.Target) plugin.InstallationPath)
  unfold ContextCatalog.recordPlugin
  simp only
  split
  · simpa [ContextCatalog.plugins] using h
  · simpa [ContextCatalog.plugins] using h

theorem recordPlugin_context (c : ContextCatalog) (m : GoMap String) (plugin : PluginInfo) :
    (c.recordPlugin m plugin).context = c.context := by
  unfold ContextCatalog.recordPlugin
  simp only
  split <;> simp [setPlugins_context]

theorem recordPlugin_IndexByPath (c : ContextCatalog) (m : GoMap String)
    (plugin : PluginInfo) :
    (c.recordPlugin m plugin).sharedCatalog.IndexByPath
      = c.sharedCatalog.IndexByPath.insert plugin.InstallationPath plugin := by
  unfold ContextCatalog.recordPlugin
  simp only
  split <;> simp [setPlugins_IndexByPath]

theorem recordPlugin_IndexByName (c : ContextCatalog) (m : GoMap String)
    (plugin : PluginInfo) :
    (c.recordPlugin m plugin).sharedCatalog.IndexByName
      = if ContainsString
            (c.sharedCatalog.IndexByName.sliceAt (PluginNameTarget plugin.Name plugin.Target))
            plugin.InstallationPath = true
        then c.sharedCatalog.IndexByName
        else c.sharedCatalog.IndexByName.insert (PluginNameTarget plugin.Name plugin.Target)
          (c.sharedCatalog.IndexByName.sliceAt (PluginNameTarget plugin.Name plugin.Target)
            ++ [plugin.InstallationPath]) := by
  unfold ContextCatalog.recordPlugin
  simp only [setPlugins_IndexByName]
  by_cases h : ContainsString
      (c.sharedCatalog.IndexByName.sliceAt (PluginNameTarget plugin.Name plugin.Target))
      plugin.InstallationPath = true
  · rw [if_neg (by simp [h]), if_pos h]
  · rw [if_pos (by simp [h]), if_neg h]

theorem recordPlugin_sliceAt (c : ContextCatalog) (m : GoMap String)
    (plugin : PluginInfo) :
    (c.recordPlugin m plugin).sharedCatalog.IndexByName.sliceAt
        (PluginNameTarget plugin.Name plugin.Target)
      = addPath (c.sharedCatalog.IndexByName.sliceAt (PluginNameTarget plugin.Name plugin.Target))
          plugin.InstallationPath := by
  rw [recordPlugin_IndexByName]
  unfold addPath
  split
  · rfl
  · simp [GoMap.sliceAt, AList.lookup_insert]

theorem deleteOld_of_inactive (c : ContextCatalog) (key : String)
    (h : c.activePath key = none) : c.deleteOldTargetEntries key = c := by
  unfold ContextCatalog.activePath at h
  unfold ContextCatalog.deleteOldTargetEntries
  cases hp : c.plugins with
  | none => rfl
  | some m =>
    rw [hp] at h
    simp only [Option.some_bind] at h
    simp [h]

theorem deleteOld_plugins (c : ContextCatalog) (m : GoMap String) (key path : String)
    (hp : c.plugins = some m) (hl : m.lookup key = some path) :
    (c.deleteOldTargetEntries key).plugins = some (m.erase key) := by
  have h := plugins_setPlugins
    { c with sharedCatalog :=
        { c.sharedCatalog with IndexByPath := c.sharedCatalog.IndexByPath.erase path } }
    (m.erase key)
  unfold ContextCatalog.deleteOldTargetEntries
  simp only [hp, hl]
  simpa [ContextCatalog.plugins] using h

theorem deleteOld_context (c : ContextCatalog) (key : String) :
    (c.deleteOldTargetEntries key).context = c.context := by
  cases hp : c.plugins with
  | none => rw [deleteOld_of_inactive c key (by simp [ContextCatalog.activePath, hp])]
  | some m =>
    cases hl : m.lookup key with
    | none => rw [deleteOld_of_inactive c key (by simp [ContextCatalog.activePath, hp, hl])]
    | some path =>
      unfold ContextCatalog.deleteOldTargetEntries
      simp only [hp, hl]
      exact setPlugins_context _ _

theorem deleteOld_IndexByPath (c : ContextCatalog) (m : GoMap String) (key path : String)
    (hp : c.plugins = some m) (hl : m.lookup key = some path) :
    (c.deleteOldTargetEntries key).sharedCatalog.IndexByPath
      = c.sharedCatalog.IndexByPath.erase path := by
  unfold ContextCatalog.deleteOldTargetEntries
  simp only [hp, hl]
  simp [setPlugins_IndexByPath]

theorem deleteOld_IndexByName (c : ContextCatalog) (m : GoMap String) (key path : String)
    (hp : c.plugins = some m) (hl : m.lookup key = some path) :
    (c.deleteOldTargetEntries key).sharedCatalog.IndexByName
      = c.sharedCatalog.IndexByName.erase key := by
  unfold ContextCatalog.deleteOldTargetEntries
  simp only [hp, hl]
  simp [setPlugins_IndexByName]

/-- After `deleteOldTargetEntries key` the key is inactive, and every other key
is active exactly as before. -/
theorem deleteOld_activePath (c : ContextCatalog) (key k : String) :
    (c.deleteOldTargetEntries key).activePath k
      = if k = key then none else c.activePath k := by
  cases hp : c.plugins with
  | none =>
    have h0 : c.activePath key = none := by simp [ContextCatalog.activePath, hp]
    rw [deleteOld_of_inactive c key h0]
    split
    · next h => rw [h, h0]
    · rfl
  | some m =>
    cases hl : m.lookup key with
    | none =>
      have h0 : c.activePath key = none := by rw [activePath_of_plugins c m key hp, hl]
      rw [deleteOld_of_inactive c key h0]
      split
      · next h => rw [h, h0]
      · rfl
    | some path =>
      rw [activePath_of_plugins _ _ k (deleteOld_plugins c m key path hp hl),
        activePath_of_plugins c m k hp]
      split
      · next h => rw [h, AList.lookup_erase]
      · next h => rw [AList.lookup_erase_ne h]

/-- An `IndexByPath` miss stays a miss through `deleteOldTargetEntries`. -/
theorem deleteOld_IndexByPath_none (c : ContextCatalog) (key p : String)
    (h : c.sharedCatalog.IndexByPath.lookup p = none) :
    (c.deleteOldTargetEntries key).sharedCatalog.IndexByPath.lookup p = none := by
  cases hp : c.plugins with
  | none =>
    rw [deleteOld_of_inactive c key (by simp [ContextCatalog.activePath, hp])]
    exact h
  | some m =>
    cases hl : m.lookup key with
    | none =>
      rw [deleteOld_of_inactive c key (by rw [activePath_of_plugins c m key hp, hl])]
      exact h
    | some path =>
      rw [deleteOld_IndexByPath c m key path hp hl]
      by_cases hpp : p = path
      · rw [hpp, AList.lookup_erase]
      · rw [AList.lookup_erase_ne hpp]
        exact h

/-- An `IndexByName` miss stays a miss through `deleteOldTargetEntries`. -/
theorem deleteOld_IndexByName_none (c : ContextCatalog) (key k : String)
    (h : c.sharedCatalog.IndexByName.lookup k = none) :
    (c.deleteOldTargetEntries key).sharedCatalog.IndexByName.lookup k = none := by
  cases hp : c.plugins with
  | none =>
    rw [deleteOld_of_inactive c key (by simp [ContextCatalog.activePath, hp])]
    exact h
  | some m =>
    cases hl : m.lookup key with
    | none =>
      rw [deleteOld_of_inactive c key (by rw [activePath_of_plugins c m key hp, hl])]
      exact h
    | some path =>
      rw [deleteOld_IndexByName c m key path hp hl]
      by_cases hkk : k = key
      · rw [hkk, AList.lookup_erase]
      · rw [AList.lookup_erase_ne hkk]
        exact h

/-- The three deletions of `deleteOldTargetEntries` on an active key. -/
theorem deleteOld_of_active (c : ContextCatalog) (key path : String)
    (h : c.activePath key = some path) :
    (c.deleteOldTargetEntries key).activePath key = none ∧
    (c.deleteOldTargetEntries key).sharedCatalog.IndexByName.lookup key = none ∧
    (c.deleteOldTargetEntries key).sharedCatalog.IndexByPath.lookup path = none := by
  obtain ⟨m, hp, hl⟩ := plugins_of_activePath c key path h
  refine ⟨?_, ?_, ?_⟩
  · rw [deleteOld_activePath, if_pos rfl]
  · rw [deleteOld_IndexByName c m key path hp hl, AList.lookup_erase]
  · rw [deleteOld_IndexByPath c m key path hp hl, AList.lookup_erase]

theorem Upsert_of_plugins (save : Catalog → Option String) (c : ContextCatalog)
    (m : GoMap String) (plugin : PluginInfo) (hp : c.plugins = some m) :
    c.Upsert save plugin
      = some ((c.recordPlugin m plugin).evictOtherTargets plugin,
          save ((c.recordPlugin m plugin).evictOtherTargets plugin).sharedCatalog) := by
  unfold ContextCatalog.Upsert
  simp [hp]

theorem recordPlugin_activePath_ne (c : ContextCatalog) (m : GoMap String)
    (plugin : PluginInfo) (k : String)
    (hk : k ≠ PluginNameTarget plugin.Name plugin.Target) :
    (c.recordPlugin m plugin).activePath k = m.lookup k := by
  rw [activePath_of_plugins _ _ k (recordPlugin_plugins c m plugin), AList.lookup_insert_ne hk]

theorem evict_of_known (c : ContextCatalog) (plugin : PluginInfo)
    (h : plugin.Target = TargetGlobal ∨ plugin.Target = TargetK8s) :
    c.evictOtherTargets plugin
      = c.deleteOldTargetEntries (PluginNameTarget plugin.Name TargetUnknown) := by
  unfold ContextCatalog.evictOtherTargets
  rw [if_pos h]

theorem evict_of_unknown (c : ContextCatalog) (plugin : PluginInfo)
    (h : plugin.Target = TargetUnknown) :
    c.evictOtherTargets plugin
      = (c.deleteOldTargetEntries (PluginNameTarget plugin.Name TargetGlobal)).deleteOldTargetEntries
          (PluginNameTarget plugin.Name TargetK8s) := by
  unfold ContextCatalog.evictOtherTargets
  have h1 : ¬ (plugin.Target = TargetGlobal ∨ plugin.Target = TargetK8s) := by
    rw [h]
    decide
  rw [if_neg h1, if_pos h]

theorem evict_of_other (c : ContextCatalog) (plugin : PluginInfo)
    (h1 : plugin.Target ≠ TargetGlobal) (h2 : plugin.Target ≠ TargetK8s)
    (h3 : plugin.Target ≠ TargetUnknown) :
    c.evictOtherTargets plugin = c := by
  unfold ContextCatalog.evictOtherTargets
  rw [if_neg (by simp [h1, h2]), if_neg h3]

/-! ## Eviction between the unknown target and the global or kubernetes target -/

/-- C2 (forward eviction): when the unknown-target key of the plugin's name is
active at path `P`, `Upsert` of that name with the global or the kubernetes
target returns, and afterwards the unknown key is absent from the view's
active-path map and from `IndexByName`, and `P` is absent from `IndexByPath`. -/
theorem Upsert_evicts_unknown (save : Catalog → Option String) (c : ContextCatalog)
    (plugin : PluginInfo) (P : String)
    (htarget : plugin.Target = TargetGlobal ∨ plugin.Target = TargetK8s)
    (hactive : c.activePath (PluginNameTarget plugin.Name TargetUnknown) = some P) :
    ∃ c', c.Upsert save plugin = some (c', save c'.sharedCatalog) ∧
      c'.activePath (PluginNameTarget plugin.Name TargetUnknown) = none ∧
      c'.sharedCatalog.IndexByName.lookup (PluginNameTarget plugin.Name TargetUnknown) = none ∧
      c'.sharedCatalog.IndexByPath.lookup P = none := by
  obtain ⟨m, hp, hl⟩ := plugins_of_activePath c _ P hactive
  refine ⟨_, Upsert_of_plugins save c m plugin hp, ?_⟩
  rw [evict_of_known _ plugin htarget]
  have hne : PluginNameTarget plugin.Name TargetUnknown
      ≠ PluginNameTarget plugin.Name plugin.Target := by
    rcases htarget with h | h
    · rw [h]; exact (key_global_ne_unknown plugin.Name).symm
    · rw [h]; exact (key_k8s_ne_unknown plugin.Name).symm
  have hrec : (c.recordPlugin m plugin).activePath
      (PluginNameTarget plugin.Name TargetUnknown) = some P := by
    rw [recordPlugin_activePath_ne c m plugin _ hne, hl]
  exact deleteOld_of_active _ _ P hrec

/-- C3 (reverse eviction): `Upsert` of a plugin with the unknown target removes
every pre-existing active entry of the view for the same name with the global
or the kubernetes target: the key leaves the active-path map and `IndexByName`,
and its installation path leaves `IndexByPath`. -/
theorem Upsert_unknown_evicts_targets (save : Catalog → Option String) (c : ContextCatalog)
    (plugin : PluginInfo) (target P : String)
    (hunknown : plugin.Target = TargetUnknown)
    (htarget : target = TargetGlobal ∨ target = TargetK8s)
    (hactive : c.activePath (PluginNameTarget plugin.Name target) = some P) :
    ∃ c', c.Upsert save plugin = some (c', save c'.sharedCatalog) ∧
      c'.activePath (PluginNameTarget plugin.Name target) = none ∧
      c'.sharedCatalog.IndexByName.lookup (PluginNameTarget plugin.Name target) = none ∧
      c'.sharedCatalog.IndexByPath.lookup P = none := by
  obtain ⟨m, hp, hl⟩ := plugins_of_activePath c _ P hactive
  refine ⟨_, Upsert_of_plugins save c m plugin hp, ?_⟩
  rw [evict_of_unknown _ plugin hunknown]
  have hne : PluginNameTarget plugin.Name target
      ≠ PluginNameTarget plugin.Name plugin.Target := by
    rw [hunknown]
    rcases htarget with h | h
    · rw [h]; exact key_global_ne_unknown plugin.Name
    · rw [h]; exact key_k8s_ne_unknown plugin.Name
  have hrec : (c.recordPlugin m plugin).activePath (PluginNameTarget plugin.Name target)
      = some P := by
    rw [recordPlugin_activePath_ne c m plugin _ hne, hl]
  rcases htarget with h | h
  · subst h
    obtain ⟨h1, h2, h3⟩ := deleteOld_of_active _ _ P hrec
    refine ⟨?_, deleteOld_IndexByName_none _ _ _ h2, deleteOld_IndexByPath_none _ _ _ h3⟩
    rw [deleteOld_activePath, if_neg (key_global_ne_k8s plugin.Name)]
    exact h1
  · subst h
    apply deleteOld_of_active
    rw [deleteOld_activePath, if_neg (key_global_ne_k8s plugin.Name).symm]
    exact hrec

theorem Upsert_evicts_unknown_witness :
    (fooGlobal.Target = TargetGlobal ∨ fooGlobal.Target = TargetK8s) ∧
    (NewContextCatalog legacyStore "").activePath
      (PluginNameTarget fooGlobal.Name TargetUnknown) = some "/p" ∧
    ∃ c', (NewContextCatalog legacyStore "").Upsert saveOk fooGlobal
        = some (c', saveOk c'.sharedCatalog) ∧
      c'.activePath (PluginNameTarget fooGlobal.Name TargetUnknown) = none ∧
      c'.sharedCatalog.IndexByName.lookup (PluginNameTarget fooGlobal.Name TargetUnknown)
        = none ∧
      c'.sharedCatalog.IndexByPath.lookup "/p" = none :=
  ⟨by decide, by decide,
    Upsert_evicts_unknown saveOk (NewContextCatalog legacyStore "") fooGlobal "/p"
      (by decide) (by decide)⟩

theorem Upsert_unknown_evicts_targets_witness :
    fooUnknown.Target = TargetUnknown ∧
    (NewContextCatalog targetedStore "ctx").activePath
      (PluginNameTarget fooUnknown.Name TargetK8s) = some "/k" ∧
    ∃ c', (NewContextCatalog targetedStore "ctx").Upsert saveOk fooUnknown
        = some (c', saveOk c'.sharedCatalog) ∧
      c'.activePath (PluginNameTarget fooUnknown.Name TargetK8s) = none ∧
      c'.sharedCatalog.IndexByName.lookup (PluginNameTarget fooUnknown.Name TargetK8s)
        = none ∧
      c'.sharedCatalog.IndexByPath.lookup "/k" = none :=
  ⟨by decide, by decide,
    Upsert_unknown_evicts_targets saveOk (NewContextCatalog targetedStore "ctx") fooUnknown
      TargetK8s "/k" (by decide) (by decide) (by decide)⟩

/-! ## `Get`, `Delete`, `List` and the key format -/

/-- C6: `Get` is a two-hop lookup.  It reports `true` exactly when the key has an
active path in the view and that path has an `IndexByPath` entry, and then
returns that entry; in every other case it returns the zero `PluginInfo` with
`false`.  `Get` is a function of the view alone and yields no store, so no call
changes the store. -/
theorem Get_two_hop (c : ContextCatalog) (key : String) :
    ((c.Get key).2 = true ↔
      ∃ path info, c.activePath key = some path ∧
        c.sharedCatalog.IndexByPath.lookup path = some info) ∧
    (∀ path info, c.activePath key = some path →
        c.sharedCatalog.IndexByPath.lookup path = some info → c.Get key = (info, true)) ∧
    ((¬ ∃ path info, c.activePath key = some path ∧
        c.sharedCatalog.IndexByPath.lookup path = some info) →
      c.Get key = (PluginInfo.zero, false)) := by
  refine ⟨?_, fun path info h h2 => Get_of_found c key path info h h2, ?_⟩
  · constructor
    · intro hg
      cases h1 : c.activePath key with
      | none => rw [Get_of_inactive c key h1] at hg; cases hg
      | some path =>
        cases h2 : c.sharedCatalog.IndexByPath.lookup path with
        | none => rw [Get_of_dangling c key path h1 h2] at hg; cases hg
        | some pd => exact ⟨path, pd, rfl, h2⟩
    · rintro ⟨path, info, h1, h2⟩
      rw [Get_of_found c key path info h1 h2]
  · intro hne
    cases h1 : c.activePath key with
    | none => exact Get_of_inactive c key h1
    | some path =>
      cases h2 : c.sharedCatalog.IndexByPath.lookup path with
      | none => exact Get_of_dangling c key path h1 h2
      | some pd => exact absurd ⟨path, pd, h1, h2⟩ hne

theorem Get_two_hop_witness :
    (NewContextCatalog legacyStore "ctx").activePath "foo" = some "/p" ∧
    legacyStore.IndexByPath.lookup "/p" = some fooUnknown ∧
    (NewContextCatalog legacyStore "ctx").Get "foo" = (fooUnknown, true) ∧
    (NewContextCatalog legacyStore "ctx").Get "bar" = (PluginInfo.zero, false) :=
  ⟨by decide, by decide,
    (Get_two_hop (NewContextCatalog legacyStore "ctx") "foo").2.1 "/p" fooUnknown
      (by decide) (by decide),
    (Get_two_hop (NewContextCatalog legacyStore "ctx") "bar").2.2 (fun ⟨_, _, h, _⟩ => by
      rw [show (NewContextCatalog legacyStore "ctx").activePath "bar" = none by decide] at h
      cases h)⟩

theorem erase_of_lookup_none {V : Type} (m : GoMap V) (key : String)
    (h : m.lookup key = none) : m.erase key = m := by
  apply AList.ext
  have hk : key ∉ m.entries.keys := AList.lookup_eq_none.mp h
  exact List.kerase_of_not_mem_keys hk

theorem Delete_of_inactive (save : Catalog → Option String) (c : ContextCatalog)
    (key : String) (h : c.activePath key = none) : (c.Delete save key).1 = c := by
  unfold ContextCatalog.activePath at h
  unfold ContextCatalog.Delete
  cases hp : c.plugins with
  | none => rfl
  | some m =>
    rw [hp] at h
    simp only [Option.some_bind] at h
    simp [h]

theorem Delete_of_active (save : Catalog → Option String) (c : ContextCatalog)
    (m : GoMap String) (key path : String)
    (hp : c.plugins = some m) (hl : m.lookup key = some path) :
    (c.Delete save key).1 = c.setPlugins (m.erase key) := by
  unfold ContextCatalog.Delete
  simp [hp, hl]

theorem Delete_error (save : Catalog → Option String) (c : ContextCatalog) (key : String) :
    (c.Delete save key).2 = save (c.Delete save key).1.sharedCatalog := by
  rfl

theorem mem_of_plugins_server (c : ContextCatalog) (m : GoMap String)
    (hc : c.context ≠ "") (hp : c.plugins = some m) :
    c.context ∈ c.sharedCatalog.ServerPlugins := by
  unfold ContextCatalog.plugins at hp
  rw [if_neg hc] at hp
  rw [← AList.lookup_isSome]
  cases hl : c.sharedCatalog.ServerPlugins.lookup c.context with
  | none => rw [hl] at hp; cases hp
  | some v => rfl

theorem Delete_plugins (save : Catalog → Option String) (c : ContextCatalog) (key : String) :
    (c.Delete save key).1.plugins = c.plugins.map (fun m => m.erase key) := by
  cases hp : c.plugins with
  | none =>
    rw [Delete_of_inactive save c key (by simp [ContextCatalog.activePath, hp])]
    simp [hp]
  | some m =>
    cases hl : m.lookup key with
    | none =>
      rw [Delete_of_inactive save c key (by simp [ContextCatalog.activePath, hp, hl])]
      simp [hp, erase_of_lookup_none m key hl]
    | some path =>
      rw [Delete_of_active save c m key path hp hl, plugins_setPlugins]
      rfl

/-- C7: `Delete` touches only the view's active-path entry.  After
`Delete(key)` the view's active map is the old one with `key` removed (a nil map
stays nil); `IndexByPath` and `IndexByName` are unchanged; for a context view
`StandAlonePlugins` and every other context's map are unchanged, for the
stand-alone view the whole of `ServerPlugins` is unchanged; and `ServerPlugins`
has the same contexts as before. -/
theorem Delete_frame (save : Catalog → Option String) (c : ContextCatalog) (key : String) :
    (c.Delete save key).1.plugins = c.plugins.map (fun m => m.erase key) ∧
    (c.Delete save key).1.context = c.context ∧
    (c.Delete save key).1.sharedCatalog.IndexByPath = c.sharedCatalog.IndexByPath ∧
    (c.Delete save key).1.sharedCatalog.IndexByName = c.sharedCatalog.IndexByName ∧
    (c.context ≠ "" →
      (c.Delete save key).1.sharedCatalog.StandAlonePlugins
        = c.sharedCatalog.StandAlonePlugins) ∧
    (c.context = "" →
      (c.Delete save key).1.sharedCatalog.ServerPlugins = c.sharedCatalog.ServerPlugins) ∧
    (∀ ctx, ctx ≠ c.context →
      (c.Delete save key).1.sharedCatalog.ServerPlugins.lookup ctx
        = c.sharedCatalog.ServerPlugins.lookup ctx) ∧
    (∀ ctx, ctx ∈ (c.Delete save key).1.sharedCatalog.ServerPlugins
      ↔ ctx ∈ c.sharedCatalog.ServerPlugins) := by
  cases hp : c.plugins with
  | none =>
    rw [Delete_of_inactive save c key (by simp [ContextCatalog.activePath, hp])]
    simp [hp]
  | some m =>
    cases hl : m.lookup key with
    | none =>
      rw [Delete_of_inactive save c key (by simp [ContextCatalog.activePath, hp, hl])]
      simp [hp, erase_of_lookup_none m key hl]
    | some path =>
      rw [Delete_of_active save c m key path hp hl]
      refine ⟨by rw [plugins_setPlugins]; rfl, setPlugins_context _ _,
        setPlugins_IndexByPath _ _, setPlugins_IndexByName _ _,
        fun h => setPlugins_StandAlone_of_ne _ _ h,
        fun h => setPlugins_ServerPlugins_of_eq _ _ h,
        fun ctx h => setPlugins_ServerPlugins_lookup_ne _ _ ctx h, ?_⟩
      intro ctx
      by_cases hc : c.context = ""
      · rw [setPlugins_ServerPlugins_of_eq _ _ hc]
      · unfold ContextCatalog.setPlugins
        rw [if_neg hc]
        simp only [AList.mem_insert]
        constructor
        · rintro (h | h)
          · rw [h]; exact mem_of_plugins_server c m hc hp
          · exact h
        · exact fun h => Or.inr h

theorem Delete_frame_witness :
    (NewContextCatalog legacyStore "ctx").context ≠ "" ∧
    ((NewContextCatalog legacyStore "ctx").Delete saveOk "foo").1.plugins = some ∅ ∧
    ((NewContextCatalog legacyStore "ctx").Delete saveOk "foo").1.sharedCatalog.StandAlonePlugins
      = legacyStore.StandAlonePlugins ∧
    ((NewContextCatalog legacyStore "ctx").Delete saveOk "foo").1.sharedCatalog.IndexByPath
      = legacyStore.IndexByPath :=
  ⟨by decide,
    (Delete_frame saveOk (NewContextCatalog legacyStore "ctx") "foo").1,
    (Delete_frame saveOk (NewContextCatalog legacyStore "ctx") "foo").2.2.2.2.1 (by decide),
    (Delete_frame saveOk (NewContextCatalog legacyStore "ctx") "foo").2.2.1⟩

/-- C8: `Delete` of a key that is not in the view's active-path map leaves the
whole store unchanged and returns the result of saving that unchanged store, so
no error when the save succeeds; and a second `Delete` of any key changes
nothing. -/
theorem Delete_absent_noop (save : Catalog → Option String) (c : ContextCatalog)
    (key : String) (habsent : c.activePath key = none) :
    (c.Delete save key).1 = c ∧
    (c.Delete save key).2 = save c.sharedCatalog ∧
    (save c.sharedCatalog = none → (c.Delete save key).2 = none) ∧
    (∀ (d : ContextCatalog) (k : String),
      ((d.Delete save k).1.Delete save k).1 = (d.Delete save k).1) := by
  have h1 := Delete_of_inactive save c key habsent
  have h2 : (c.Delete save key).2 = save c.sharedCatalog := by
    rw [Delete_error, h1]
  refine ⟨h1, h2, fun hs => by rw [h2, hs], ?_⟩
  intro d k
  apply Delete_of_inactive
  unfold ContextCatalog.activePath
  rw [Delete_plugins save d k]
  cases d.plugins with
  | none => rfl
  | some m => simp [AList.lookup_erase]

theorem Delete_absent_noop_witness :
    (NewContextCatalog legacyStore "ctx").activePath "bar" = none ∧
    ((NewContextCatalog legacyStore "ctx").Delete saveOk "bar").1
      = NewContextCatalog legacyStore "ctx" ∧
    ((NewContextCatalog legacyStore "ctx").Delete saveOk "bar").2 = none :=
  ⟨by decide,
    (Delete_absent_noop saveOk (NewContextCatalog legacyStore "ctx") "bar" (by decide)).1,
    (Delete_absent_noop saveOk (NewContextCatalog legacyStore "ctx") "bar" (by decide)).2.2.1
      rfl⟩

theorem foldl_append_singleton {α β : Type} (f : α → β) (l : List α) (acc : List β) :
    l.foldl (fun pds e => pds ++ [f e]) acc = acc ++ l.map f := by
  induction l generalizing acc with
  | nil => simp
  | cons x xs ih => simp [ih]

theorem listIn_eq_map (c : ContextCatalog) (order : List (String × String)) :
    c.listIn order = order.map (fun e => c.sharedCatalog.IndexByPath.infoAt e.2) := by
  unfold ContextCatalog.listIn
  rw [foldl_append_singleton (fun e : String × String => c.sharedCatalog.IndexByPath.infoAt e.2)]
  simp

theorem activeEntries_length (c : ContextCatalog) :
    c.activeEntries.length = (c.plugins.map (fun m => m.keys.length)).getD 0 := by
  unfold ContextCatalog.activeEntries
  cases c.plugins with
  | none => rfl
  | some m => simp [AList.keys, List.keys]

theorem mem_activeEntries (c : ContextCatalog) (key path : String)
    (h : c.activePath key = some path) : (key, path) ∈ c.activeEntries := by
  obtain ⟨m, hp, hl⟩ := plugins_of_activePath c key path h
  unfold ContextCatalog.activeEntries
  rw [hp]
  exact List.mem_map.2 ⟨⟨key, path⟩, AList.mem_lookup_iff.1 hl, rfl⟩

/-- C9: `List` returns every `PluginInfo` reachable through the view's
active-path map.  For every order in which the map's entries are visited, the
result as a multiset is the multiset, over the (key, path) entries of the active
map, of the `PluginInfo` that `IndexByPath` stores for the path (the zero value
when `IndexByPath` has no entry for it); every `PluginInfo` that `IndexByPath`
stores for the path of an active key is in the result; the length of the result
is the number of active keys.  `List` is a function of the view alone and yields
no store, so no call changes the store. -/
theorem List_active_multiset (c : ContextCatalog) (order : List (String × String))
    (horder : order.Perm c.activeEntries) :
    (↑(c.listIn order) : Multiset PluginInfo)
      = Multiset.map
          (fun e => (c.sharedCatalog.IndexByPath.lookup e.2).getD PluginInfo.zero)
          (↑c.activeEntries : Multiset (String × String)) ∧
    (∀ key path pd, c.activePath key = some path →
      c.sharedCatalog.IndexByPath.lookup path = some pd → pd ∈ c.listIn order) ∧
    (c.listIn order).length = (c.plugins.map (fun m => m.keys.length)).getD 0 ∧
    (↑c.List : Multiset PluginInfo) = ↑(c.listIn order) := by
  have hperm : (c.listIn order).Perm c.List := by
    unfold ContextCatalog.List
    rw [listIn_eq_map, listIn_eq_map]
    exact horder.map _
  refine ⟨?_, ?_, ?_, ?_⟩
  · rw [listIn_eq_map, Multiset.map_coe]
    exact Quotient.sound (horder.map _)
  · intro key path pd ha hl
    rw [listIn_eq_map]
    refine List.mem_map.2 ⟨(key, path), horder.mem_iff.2 (mem_activeEntries c key path ha), ?_⟩
    show (c.sharedCatalog.IndexByPath.lookup path).getD PluginInfo.zero = pd
    rw [hl]
    rfl
  · rw [listIn_eq_map, List.length_map, horder.length_eq, activeEntries_length]
  · exact Quotient.sound hperm.symm

theorem List_active_multiset_witness :
    [("foo_kubernetes", "/k"), ("foo_global", "/q")].Perm
      (NewContextCatalog targetedStore "ctx").activeEntries ∧
    (NewContextCatalog targetedStore "ctx").activePath "foo_global" = some "/q" ∧
    targetedStore.IndexByPath.lookup "/q" = some fooGlobal ∧
    fooGlobal ∈ (NewContextCatalog targetedStore "ctx").listIn
      [("foo_kubernetes", "/k"), ("foo_global", "/q")] ∧
    ((NewContextCatalog targetedStore "ctx").listIn
        [("foo_kubernetes", "/k"), ("foo_global", "/q")]).length = 2 ∧
    (NewContextCatalog targetedStore "ctx").listIn
        [("foo_kubernetes", "/k"), ("foo_global", "/q")] = [fooK8s, fooGlobal] ∧
    (↑(NewContextCatalog targetedStore "ctx").List : Multiset PluginInfo)
      = ↑[fooK8s, fooGlobal] :=
  ⟨by decide, by decide, by decide,
    (List_active_multiset (NewContextCatalog targetedStore "ctx")
      [("foo_kubernetes", "/k"), ("foo_global", "/q")] (by decide)).2.1
      "foo_global" "/q" fooGlobal (by decide) (by decide),
    (List_active_multiset (NewContextCatalog targetedStore "ctx")
      [("foo_kubernetes", "/k"), ("foo_global", "/q")] (by decide)).2.2.1,
    by decide,
    ((List_active_multiset (NewContextCatalog targetedStore "ctx")
      [("foo_kubernetes", "/k"), ("foo_global", "/q")] (by decide)).2.2.2).trans
      (congrArg (fun l : List PluginInfo => (↑l : Multiset PluginInfo))
        (show (NewContextCatalog targetedStore "ctx").listIn
            [("foo_kubernetes", "/k"), ("foo_global", "/q")] = [fooK8s, fooGlobal] by decide))⟩

/-- C10: `PluginNameTarget` is total with the stated format: the bare name for
the empty target, and `name ++ "_" ++ target` for every non-empty target. -/
theorem PluginNameTarget_format :
    (∀ name : String, PluginNameTarget name "" = name) ∧
    (∀ name target : String, target ≠ "" →
      PluginNameTarget name target = name ++ "_" ++ target) := by
  constructor
  · intro name
    simp [PluginNameTarget]
  · intro name target h
    simp [PluginNameTarget, h]

theorem PluginNameTarget_format_witness :
    PluginNameTarget "foo" "" = "foo" ∧
    "global" ≠ "" ∧
    PluginNameTarget "foo" "global" = "foo" ++ "_" ++ "global" :=
  ⟨PluginNameTarget_format.1 "foo", by decide,
    PluginNameTarget_format.2 "foo" "global" (by decide)⟩

/-! ## Runs of `Upsert` -/

theorem sameOthers_refl (c : ContextCatalog) : sameOthers c c :=
  ⟨rfl, fun _ => rfl, fun _ _ => rfl⟩

theorem sameOthers_trans (c d e : ContextCatalog) (h1 : sameOthers c d)
    (h2 : sameOthers d e) : sameOthers c e := by
  obtain ⟨a1, a2, a3⟩ := h1
  obtain ⟨b1, b2, b3⟩ := h2
  refine ⟨b1.trans a1, fun h => ?_, fun ctx h => ?_⟩
  · rw [b2 (by rw [a1]; exact h), a2 h]
  · rw [b3 ctx (by rw [a1]; exact h), a3 ctx h]

theorem sameOthers_setPlugins (c : ContextCatalog) (m : GoMap String) :
    sameOthers c (c.setPlugins m) := by
  refine ⟨setPlugins_context c m, fun h => setPlugins_StandAlone_of_ne c m h, fun ctx h => ?_⟩
  by_cases hc : c.context = ""
  · rw [setPlugins_ServerPlugins_of_eq c m hc]
  · rcases h with h | h
    · exact absurd h hc
    · exact setPlugins_ServerPlugins_lookup_ne c m ctx h

theorem sameOthers_recordPlugin (c : ContextCatalog) (m : GoMap String)
    (plugin : PluginInfo) : sameOthers c (c.recordPlugin m plugin) := by
  have h := sameOthers_setPlugins c
    (m.insert (PluginNameTarget plugin.Name plugin.Target) plugin.InstallationPath)
  unfold ContextCatalog.recordPlugin
  simp only
  split
  · exact h
  · exact h

theorem sameOthers_deleteOld (c : ContextCatalog) (key : String) :
    sameOthers c (c.deleteOldTargetEntries key) := by
  cases hp : c.plugins with
  | none =>
    rw [deleteOld_of_inactive c key (by simp [ContextCatalog.activePath, hp])]
    exact sameOthers_refl c
  | some m =>
    cases hl : m.lookup key with
    | none =>
      rw [deleteOld_of_inactive c key (by simp [ContextCatalog.activePath, hp, hl])]
      exact sameOthers_refl c
    | some path =>
      have h := sameOthers_setPlugins
        { c with sharedCatalog :=
            { c.sharedCatalog with IndexByPath := c.sharedCatalog.IndexByPath.erase path } }
        (m.erase key)
      unfold ContextCatalog.deleteOldTargetEntries
      simp only [hp, hl]
      exact h

theorem sameOthers_evict (c : ContextCatalog) (plugin : PluginInfo) :
    sameOthers c (c.evictOtherTargets plugin) := by
  unfold ContextCatalog.evictOtherTargets
  split
  · exact sameOthers_deleteOld _ _
  · split
    · exact sameOthers_trans _ _ _ (sameOthers_deleteOld _ _) (sameOthers_deleteOld _ _)
    · exact sameOthers_refl c

theorem otherMaps_of_allMaps (Q : GoMap String → Prop) (c : ContextCatalog)
    (h : allMaps Q c.sharedCatalog) : otherMaps Q c :=
  ⟨fun _ => h.1, fun ctx v _ hl => h.2 ctx v hl⟩

theorem otherMaps_of_sameOthers (Q : GoMap String → Prop) (c d : ContextCatalog)
    (hs : sameOthers c d) (h : otherMaps Q c) : otherMaps Q d := by
  obtain ⟨a1, a2, a3⟩ := hs
  refine ⟨fun hc => ?_, fun ctx v hc hl => ?_⟩
  · rw [a1] at hc
    rw [a2 hc]
    exact h.1 hc
  · rw [a1] at hc
    rw [a3 ctx hc] at hl
    exact h.2 ctx v hc hl

theorem allMaps_of_otherMaps (Q : GoMap String → Prop) (c : ContextCatalog)
    (m : GoMap String) (h : otherMaps Q c) (hp : c.plugins = some m) (hq : Q m) :
    allMaps Q c.sharedCatalog := by
  unfold ContextCatalog.plugins at hp
  by_cases hc : c.context = ""
  · rw [if_pos hc] at hp
    exact ⟨by rw [Option.some.inj hp]; exact hq, fun ctx v hl => h.2 ctx v (Or.inl hc) hl⟩
  · rw [if_neg hc] at hp
    refine ⟨h.1 hc, fun ctx v hl => ?_⟩
    by_cases hx : ctx = c.context
    · rw [hx] at hl
      rw [hl] at hp
      exact ⟨m, by simpa using hp, hq⟩
    · exact h.2 ctx v (Or.inr hx) hl

theorem NewContextCatalog_context (sc : Catalog) (ctx : String) :
    (NewContextCatalog sc ctx).context = ctx := by
  unfold NewContextCatalog
  split
  · rfl
  · split <;> rfl

theorem NewContextCatalog_IndexByName (sc : Catalog) (ctx : String) :
    (NewContextCatalog sc ctx).sharedCatalog.IndexByName = sc.IndexByName := by
  unfold NewContextCatalog
  split
  · rfl
  · split <;> rfl

theorem NewContextCatalog_IndexByPath (sc : Catalog) (ctx : String) :
    (NewContextCatalog sc ctx).sharedCatalog.IndexByPath = sc.IndexByPath := by
  unfold NewContextCatalog
  split
  · rfl
  · split <;> rfl

/-- Opening a view keeps an invariant of all active maps that the empty map
satisfies, and the view's own map is then non-nil and satisfies it. -/
theorem NewContextCatalog_allMaps (Q : GoMap String → Prop) (hQ : Q ∅) (sc : Catalog)
    (ctx : String) (h : allMaps Q sc) :
    allMaps Q (NewContextCatalog sc ctx).sharedCatalog ∧
    ∃ m, (NewContextCatalog sc ctx).plugins = some m ∧ Q m := by
  by_cases hc : ctx = ""
  · have e : NewContextCatalog sc ctx = { sharedCatalog := sc, context := ctx } := by
      unfold NewContextCatalog
      rw [if_pos hc]
    rw [e]
    exact ⟨h, sc.StandAlonePlugins, by simp [ContextCatalog.plugins, hc], h.1⟩
  · cases hl : sc.ServerPlugins.lookup ctx with
    | some v =>
      have e : NewContextCatalog sc ctx = { sharedCatalog := sc, context := ctx } := by
        unfold NewContextCatalog
        rw [if_neg hc]
        simp only [hl]
      rw [e]
      obtain ⟨m, hv, hq⟩ := h.2 ctx v hl
      refine ⟨h, m, ?_, hq⟩
      simp [ContextCatalog.plugins, hc, hl, hv]
    | none =>
      have e : NewContextCatalog sc ctx =
          { sharedCatalog := { sc with ServerPlugins := sc.ServerPlugins.insert ctx (some ∅) },
            context := ctx } := by
        unfold NewContextCatalog
        rw [if_neg hc]
        simp only [hl]
      rw [e]
      refine ⟨⟨h.1, fun ctx' v hv => ?_⟩, ∅, ?_, hQ⟩
      · by_cases hx : ctx' = ctx
        · subst hx
          simp only [AList.lookup_insert, Option.some.injEq] at hv
          exact ⟨∅, hv.symm, hQ⟩
        · simp only [AList.lookup_insert_ne hx] at hv
          exact h.2 ctx' v hv
      · simp [ContextCatalog.plugins, hc, AList.lookup_insert]

theorem deleteOld_plugins_some (c : ContextCatalog) (m : GoMap String) (key : String)
    (hp : c.plugins = some m) : ∃ m', (c.deleteOldTargetEntries key).plugins = some m' := by
  cases hl : m.lookup key with
  | none =>
    rw [deleteOld_of_inactive c key (by simp [ContextCatalog.activePath, hp, hl])]
    exact ⟨m, hp⟩
  | some path => exact ⟨_, deleteOld_plugins c m key path hp hl⟩

theorem evict_plugins_some (c : ContextCatalog) (m : GoMap String) (plugin : PluginInfo)
    (hp : c.plugins = some m) : ∃ m', (c.evictOtherTargets plugin).plugins = some m' := by
  unfold ContextCatalog.evictOtherTargets
  split
  · exact deleteOld_plugins_some c m _ hp
  · split
    · obtain ⟨m1, h1⟩ := deleteOld_plugins_some c m
        (PluginNameTarget plugin.Name TargetGlobal) hp
      exact deleteOld_plugins_some _ m1 _ h1
    · exact ⟨m, hp⟩

/-- The active map after the eviction step: the evicted keys are inactive, every
other key is as before. -/
theorem evict_activePath (c : ContextCatalog) (plugin : PluginInfo) (k : String) :
    (c.evictOtherTargets plugin).activePath k
      = if k ∈ evictedKeys plugin then none else c.activePath k := by
  unfold ContextCatalog.evictOtherTargets evictedKeys
  by_cases h1 : plugin.Target = TargetGlobal ∨ plugin.Target = TargetK8s
  · rw [if_pos h1, if_pos h1, deleteOld_activePath]
    simp only [List.mem_singleton]
  · rw [if_neg h1, if_neg h1]
    by_cases h2 : plugin.Target = TargetUnknown
    · rw [if_pos h2, if_pos h2, deleteOld_activePath, deleteOld_activePath]
      simp only [List.mem_cons, List.mem_singleton, List.not_mem_nil, or_false]
      by_cases hk : k = PluginNameTarget plugin.Name TargetK8s
      · simp [hk]
      · by_cases hg : k = PluginNameTarget plugin.Name TargetGlobal
        · simp [hg]
        · simp [hk, hg]
    · rw [if_neg h2, if_neg h2]
      simp

theorem evict_noop (c : ContextCatalog) (plugin : PluginInfo)
    (h : ∀ k ∈ evictedKeys plugin, c.activePath k = none) :
    c.evictOtherTargets plugin = c := by
  unfold evictedKeys at h
  unfold ContextCatalog.evictOtherTargets
  by_cases h1 : plugin.Target = TargetGlobal ∨ plugin.Target = TargetK8s
  · rw [if_pos h1] at h
    rw [if_pos h1]
    exact deleteOld_of_inactive c _ (h _ (List.mem_singleton_self _))
  · rw [if_neg h1] at h
    rw [if_neg h1]
    by_cases h2 : plugin.Target = TargetUnknown
    · rw [if_pos h2] at h
      rw [if_pos h2]
      rw [deleteOld_of_inactive c _ (h _ (List.mem_cons_self _ _))]
      exact deleteOld_of_inactive c _ (h _ (List.mem_cons_of_mem _ (List.mem_singleton_self _)))
    · rw [if_neg h2]

theorem key_not_evicted (plugin : PluginInfo) :
    PluginNameTarget plugin.Name plugin.Target ∉ evictedKeys plugin := by
  unfold evictedKeys
  by_cases h1 : plugin.Target = TargetGlobal ∨ plugin.Target = TargetK8s
  · rw [if_pos h1]
    simp only [List.mem_singleton]
    rcases h1 with h | h
    · rw [h]; exact key_global_ne_unknown plugin.Name
    · rw [h]; exact key_k8s_ne_unknown plugin.Name
  · rw [if_neg h1]
    by_cases h2 : plugin.Target = TargetUnknown
    · rw [if_pos h2, h2]
      simp only [List.mem_cons, List.mem_singleton, List.not_mem_nil, or_false, not_or]
      exact ⟨(key_global_ne_unknown plugin.Name).symm, (key_k8s_ne_unknown plugin.Name).symm⟩
    · rw [if_neg h2]
      simp

/-- One `Upsert` on a view whose active map is the non-nil `m`: the call
returns, the other active maps are untouched, and the view's map afterwards is
`m` with the evicted keys removed and the plugin's key set to its path. -/
theorem Upsert_step (save : Catalog → Option String) (c : ContextCatalog)
    (m : GoMap String) (plugin : PluginInfo) (hp : c.plugins = some m) :
    ∃ c' m', c.Upsert save plugin = some (c', save c'.sharedCatalog) ∧
      sameOthers c c' ∧ c'.plugins = some m' ∧
      ∀ k, m'.lookup k =
        if k ∈ evictedKeys plugin then none
        else if k = PluginNameTarget plugin.Name plugin.Target
          then some plugin.InstallationPath
        else m.lookup k := by
  obtain ⟨m', hm'⟩ := evict_plugins_some (c.recordPlugin m plugin) _ plugin
    (recordPlugin_plugins c m plugin)
  refine ⟨_, m', Upsert_of_plugins save c m plugin hp,
    sameOthers_trans _ _ _ (sameOthers_recordPlugin c m plugin) (sameOthers_evict _ plugin),
    hm', fun k => ?_⟩
  have h := evict_activePath (c.recordPlugin m plugin) plugin k
  rw [activePath_of_plugins _ m' k hm',
    activePath_of_plugins _ _ k (recordPlugin_plugins c m plugin)] at h
  rw [h]
  split
  · rfl
  · split
    · next hk => rw [hk, AList.lookup_insert]
    · next hk => rw [AList.lookup_insert_ne hk]

/-! ## `IndexByName` lists hold no duplicates -/

theorem mem_addPath (l : List String) (p x : String) :
    x ∈ addPath l p ↔ x ∈ l ∨ x = p := by
  unfold addPath ContainsString
  by_cases h : l.contains p = true
  · rw [if_pos h]
    have hp : p ∈ l := by simpa using h
    constructor
    · exact fun hx => Or.inl hx
    · rintro (hx | hx)
      · exact hx
      · rw [hx]; exact hp
  · rw [if_neg h]
    simp

theorem addPath_nodup (l : List String) (p : String) (h : l.Nodup) : (addPath l p).Nodup := by
  unfold addPath ContainsString
  by_cases hc : l.contains p = true
  · rw [if_pos hc]
    exact h
  · rw [if_neg hc]
    have hp : p ∉ l := by simpa using hc
    rw [List.nodup_append]
    refine ⟨h, List.nodup_singleton p, ?_⟩
    intro a ha hb
    rw [List.mem_singleton] at hb
    exact hp (hb ▸ ha)

theorem foldl_addPath_nodup (ps : List String) :
    ∀ acc : List String, acc.Nodup → (ps.foldl addPath acc).Nodup := by
  induction ps with
  | nil => exact fun acc h => h
  | cons p ps ih => exact fun acc h => ih _ (addPath_nodup acc p h)

theorem mem_foldl_addPath (ps : List String) (x : String) :
    ∀ acc : List String, x ∈ ps.foldl addPath acc ↔ x ∈ acc ∨ x ∈ ps := by
  induction ps with
  | nil => intro acc; simp
  | cons p ps ih =>
    intro acc
    rw [List.foldl_cons, ih, mem_addPath, List.mem_cons]
    tauto

theorem foldl_addPath_length (ps : List String) :
    (ps.foldl addPath []).length = ps.dedup.length := by
  apply List.Perm.length_eq
  rw [List.perm_ext_iff_of_nodup (foldl_addPath_nodup ps [] List.nodup_nil) (List.nodup_dedup ps)]
  intro a
  rw [mem_foldl_addPath, List.mem_dedup]
  simp

theorem onlyKey_empty (key : String) : onlyKey key ∅ :=
  fun _ _ => AList.lookup_empty _

/-- One `Upsert` of a plugin with key `key` on a store whose active maps hold
no other key: no eviction fires, the invariant is kept and `IndexByName[key]`
gains the path unless it is already listed. -/
theorem upsert_sameKey_step (save : Catalog → Option String) (sc : Catalog) (ctx : String)
    (plugin : PluginInfo) (h : allMaps (onlyKey (PluginNameTarget plugin.Name plugin.Target)) sc) :
    ∃ c', (NewContextCatalog sc ctx).Upsert save plugin = some (c', save c'.sharedCatalog) ∧
      allMaps (onlyKey (PluginNameTarget plugin.Name plugin.Target)) c'.sharedCatalog ∧
      c'.sharedCatalog.IndexByName.sliceAt (PluginNameTarget plugin.Name plugin.Target)
        = addPath (sc.IndexByName.sliceAt (PluginNameTarget plugin.Name plugin.Target))
            plugin.InstallationPath := by
  obtain ⟨hall, m, hp, hq⟩ := NewContextCatalog_allMaps _
    (onlyKey_empty (PluginNameTarget plugin.Name plugin.Target)) sc ctx h
  have hno : ((NewContextCatalog sc ctx).recordPlugin m plugin).evictOtherTargets plugin
      = (NewContextCatalog sc ctx).recordPlugin m plugin := by
    apply evict_noop
    intro k hk
    have hne : k ≠ PluginNameTarget plugin.Name plugin.Target :=
      fun e => key_not_evicted plugin (e ▸ hk)
    rw [recordPlugin_activePath_ne _ m plugin k hne]
    exact hq k hne
  refine ⟨_, Upsert_of_plugins save _ m plugin hp, ?_, ?_⟩
  · rw [hno]
    apply allMaps_of_otherMaps _ _ _ ?_ (recordPlugin_plugins _ m plugin)
    · intro k hk
      rw [AList.lookup_insert_ne hk]
      exact hq k hk
    · exact otherMaps_of_sameOthers _ _ _ (sameOthers_recordPlugin _ m plugin)
        (otherMaps_of_allMaps _ _ hall)
  · rw [hno, recordPlugin_sliceAt, NewContextCatalog_IndexByName]

theorem upsertAll_sameKey (save : Catalog → Option String) (name target : String)
    (steps : List (String × PluginInfo))
    (hsame : ∀ s ∈ steps, s.2.Name = name ∧ s.2.Target = target) :
    ∀ sc : Catalog, allMaps (onlyKey (PluginNameTarget name target)) sc →
      ∃ sc', upsertAll save sc steps = some sc' ∧
        sc'.IndexByName.sliceAt (PluginNameTarget name target)
          = (steps.map (fun s => s.2.InstallationPath)).foldl addPath
              (sc.IndexByName.sliceAt (PluginNameTarget name target)) := by
  induction steps with
  | nil => exact fun sc _ => ⟨sc, rfl, rfl⟩
  | cons s rest ih =>
    intro sc hsc
    obtain ⟨hn, ht⟩ := hsame s (List.mem_cons_self _ _)
    rw [← hn, ← ht] at hsc
    obtain ⟨c', hu, hall, hslice⟩ := upsert_sameKey_step save sc s.1 s.2 hsc
    rw [hn, ht] at hall hslice
    obtain ⟨sc', hrun, hres⟩ := ih (fun x hx => hsame x (List.mem_cons_of_mem _ hx))
      c'.sharedCatalog hall
    refine ⟨sc', ?_, ?_⟩
    · rw [upsertAll, hu]
      exact hrun
    · rw [hres, hslice, List.map_cons, List.foldl_cons]

theorem allMaps_newSharedCatalog (Q : GoMap String → Prop) (hQ : Q ∅) :
    allMaps Q newSharedCatalog :=
  ⟨hQ, fun ctx v h => by simp [newSharedCatalog] at h⟩

/-- C5: `IndexByName` holds no duplicates.  Starting from the empty store, every
run of `Upsert` calls (on views of any contexts) whose plugins share one name
and target returns, and afterwards `IndexByName[key]` has no repeated path,
holds exactly the installation paths of the run, and its length is the number
of distinct installation paths of the run. -/
theorem IndexByName_no_duplicates (save : Catalog → Option String) (name target : String)
    (steps : List (String × PluginInfo))
    (hsame : ∀ s ∈ steps, s.2.Name = name ∧ s.2.Target = target) :
    ∃ sc, upsertAll save newSharedCatalog steps = some sc ∧
      (sc.IndexByName.sliceAt (PluginNameTarget name target)).Nodup ∧
      (∀ p, p ∈ sc.IndexByName.sliceAt (PluginNameTarget name target)
        ↔ p ∈ steps.map (fun s => s.2.InstallationPath)) ∧
      (sc.IndexByName.sliceAt (PluginNameTarget name target)).length
        = (steps.map (fun s => s.2.InstallationPath)).dedup.length := by
  obtain ⟨sc, hrun, hres⟩ := upsertAll_sameKey save name target steps hsame newSharedCatalog
    (allMaps_newSharedCatalog _ (onlyKey_empty _))
  have h0 : newSharedCatalog.IndexByName.sliceAt (PluginNameTarget name target) = [] := rfl
  rw [h0] at hres
  refine ⟨sc, hrun, ?_, ?_, ?_⟩
  · rw [hres]
    exact foldl_addPath_nodup _ [] List.nodup_nil
  · intro p
    rw [hres, mem_foldl_addPath]
    simp
  · rw [hres, foldl_addPath_length]

/-! ## The unknown target excludes the global and the kubernetes target -/

theorem list_split_first {α : Type} (a : α) :
    ∀ (l1 l2 r1 r2 : List α), a ∉ l1 → a ∉ l2 → l1 ++ a :: r1 = l2 ++ a :: r2 →
      l1 = l2 ∧ r1 = r2
  | [], [], r1, r2, _, _, h => by simpa using h
  | [], y :: l2, r1, r2, _, h2, h => by
    simp only [List.nil_append, List.cons_append, List.cons.injEq] at h
    exact absurd (List.mem_cons.mpr (Or.inl h.1)) h2
  | x :: l1, [], r1, r2, h1, _, h => by
    simp only [List.nil_append, List.cons_append, List.cons.injEq] at h
    exact absurd (List.mem_cons.mpr (Or.inl h.1.symm)) h1
  | x :: l1, y :: l2, r1, r2, h1, h2, h => by
    simp only [List.cons_append, List.cons.injEq] at h
    have ih := list_split_first a l1 l2 r1 r2
      (fun hm => h1 (List.mem_cons_of_mem _ hm)) (fun hm => h2 (List.mem_cons_of_mem _ hm)) h.2
    exact ⟨by rw [h.1, ih.1], ih.2⟩

theorem key_data (x t : String) (ht : t ≠ "") :
    (PluginNameTarget x t).data = x.data ++ '_' :: t.data := by
  rw [PluginNameTarget, if_neg ht, String.data_append, String.data_append]
  simp

theorem key_has_underscore (x t : String) (ht : t ≠ "") :
    ¬ noUnderscore (PluginNameTarget x t) := by
  unfold noUnderscore
  rw [key_data x t ht]
  simp

theorem key_unknown_eq (n x t : String) (hn : noUnderscore n)
    (h : PluginNameTarget n TargetUnknown = PluginNameTarget x t) : t = "" ∧ n = x := by
  rw [key_unknown] at h
  by_cases ht : t = ""
  · refine ⟨ht, ?_⟩
    rw [h, ht]
    simp [PluginNameTarget]
  · rw [h] at hn
    exact absurd hn (key_has_underscore x t ht)

theorem key_target_eq (n x t tg : String) (hn : noUnderscore n) (hx : noUnderscore x)
    (htg : tg ≠ "") (h : PluginNameTarget n tg = PluginNameTarget x t) : t = tg ∧ n = x := by
  by_cases ht : t = ""
  · have hx2 : PluginNameTarget x t = x := by rw [ht]; simp [PluginNameTarget]
    rw [hx2] at h
    rw [← h] at hx
    exact absurd hx (key_has_underscore n tg htg)
  · have hd := congrArg String.data h
    rw [key_data n tg htg, key_data x t ht] at hd
    obtain ⟨h1, h2⟩ := list_split_first '_' _ _ _ _ hn hx hd
    exact ⟨(String.ext h2).symm, String.ext h1⟩

/-- One `Upsert` of a plugin whose name has no underscore keeps the exclusion
between the unknown key and the global and kubernetes keys in the view's map. -/
theorem unknownExclusive_step (m m' : GoMap String) (plugin : PluginInfo)
    (hname : noUnderscore plugin.Name) (hq : unknownExclusive m)
    (hm' : ∀ k, m'.lookup k =
        if k ∈ evictedKeys plugin then none
        else if k = PluginNameTarget plugin.Name plugin.Target
          then some plugin.InstallationPath
        else m.lookup k) :
    unknownExclusive m' := by
  have keep : ∀ k, m.lookup k = none → k ≠ PluginNameTarget plugin.Name plugin.Target →
      m'.lookup k = none := by
    intro k hk hne
    rw [hm' k]
    by_cases he : k ∈ evictedKeys plugin
    · rw [if_pos he]
    · rw [if_neg he, if_neg hne]
      exact hk
  have gone : ∀ k, k ∈ evictedKeys plugin → m'.lookup k = none := by
    intro k hk
    rw [hm' k, if_pos hk]
  have hg : TargetGlobal ≠ "" := by decide
  have hk8 : TargetK8s ≠ "" := by decide
  intro n hn
  by_cases hnx : n = plugin.Name
  · by_cases h1 : plugin.Target = TargetGlobal ∨ plugin.Target = TargetK8s
    · left
      apply gone
      unfold evictedKeys
      rw [if_pos h1, hnx]
      exact List.mem_singleton_self _
    · by_cases h2 : plugin.Target = TargetUnknown
      · right
        have hev : evictedKeys plugin = [PluginNameTarget plugin.Name TargetGlobal,
            PluginNameTarget plugin.Name TargetK8s] := by
          unfold evictedKeys
          rw [if_neg h1, if_pos h2]
        rw [hnx]
        exact ⟨gone _ (by rw [hev]; exact List.mem_cons_self _ _),
          gone _ (by rw [hev]; exact List.mem_cons_of_mem _ (List.mem_singleton_self _))⟩
      · rcases hq n hn with hl | ⟨hl1, hl2⟩
        · left
          exact keep _ hl (fun e => h2 (key_unknown_eq n _ _ hn e).1)
        · right
          refine ⟨keep _ hl1 (fun e => ?_), keep _ hl2 (fun e => ?_)⟩
          · exact h1 (Or.inl (key_target_eq n _ _ _ hn hname hg e).1)
          · exact h1 (Or.inr (key_target_eq n _ _ _ hn hname hk8 e).1)
  · rcases hq n hn with hl | ⟨hl1, hl2⟩
    · left
      exact keep _ hl (fun e => hnx (key_unknown_eq n _ _ hn e).2)
    · right
      refine ⟨keep _ hl1 (fun e => ?_), keep _ hl2 (fun e => ?_)⟩
      · exact hnx (key_target_eq n _ _ _ hn hname hg e).2
      · exact hnx (key_target_eq n _ _ _ hn hname hk8 e).2

theorem unknownExclusive_empty : unknownExclusive ∅ :=
  fun _ _ => Or.inl (AList.lookup_empty _)

theorem upsertAll_unknownExclusive (save : Catalog → Option String)
    (steps : List (String × PluginInfo))
    (hnames : ∀ s ∈ steps, noUnderscore s.2.Name) :
    ∀ sc : Catalog, allMaps unknownExclusive sc →
      ∃ sc', upsertAll save sc steps = some sc' ∧ allMaps unknownExclusive sc' := by
  induction steps with
  | nil => exact fun sc h => ⟨sc, rfl, h⟩
  | cons s rest ih =>
    intro sc hsc
    obtain ⟨hall, m, hp, hq⟩ := NewContextCatalog_allMaps _ unknownExclusive_empty sc s.1 hsc
    obtain ⟨c', m', hu, hso, hp', hm'⟩ := Upsert_step save (NewContextCatalog sc s.1) m s.2 hp
    have hq' : unknownExclusive m' :=
      unknownExclusive_step m m' s.2 (hnames s (List.mem_cons_self _ _)) hq hm'
    have hall' : allMaps unknownExclusive c'.sharedCatalog :=
      allMaps_of_otherMaps _ c' m'
        (otherMaps_of_sameOthers _ _ _ hso (otherMaps_of_allMaps _ _ hall)) hp' hq'
    obtain ⟨sc', hrun, hres⟩ := ih (fun x hx => hnames x (List.mem_cons_of_mem _ hx))
      c'.sharedCatalog hall'
    refine ⟨sc', ?_, hres⟩
    rw [upsertAll, hu]
    exact hrun

/-- C4 (as stated, refuted): from the empty store, upserting the global and then
the kubernetes `foo` on the stand-alone view leaves both keys active, so two of
the three target variants of `foo` have an entry; and upserting the
unknown-target plugins `foo` and `foo_global` leaves the unknown key `foo`
active together with `foo_global`, which is the global key of `foo`. -/
theorem mutual_exclusion_fails :
    (∃ sc, upsertAll saveOk newSharedCatalog coexistRun = some sc ∧
      (NewContextCatalog sc "").activePath (PluginNameTarget "foo" TargetGlobal) = some "/q" ∧
      (NewContextCatalog sc "").activePath (PluginNameTarget "foo" TargetK8s) = some "/k" ∧
      ¬ activeVariants (NewContextCatalog sc "") "foo" ≤ 1) ∧
    (∃ sc, upsertAll saveOk newSharedCatalog collisionRun = some sc ∧
      (NewContextCatalog sc "").activePath (PluginNameTarget "foo" TargetUnknown) = some "/p" ∧
      (NewContextCatalog sc "").activePath (PluginNameTarget "foo" TargetGlobal) = some "/g" ∧
      ¬ activeVariants (NewContextCatalog sc "") "foo" ≤ 1) :=
  ⟨⟨_, rfl, by decide, by decide, by decide⟩, ⟨_, rfl, by decide, by decide, by decide⟩⟩

/-- C4 (amended): from the empty store, every run of `Upsert` calls whose plugin
names hold no underscore returns, and in every context view of the resulting
store, for every plugin name without underscore, the unknown-target key is not
active together with the global key or with the kubernetes key. -/
theorem unknown_excludes_targets (save : Catalog → Option String)
    (steps : List (String × PluginInfo))
    (hnames : ∀ s ∈ steps, noUnderscore s.2.Name) :
    ∃ sc, upsertAll save newSharedCatalog steps = some sc ∧
      ∀ ctx name, noUnderscore name →
        (NewContextCatalog sc ctx).activePath (PluginNameTarget name TargetUnknown) = none ∨
        ((NewContextCatalog sc ctx).activePath (PluginNameTarget name TargetGlobal) = none ∧
          (NewContextCatalog sc ctx).activePath (PluginNameTarget name TargetK8s) = none) := by
  obtain ⟨sc, hrun, hall⟩ := upsertAll_unknownExclusive save steps hnames newSharedCatalog
    (allMaps_newSharedCatalog _ unknownExclusive_empty)
  refine ⟨sc, hrun, fun ctx name hn => ?_⟩
  obtain ⟨_, m, hp, hq⟩ := NewContextCatalog_allMaps _ unknownExclusive_empty sc ctx hall
  simp only [activePath_of_plugins _ m _ hp]
  exact hq name hn

theorem unknown_excludes_targets_witness :
    (∀ s ∈ migrationRun, noUnderscore s.2.Name) ∧
    ∃ sc, upsertAll saveOk newSharedCatalog migrationRun = some sc ∧
      ∀ ctx name, noUnderscore name →
        (NewContextCatalog sc ctx).activePath (PluginNameTarget name TargetUnknown) = none ∨
        ((NewContextCatalog sc ctx).activePath (PluginNameTarget name TargetGlobal) = none ∧
          (NewContextCatalog sc ctx).activePath (PluginNameTarget name TargetK8s) = none) :=
  ⟨by decide, unknown_excludes_targets saveOk migrationRun (by decide)⟩

theorem IndexByName_no_duplicates_witness :
    (∀ s ∈ sameKeyRun, s.2.Name = "foo" ∧ s.2.Target = TargetGlobal) ∧
    ∃ sc, upsertAll saveOk newSharedCatalog sameKeyRun = some sc ∧
      (sc.IndexByName.sliceAt (PluginNameTarget "foo" TargetGlobal)).Nodup ∧
      (∀ p, p ∈ sc.IndexByName.sliceAt (PluginNameTarget "foo" TargetGlobal)
        ↔ p ∈ sameKeyRun.map (fun s => s.2.InstallationPath)) ∧
      (sc.IndexByName.sliceAt (PluginNameTarget "foo" TargetGlobal)).length
        = (sameKeyRun.map (fun s => s.2.InstallationPath)).dedup.length :=
  ⟨by decide, IndexByName_no_duplicates saveOk "foo" TargetGlobal sameKeyRun (by decide)⟩

/-! ## Referential integrity -/

theorem refIntegrity_plugins (c : ContextCatalog) (m : GoMap String)
    (h : c.sharedCatalog.refIntegrity) (hp : c.plugins = some m) :
    ∀ e ∈ m.entries, e.2 ∈ c.sharedCatalog.IndexByPath.keys := by
  unfold ContextCatalog.plugins at hp
  by_cases hc : c.context = ""
  · rw [if_pos hc] at hp
    rw [← Option.some.inj hp]
    exact h.1
  · rw [if_neg hc] at hp
    cases hl : c.sharedCatalog.ServerPlugins.lookup c.context with
    | none => rw [hl] at hp; cases hp
    | some v =>
      rw [hl] at hp
      have hv : v = some m := by simpa using hp
      have hmem : (⟨c.context, v⟩ : Sigma fun _ : String => PluginAssociation)
          ∈ c.sharedCatalog.ServerPlugins.entries := AList.mem_lookup_iff.mp hl
      have h2 := h.2.1 _ hmem
      rw [hv] at h2
      exact h2

theorem refIntegrity_setPlugins (c : ContextCatalog) (m : GoMap String)
    (h : c.sharedCatalog.refIntegrity)
    (hm : ∀ e ∈ m.entries, e.2 ∈ c.sharedCatalog.IndexByPath.keys) :
    (c.setPlugins m).sharedCatalog.refIntegrity := by
  unfold ContextCatalog.setPlugins
  by_cases hc : c.context = ""
  · rw [if_pos hc]
    exact ⟨hm, h.2.1, h.2.2⟩
  · rw [if_neg hc]
    refine ⟨h.1, ?_, h.2.2⟩
    intro ce hce
    simp only [AList.insert_entries, List.mem_cons] at hce
    rcases hce with hce | hce
    · rw [hce]
      exact hm
    · exact h.2.1 ce ((List.kerase_sublist _ _).subset hce)

/-- `Delete` keeps referential integrity: it only removes an active entry. -/
theorem Delete_preserves_refIntegrity (save : Catalog → Option String) (c : ContextCatalog)
    (key : String) (h : c.sharedCatalog.refIntegrity) :
    (c.Delete save key).1.sharedCatalog.refIntegrity := by
  cases hp : c.plugins with
  | none =>
    rw [Delete_of_inactive save c key (by simp [ContextCatalog.activePath, hp])]
    exact h
  | some m =>
    cases hl : m.lookup key with
    | none =>
      rw [Delete_of_inactive save c key (by simp [ContextCatalog.activePath, hp, hl])]
      exact h
    | some path =>
      rw [Delete_of_active save c m key path hp hl]
      apply refIntegrity_setPlugins c _ h
      intro e he
      exact refIntegrity_plugins c m h hp e ((List.kerase_sublist _ _).subset he)

theorem refIntegrity_mono (s : Catalog) (ibp : GoMap PluginInfo)
    (hsub : ∀ x, x ∈ s.IndexByPath.keys → x ∈ ibp.keys) (h : s.refIntegrity) :
    ({ s with IndexByPath := ibp } : Catalog).refIntegrity :=
  ⟨fun e he => hsub _ (h.1 e he), fun ce hce e he => hsub _ (h.2.1 ce hce e he),
    fun ne hne p hp => hsub _ (h.2.2 ne hne p hp)⟩

theorem refIntegrity_setIndexByName (s : Catalog) (key : String) (l : List String)
    (h : s.refIntegrity) (hl : ∀ p ∈ l, p ∈ s.IndexByPath.keys) :
    ({ s with IndexByName := s.IndexByName.insert key l } : Catalog).refIntegrity := by
  refine ⟨h.1, h.2.1, ?_⟩
  intro ne hne
  simp only [AList.insert_entries, List.mem_cons] at hne
  rcases hne with hne | hne
  · rw [hne]
    exact hl
  · exact h.2.2 ne ((List.kerase_sublist _ _).subset hne)

theorem sliceAt_mem_keys (s : Catalog) (key : String) (h : s.refIntegrity) :
    ∀ p ∈ s.IndexByName.sliceAt key, p ∈ s.IndexByPath.keys := by
  unfold GoMap.sliceAt
  cases hl : s.IndexByName.lookup key with
  | none => simp
  | some l =>
    have hmem : (⟨key, l⟩ : Sigma fun _ : String => List String) ∈ s.IndexByName.entries :=
      AList.mem_lookup_iff.mp hl
    exact h.2.2 _ hmem

/-- The recording step of `Upsert` (lines 67-72) keeps referential integrity. -/
theorem recordPlugin_preserves_refIntegrity (c : ContextCatalog) (m : GoMap String)
    (plugin : PluginInfo) (h : c.sharedCatalog.refIntegrity) (hp : c.plugins = some m) :
    (c.recordPlugin m plugin).sharedCatalog.refIntegrity := by
  have hkeys : ∀ x, x ∈ c.sharedCatalog.IndexByPath.keys →
      x ∈ (c.sharedCatalog.IndexByPath.insert plugin.InstallationPath plugin).keys := by
    intro x hx
    rw [← AList.mem_keys, AList.mem_insert]
    exact Or.inr (AList.mem_keys.mpr hx)
  have hpath : plugin.InstallationPath
      ∈ (c.sharedCatalog.IndexByPath.insert plugin.InstallationPath plugin).keys := by
    rw [← AList.mem_keys, AList.mem_insert]
    exact Or.inl rfl
  have hm := refIntegrity_plugins c m h hp
  have h1 : (c.setPlugins
      (m.insert (PluginNameTarget plugin.Name plugin.Target)
        plugin.InstallationPath)).sharedCatalog.IndexByPath = c.sharedCatalog.IndexByPath :=
    setPlugins_IndexByPath _ _
  have h0 := refIntegrity_mono c.sharedCatalog _ hkeys h
  have h2 := refIntegrity_setPlugins
    { c with sharedCatalog :=
        { c.sharedCatalog with
          IndexByPath := c.sharedCatalog.IndexByPath.insert plugin.InstallationPath plugin } }
    (m.insert (PluginNameTarget plugin.Name plugin.Target) plugin.InstallationPath) h0
    (by
      intro e he
      simp only [AList.insert_entries, List.mem_cons] at he
      rcases he with he | he
      · rw [he]
        exact hpath
      · exact hkeys _ (hm e ((List.kerase_sublist _ _).subset he)))
  have h3 := refIntegrity_setIndexByName _ (PluginNameTarget plugin.Name plugin.Target)
    (c.sharedCatalog.IndexByName.sliceAt (PluginNameTarget plugin.Name plugin.Target)
      ++ [plugin.InstallationPath]) h2
    (by
      intro p hpm
      rw [List.mem_append, List.mem_singleton] at hpm
      have e1 : ((ContextCatalog.mk
          { c.sharedCatalog with
            IndexByPath := c.sharedCatalog.IndexByPath.insert plugin.InstallationPath plugin }
          c.context).setPlugins
          (m.insert (PluginNameTarget plugin.Name plugin.Target)
            plugin.InstallationPath)).sharedCatalog.IndexByPath
          = c.sharedCatalog.IndexByPath.insert plugin.InstallationPath plugin :=
        setPlugins_IndexByPath _ _
      rw [e1]
      rcases hpm with hpm | hpm
      · exact hkeys _ (sliceAt_mem_keys c.sharedCatalog _ h p hpm)
      · rw [hpm]
        exact hpath)
  unfold ContextCatalog.recordPlugin
  unfold ContextCatalog.setPlugins at h2 h3 ⊢
  by_cases hc : c.context = ""
  · simp only [hc, if_true] at h2 h3 ⊢
    split
    · exact h3
    · exact h2
  · simp only [hc, if_false] at h2 h3 ⊢
    split
    · exact h3
    · exact h2

/-- `Upsert` keeps referential integrity whenever no eviction fires, that is,
when none of the keys it would evict is active in the view. -/
theorem Upsert_preserves_refIntegrity_of_no_eviction (save : Catalog → Option String)
    (c : ContextCatalog) (plugin : PluginInfo) (h : c.sharedCatalog.refIntegrity)
    (hno : ∀ k ∈ evictedKeys plugin, c.activePath k = none) :
    ∀ r, c.Upsert save plugin = some r → r.1.sharedCatalog.refIntegrity := by
  intro r hr
  cases hp : c.plugins with
  | none => simp [ContextCatalog.Upsert, hp] at hr
  | some m =>
    rw [Upsert_of_plugins save c m plugin hp] at hr
    have hno2 : (c.recordPlugin m plugin).evictOtherTargets plugin = c.recordPlugin m plugin := by
      apply evict_noop
      intro k hk
      have hne : k ≠ PluginNameTarget plugin.Name plugin.Target :=
        fun e => key_not_evicted plugin (e ▸ hk)
      rw [recordPlugin_activePath_ne c m plugin k hne, ← activePath_of_plugins c m k hp]
      exact hno k hk
    rw [hno2] at hr
    rw [← Option.some.inj hr]
    exact recordPlugin_preserves_refIntegrity c m plugin h hp

/-- C1 (the code at the failing input): `legacyStore` has referential integrity,
with the unknown-target `foo` at `/p` active stand-alone and in the context
`ctx`.  `Upsert` of the global `foo` at `/q` on the stand-alone view returns, and
the store it leaves has lost referential integrity: `ctx` still has `foo` active
at `/p`, which has no `IndexByPath` entry any more.  `Upsert` of the global
`foo` at the same path `/p` leaves the new key `foo_global` active at `/p`
without an `IndexByPath` entry.  The first situation is reached from the empty
store by three `Upsert` calls. -/
theorem Upsert_breaks_refIntegrity :
    legacyStore.refIntegrity ∧
    (∃ c', (NewContextCatalog legacyStore "").Upsert saveOk fooGlobal = some (c', none) ∧
      (NewContextCatalog c'.sharedCatalog "ctx").activePath "foo" = some "/p" ∧
      c'.sharedCatalog.IndexByPath.lookup "/p" = none ∧
      ¬ c'.sharedCatalog.refIntegrity) ∧
    (∃ c', (NewContextCatalog legacyStore "").Upsert saveOk fooGlobalAtP = some (c', none) ∧
      c'.activePath "foo_global" = some "/p" ∧
      c'.sharedCatalog.IndexByPath.lookup "/p" = none ∧
      ¬ c'.sharedCatalog.refIntegrity) ∧
    (∃ sc, upsertAll saveOk newSharedCatalog danglingRun = some sc ∧ ¬ sc.refIntegrity) :=
  ⟨by decide, ⟨_, rfl, by decide, by decide, by decide⟩,
    ⟨_, rfl, by decide, by decide, by decide⟩, ⟨_, rfl, by decide⟩⟩

/-! ## Keys are not unique for names with an underscore -/

/-- On names without underscore `PluginNameTarget` is injective. -/
theorem PluginNameTarget_injective_of_noUnderscore (n1 n2 t1 t2 : String)
    (h1 : noUnderscore n1) (h2 : noUnderscore n2)
    (h : PluginNameTarget n1 t1 = PluginNameTarget n2 t2) : n1 = n2 ∧ t1 = t2 := by
  by_cases ht1 : t1 = ""
  · rw [ht1] at h ⊢
    have h' : PluginNameTarget n1 TargetUnknown = PluginNameTarget n2 t2 := h
    obtain ⟨e1, e2⟩ := key_unknown_eq n1 n2 t2 h1 h'
    exact ⟨e2, e1.symm⟩
  · obtain ⟨e1, e2⟩ := key_target_eq n1 n2 t2 t1 h1 h2 ht1 h
    exact ⟨e2, e1.symm⟩

/-- C11 (the code at the failing input): the plugin `foo` with the target
`global` and the plugin `foo_global` with the empty target are different
name/target pairs with the same key `foo_global`; likewise `a_b` with target `c`
and `a` with target `b_c` share the key `a_b_c`. -/
theorem PluginNameTarget_collision :
    PluginNameTarget "foo" TargetGlobal = PluginNameTarget "foo_global" TargetUnknown ∧
    ("foo", TargetGlobal) ≠ ("foo_global", TargetUnknown) ∧
    PluginNameTarget "a_b" "c" = PluginNameTarget "a" "b_c" ∧
    (("a_b", "c") : String × String) ≠ ("a", "b_c") ∧
    ¬ (∀ n1 n2 t1 t2 : String,
        PluginNameTarget n1 t1 = PluginNameTarget n2 t2 → n1 = n2 ∧ t1 = t2) := by
  refine ⟨by decide, by decide, by decide, by decide, fun h => ?_⟩
  have h1 := h "foo" "foo_global" TargetGlobal TargetUnknown (by decide)
  exact absurd h1.1 (by decide)

/-! ## Opening a view -/

/-- C12: `NewContextCatalog` resolves the right namespace.  The view carries the
given context.  With the empty context the store is unchanged and the view's map
is `StandAlonePlugins`.  With a non-empty context the view's map is
`ServerPlugins[context]`: when the context is present the store is unchanged,
when it is absent an empty map is created there.  In every case `IndexByPath`,
`IndexByName`, `StandAlonePlugins` and every other context's map are unchanged. -/
theorem NewContextCatalog_binds (sc : Catalog) (context : String) :
    (NewContextCatalog sc context).context = context ∧
    (context = "" →
      (NewContextCatalog sc context).sharedCatalog = sc ∧
      (NewContextCatalog sc context).plugins = some sc.StandAlonePlugins) ∧
    (context ≠ "" →
      (NewContextCatalog sc context).plugins
        = ((NewContextCatalog sc context).sharedCatalog.ServerPlugins.lookup context).join ∧
      (∀ v, sc.ServerPlugins.lookup context = some v →
        (NewContextCatalog sc context).sharedCatalog = sc ∧
        (NewContextCatalog sc context).plugins = v) ∧
      (sc.ServerPlugins.lookup context = none →
        (NewContextCatalog sc context).sharedCatalog.ServerPlugins.lookup context
          = some (some ∅) ∧
        (NewContextCatalog sc context).plugins = some ∅)) ∧
    (NewContextCatalog sc context).sharedCatalog.IndexByPath = sc.IndexByPath ∧
    (NewContextCatalog sc context).sharedCatalog.IndexByName = sc.IndexByName ∧
    (NewContextCatalog sc context).sharedCatalog.StandAlonePlugins = sc.StandAlonePlugins ∧
    (∀ ctx, ctx ≠ context →
      (NewContextCatalog sc context).sharedCatalog.ServerPlugins.lookup ctx
        = sc.ServerPlugins.lookup ctx) := by
  by_cases hc : context = ""
  · have e : NewContextCatalog sc context = { sharedCatalog := sc, context := context } := by
      unfold NewContextCatalog
      rw [if_pos hc]
    rw [e]
    refine ⟨rfl, fun _ => ⟨rfl, by simp [ContextCatalog.plugins, hc]⟩,
      fun h => absurd hc h, rfl, rfl, rfl, fun _ _ => rfl⟩
  · cases hl : sc.ServerPlugins.lookup context with
    | some v =>
      have e : NewContextCatalog sc context = { sharedCatalog := sc, context := context } := by
        unfold NewContextCatalog
        rw [if_neg hc]
        simp only [hl]
      rw [e]
      refine ⟨rfl, fun h => absurd h hc, fun _ => ⟨by simp [ContextCatalog.plugins, hc], ?_, ?_⟩,
        rfl, rfl, rfl, fun _ _ => rfl⟩
      · intro w hw
        have hvw : v = w := Option.some.inj hw
        refine ⟨rfl, ?_⟩
        simp [ContextCatalog.plugins, hc, hl, hvw]
      · intro h
        cases h
    | none =>
      have e : NewContextCatalog sc context =
          { sharedCatalog :=
              { sc with ServerPlugins := sc.ServerPlugins.insert context (some ∅) },
            context := context } := by
        unfold NewContextCatalog
        rw [if_neg hc]
        simp only [hl]
      rw [e]
      refine ⟨rfl, fun h => absurd h hc, fun _ => ⟨by simp [ContextCatalog.plugins, hc], ?_, ?_⟩,
        rfl, rfl, rfl, fun ctx hx => ?_⟩
      · intro w hw
        cases hw
      · intro _
        exact ⟨by simp [AList.lookup_insert],
          by simp [ContextCatalog.plugins, hc, AList.lookup_insert]⟩
      · simp [AList.lookup_insert_ne hx]

theorem NewContextCatalog_binds_witness :
    ("new" : String) ≠ "" ∧
    legacyStore.ServerPlugins.lookup "new" = none ∧
    (NewContextCatalog legacyStore "new").plugins = some ∅ ∧
    (NewContextCatalog legacyStore "new").sharedCatalog.StandAlonePlugins
      = legacyStore.StandAlonePlugins ∧
    (NewContextCatalog legacyStore "new").sharedCatalog.ServerPlugins.lookup "ctx"
      = legacyStore.ServerPlugins.lookup "ctx" :=
  ⟨by decide, by decide,
    ((NewContextCatalog_binds legacyStore "new").2.2.1 (by decide)).2.2 (by decide) |>.2,
    (NewContextCatalog_binds legacyStore "new").2.2.2.2.2.1,
    (NewContextCatalog_binds legacyStore "new").2.2.2.2.2.2 "ctx" (by decide)⟩

/-! ## Nil maps after loading -/

theorem NewContextCatalog_plugins_some (sc : Catalog) (context : String)
    (h : sc.ServerPlugins.lookup context ≠ some none) :
    ∃ m, (NewContextCatalog sc context).plugins = some m := by
  by_cases hc : context = ""
  · refine ⟨sc.StandAlonePlugins, ?_⟩
    unfold NewContextCatalog
    rw [if_pos hc]
    simp [ContextCatalog.plugins, hc]
  · cases hl : sc.ServerPlugins.lookup context with
    | none =>
      refine ⟨∅, ?_⟩
      unfold NewContextCatalog
      rw [if_neg hc]
      simp only [hl]
      simp [ContextCatalog.plugins, hc, AList.lookup_insert]
    | some v =>
      cases v with
      | none => exact absurd hl h
      | some m =>
        refine ⟨m, ?_⟩
        unfold NewContextCatalog
        rw [if_neg hc]
        simp only [hl]
        simp [ContextCatalog.plugins, hc, hl]

/-- After loading, `Upsert` returns (no write to a nil map) on every view whose
context is not given a null map by the decoded `ServerPlugins`. -/
theorem Upsert_returns_after_load (save : Catalog → Option String) (file : CacheFile)
    (context : String) (c : ContextCatalog) (plugin : PluginInfo)
    (hload : loadContextCatalog file context = .ok c)
    (hnull : ∀ d sp, file = .decoded d → d.ServerPlugins = some sp →
      sp.lookup context ≠ some none) :
    ∃ r, c.Upsert save plugin = some r := by
  unfold loadContextCatalog at hload
  cases hg : getCatalogCache file with
  | error err => rw [hg] at hload; cases hload
  | ok sc =>
    rw [hg] at hload
    have hc : c = NewContextCatalog sc context := by
      injection hload with h
      exact h.symm
    have hsp : sc.ServerPlugins.lookup context ≠ some none := by
      cases file with
      | unreadable e =>
        cases e with
        | none =>
          simp only [getCatalogCache, Except.ok.injEq] at hg
          rw [← hg]
          simp [newSharedCatalog]
        | some err => simp [getCatalogCache] at hg
      | undecodable err => simp [getCatalogCache] at hg
      | decoded d =>
        simp only [getCatalogCache, Except.ok.injEq] at hg
        rw [← hg]
        cases hd : d.ServerPlugins with
        | none => simp
        | some sp => exact hnull d sp rfl hd
    obtain ⟨m, hm⟩ := NewContextCatalog_plugins_some sc context hsp
    rw [hc]
    exact ⟨_, Upsert_of_plugins save _ m plugin hm⟩

/-- C13 (the code at the failing input): the cache content `nullContextFile`
decodes, with a null entry for the context `ctx` in `ServerPlugins`.
`getCatalogCache` followed by `NewContextCatalog("ctx")` succeeds and yields a
view whose active-path map is nil, and every `Upsert` on that view writes to the
nil map (the result `none`). -/
theorem nil_context_map_after_load :
    ∃ c, loadContextCatalog nullContextFile "ctx" = .ok c ∧
      c.sharedCatalog.ServerPlugins.lookup "ctx" = some none ∧
      c.plugins = none ∧
      ∀ (save : Catalog → Option String) (plugin : PluginInfo),
        c.Upsert save plugin = none :=
  ⟨_, rfl, by decide, by decide, fun _ _ => rfl⟩

/-! ## Version sorting -/

theorem SortVersions_of_all_parse (vs : List String)
    (h : ∀ v ∈ vs, (parseVersion v).isSome = true) :
    SortVersions vs = .ok (vs.insertionSort versionLE) := by
  have hf : vs.find? (fun v => (parseVersion v).isNone) = none := by
    rw [List.find?_eq_none]
    intro v hv
    have := h v hv
    cases hp : parseVersion v with
    | none => rw [hp] at this; cases this
    | some k => simp
  unfold SortVersions
  rw [hf]

theorem SortVersions_of_malformed (vs : List String)
    (h : ∃ v ∈ vs, parseVersion v = none) :
    ∃ v, v ∈ vs ∧ parseVersion v = none ∧ SortVersions vs = .error (.versionParse v) := by
  cases hf : vs.find? (fun v => (parseVersion v).isNone) with
  | none =>
    rw [List.find?_eq_none] at hf
    obtain ⟨v, hv, hp⟩ := h
    have := hf v hv
    rw [hp] at this
    simp at this
  | some v =>
    have hp : (parseVersion v).isNone = true :=
      List.find?_some (p := fun v => (parseVersion v).isNone) hf
    refine ⟨v, List.mem_of_find?_eq_some hf, ?_, ?_⟩
    · cases hq : parseVersion v with
      | none => rfl
      | some k => rw [hq] at hp; cases hp
    · unfold SortVersions
      rw [hf]

theorem mapValues_keys {V W : Type} (f : V → W) (m : GoMap V) :
    (m.mapValues f).keys = m.keys := by
  unfold GoMap.mapValues AList.keys List.keys
  simp [List.map_map, Function.comp_def]

theorem UpdateArtifacts_keys (p : CLIPlugin) (ov : List (String × String)) :
    (UpdateArtifactsBasedOnImageRepositoryOverride p ov).Spec.Artifacts.keys
      = p.Spec.Artifacts.keys := by
  unfold UpdateArtifactsBasedOnImageRepositoryOverride
  exact mapValues_keys _ _

theorem UpdateArtifacts_Name (p : CLIPlugin) (ov : List (String × String)) :
    (UpdateArtifactsBasedOnImageRepositoryOverride p ov).Name = p.Name := rfl

theorem DiscoveredFromREST_of_all_parse (stt : String → String) (p : Plugin)
    (h : ∀ v ∈ p.Artifacts.keys, (parseVersion v).isSome = true) :
    (DiscoveredFromREST stt p).2 = none ∧
    (DiscoveredFromREST stt p).1.SupportedVersions = p.Artifacts.keys.insertionSort versionLE ∧
    (DiscoveredFromREST stt p).1.Name = p.Name := by
  have hs := SortVersions_of_all_parse _ h
  simp [DiscoveredFromREST, hs]

theorem DiscoveredFromREST_of_malformed (stt : String → String) (p : Plugin)
    (h : ∃ v ∈ p.Artifacts.keys, parseVersion v = none) :
    ∃ v, v ∈ p.Artifacts.keys ∧ parseVersion v = none ∧
      (DiscoveredFromREST stt p).2
        = some (.wrap ("error parsing supported versions for plugin " ++ p.Name)
            (.versionParse v)) := by
  obtain ⟨v, hv, hp, hs⟩ := SortVersions_of_malformed _ h
  refine ⟨v, hv, hp, ?_⟩
  simp [DiscoveredFromREST, hs]

theorem DiscoveredFromK8s_of_all_parse (stt : String → String) (p : CLIPlugin)
    (ov : List (String × String))
    (h : ∀ v ∈ p.Spec.Artifacts.keys, (parseVersion v).isSome = true) :
    (DiscoveredFromK8sV1alpha1WithImageRepositoryOverride stt p ov).2 = none ∧
    (DiscoveredFromK8sV1alpha1WithImageRepositoryOverride stt p ov).1.SupportedVersions
      = p.Spec.Artifacts.keys.insertionSort versionLE ∧
    (DiscoveredFromK8sV1alpha1WithImageRepositoryOverride stt p ov).1.Name = p.Name := by
  have hs := SortVersions_of_all_parse _ h
  simp [DiscoveredFromK8sV1alpha1WithImageRepositoryOverride, UpdateArtifacts_keys, hs,
    UpdateArtifacts_Name]

theorem DiscoveredFromK8s_of_malformed (stt : String → String) (p : CLIPlugin)
    (ov : List (String × String))
    (h : ∃ v ∈ p.Spec.Artifacts.keys, parseVersion v = none) :
    ∃ v, v ∈ p.Spec.Artifacts.keys ∧ parseVersion v = none ∧
      (DiscoveredFromK8sV1alpha1WithImageRepositoryOverride stt p ov).2
        = some (.wrap ("error parsing supported versions for plugin " ++ p.Name)
            (.versionParse v)) := by
  obtain ⟨v, hv, hp, hs⟩ := SortVersions_of_malformed _ h
  refine ⟨v, hv, hp, ?_⟩
  simp [DiscoveredFromK8sV1alpha1WithImageRepositoryOverride, UpdateArtifacts_keys, hs,
    UpdateArtifacts_Name]

theorem sorted_versions_facts (keys : List String) (hnodup : keys.Nodup) :
    (keys.insertionSort versionLE).Nodup ∧
    (∀ v, v ∈ keys.insertionSort versionLE ↔ v ∈ keys) ∧
    (keys.insertionSort versionLE).Sorted versionLE :=
  ⟨(List.perm_insertionSort versionLE keys).nodup_iff.mpr hnodup,
    fun _ => (List.perm_insertionSort versionLE keys).mem_iff,
    List.sorted_insertionSort versionLE keys⟩

/-- C15: normalised versions are deduplicated and sorted.  For every REST
`Plugin` and every `CLIPlugin` (with any image repository override) whose
artifact version keys all parse, `DiscoveredFromREST` and
`DiscoveredFromK8sV1alpha1WithImageRepositoryOverride` return no error and a
`SupportedVersions` list without repetition, whose elements are exactly the
artifact version keys, in ascending semantic-version order. -/
theorem SupportedVersions_sorted (StringToTarget : String → String) :
    (∀ p : Plugin, (∀ v ∈ p.Artifacts.keys, (parseVersion v).isSome = true) →
      (DiscoveredFromREST StringToTarget p).2 = none ∧
      (DiscoveredFromREST StringToTarget p).1.SupportedVersions.Nodup ∧
      (∀ v, v ∈ (DiscoveredFromREST StringToTarget p).1.SupportedVersions
        ↔ v ∈ p.Artifacts.keys) ∧
      (DiscoveredFromREST StringToTarget p).1.SupportedVersions.Sorted versionLE) ∧
    (∀ (p : CLIPlugin) (imageRepoOverride : List (String × String)),
      (∀ v ∈ p.Spec.Artifacts.keys, (parseVersion v).isSome = true) →
      (DiscoveredFromK8sV1alpha1WithImageRepositoryOverride StringToTarget p
        imageRepoOverride).2 = none ∧
      (DiscoveredFromK8sV1alpha1WithImageRepositoryOverride StringToTarget p
        imageRepoOverride).1.SupportedVersions.Nodup ∧
      (∀ v, v ∈ (DiscoveredFromK8sV1alpha1WithImageRepositoryOverride StringToTarget p
          imageRepoOverride).1.SupportedVersions ↔ v ∈ p.Spec.Artifacts.keys) ∧
      (DiscoveredFromK8sV1alpha1WithImageRepositoryOverride StringToTarget p
        imageRepoOverride).1.SupportedVersions.Sorted versionLE) := by
  constructor
  · intro p h
    obtain ⟨h1, h2, _⟩ := DiscoveredFromREST_of_all_parse StringToTarget p h
    rw [h2]
    exact ⟨h1, sorted_versions_facts _ p.Artifacts.keys_nodup⟩
  · intro p ov h
    obtain ⟨h1, h2, _⟩ := DiscoveredFromK8s_of_all_parse StringToTarget p ov h
    rw [h2]
    exact ⟨h1, sorted_versions_facts _ p.Spec.Artifacts.keys_nodup⟩

theorem SupportedVersions_sorted_witness :
    (∀ v ∈ restFoo.Artifacts.keys, (parseVersion v).isSome = true) ∧
    (∀ v ∈ k8sFoo.Spec.Artifacts.keys, (parseVersion v).isSome = true) ∧
    (DiscoveredFromREST id restFoo).1.SupportedVersions = ["v1.0.0", "v1.2.0"] ∧
    (DiscoveredFromREST id restFoo).1.SupportedVersions.Sorted versionLE ∧
    (DiscoveredFromK8sV1alpha1WithImageRepositoryOverride id k8sFoo
      []).1.SupportedVersions.Sorted versionLE :=
  ⟨by decide, by decide, by decide,
    ((SupportedVersions_sorted id).1 restFoo (by decide)).2.2.2,
    ((SupportedVersions_sorted id).2 k8sFoo [] (by decide)).2.2.2⟩

/-! ## The conversion loops of the two backends -/

theorem all_parse_of_not_malformed (keys : List String)
    (h : ¬ ∃ v ∈ keys, parseVersion v = none) :
    ∀ v ∈ keys, (parseVersion v).isSome = true := by
  intro v hv
  cases hp : parseVersion v with
  | none => exact absurd ⟨v, hv, hp⟩ h
  | some k => rfl

theorem DiscoveredFromREST_type (stt : String → String) (p : Plugin) :
    (DiscoveredFromREST stt p).1.DiscoveryType = "" := by
  unfold DiscoveredFromREST
  simp only
  cases hs : SortVersions p.Artifacts.keys <;> rfl

theorem REST_convertAll_ok (d : RESTDiscovery) (stt : String → String) :
    ∀ (ps : List Plugin) (acc : List Discovered),
      (∀ p ∈ ps, ∀ v ∈ p.Artifacts.keys, (parseVersion v).isSome = true) →
      d.convertAll stt acc ps
        = .ok (acc ++ (ps.filter (fun p => p.Name ≠ "")).map
            (fun p => { (DiscoveredFromREST stt p).1 with Source := d.name })) := by
  intro ps
  induction ps with
  | nil => intro acc _; simp [RESTDiscovery.convertAll]
  | cons p rest ih =>
    intro acc h
    obtain ⟨h2, _, hn⟩ := DiscoveredFromREST_of_all_parse stt p (h p (List.mem_cons_self _ _))
    have e : DiscoveredFromREST stt p = ((DiscoveredFromREST stt p).1, none) :=
      Prod.ext rfl h2
    have ihr := fun acc => ih acc (fun q hq => h q (List.mem_cons_of_mem _ hq))
    rw [RESTDiscovery.convertAll, e]
    simp only
    by_cases hname : p.Name = ""
    · rw [if_pos (by rw [hn]; exact hname), ihr]
      simp [List.filter_cons, hname]
    · rw [if_neg (by rw [hn]; exact hname), ihr]
      simp [List.filter_cons, hname]

theorem REST_convertAll_malformed (d : RESTDiscovery) (stt : String → String) :
    ∀ (ps : List Plugin) (acc : List Discovered),
      (∃ p ∈ ps, ∃ v ∈ p.Artifacts.keys, parseVersion v = none) →
      ∃ p v, p ∈ ps ∧ v ∈ p.Artifacts.keys ∧ parseVersion v = none ∧
        d.convertAll stt acc ps
          = .error (.wrap ("error parsing supported versions for plugin " ++ p.Name)
              (.versionParse v)) := by
  intro ps
  induction ps with
  | nil =>
    intro acc h
    obtain ⟨p, hp, _⟩ := h
    cases hp
  | cons p rest ih =>
    intro acc h
    by_cases hhead : ∃ v ∈ p.Artifacts.keys, parseVersion v = none
    · obtain ⟨v, hv, hpv, he⟩ := DiscoveredFromREST_of_malformed stt p hhead
      refine ⟨p, v, List.mem_cons_self _ _, hv, hpv, ?_⟩
      have e : DiscoveredFromREST stt p = ((DiscoveredFromREST stt p).1, some
          (.wrap ("error parsing supported versions for plugin " ++ p.Name)
            (.versionParse v))) := Prod.ext rfl he
      rw [RESTDiscovery.convertAll, e]
    · have htail : ∃ q ∈ rest, ∃ v ∈ q.Artifacts.keys, parseVersion v = none := by
        obtain ⟨q, hq, hv⟩ := h
        rcases List.mem_cons.mp hq with hq | hq
        · rw [hq] at hv
          exact absurd hv hhead
        · exact ⟨q, hq, hv⟩
      obtain ⟨h2, _, _⟩ := DiscoveredFromREST_of_all_parse stt p
        (all_parse_of_not_malformed _ hhead)
      have e : DiscoveredFromREST stt p = ((DiscoveredFromREST stt p).1, none) :=
        Prod.ext rfl h2
      rw [RESTDiscovery.convertAll, e]
      simp only
      split
      · obtain ⟨q, v, hq, hv, hpv, hr⟩ := ih acc htail
        exact ⟨q, v, List.mem_cons_of_mem _ hq, hv, hpv, hr⟩
      · obtain ⟨q, v, hq, hv, hpv, hr⟩ := ih _ htail
        exact ⟨q, v, List.mem_cons_of_mem _ hq, hv, hpv, hr⟩

/-- Every record of the REST loop carries the backend's name as `Source`, and an
empty `DiscoveryType`: the loop never sets that field. -/
theorem REST_convertAll_stamp (d : RESTDiscovery) (stt : String → String) :
    ∀ (ps : List Plugin) (acc out : List Discovered),
      d.convertAll stt acc ps = .ok out →
      (∀ dp ∈ acc, dp.Source = d.name ∧ dp.DiscoveryType = "") →
      ∀ dp ∈ out, dp.Source = d.name ∧ dp.DiscoveryType = "" := by
  intro ps
  induction ps with
  | nil =>
    intro acc out h hacc
    rw [RESTDiscovery.convertAll] at h
    injection h with h
    rw [← h]
    exact hacc
  | cons p rest ih =>
    intro acc out h hacc
    rw [RESTDiscovery.convertAll] at h
    cases he : (DiscoveredFromREST stt p).2 with
    | some err =>
      have e : DiscoveredFromREST stt p = ((DiscoveredFromREST stt p).1, some err) :=
        Prod.ext rfl he
      rw [e] at h
      cases h
    | none =>
      have e : DiscoveredFromREST stt p = ((DiscoveredFromREST stt p).1, none) :=
        Prod.ext rfl he
      rw [e] at h
      simp only at h
      split at h
      · exact ih acc out h hacc
      · apply ih _ out h
        intro dp hdp
        rcases List.mem_append.mp hdp with hdp | hdp
        · exact hacc dp hdp
        · rw [List.mem_singleton] at hdp
          rw [hdp]
          exact ⟨rfl, DiscoveredFromREST_type stt p⟩

theorem K8s_convertAll_malformed (k : KubernetesDiscovery) (stt : String → String)
    (ov : List (String × String)) :
    ∀ (ps : List CLIPlugin) (acc : List Discovered),
      (∃ p ∈ ps, ∃ v ∈ p.Spec.Artifacts.keys, parseVersion v = none) →
      ∃ p v, p ∈ ps ∧ v ∈ p.Spec.Artifacts.keys ∧ parseVersion v = none ∧
        k.convertAll stt ov acc ps
          = .error (.wrap ("error parsing supported versions for plugin " ++ p.Name)
              (.versionParse v)) := by
  intro ps
  induction ps with
  | nil =>
    intro acc h
    obtain ⟨p, hp, _⟩ := h
    cases hp
  | cons p rest ih =>
    intro acc h
    by_cases hhead : ∃ v ∈ p.Spec.Artifacts.keys, parseVersion v = none
    · obtain ⟨v, hv, hpv, he⟩ := DiscoveredFromK8s_of_malformed stt p ov hhead
      refine ⟨p, v, List.mem_cons_self _ _, hv, hpv, ?_⟩
      have e : DiscoveredFromK8sV1alpha1WithImageRepositoryOverride stt p ov
          = ((DiscoveredFromK8sV1alpha1WithImageRepositoryOverride stt p ov).1, some
              (.wrap ("error parsing supported versions for plugin " ++ p.Name)
                (.versionParse v))) := Prod.ext rfl he
      rw [KubernetesDiscovery.convertAll, e]
    · have htail : ∃ q ∈ rest, ∃ v ∈ q.Spec.Artifacts.keys, parseVersion v = none := by
        obtain ⟨q, hq, hv⟩ := h
        rcases List.mem_cons.mp hq with hq | hq
        · rw [hq] at hv
          exact absurd hv hhead
        · exact ⟨q, hq, hv⟩
      obtain ⟨h2, _, _⟩ := DiscoveredFromK8s_of_all_parse stt p ov
        (all_parse_of_not_malformed _ hhead)
      have e : DiscoveredFromK8sV1alpha1WithImageRepositoryOverride stt p ov
          = ((DiscoveredFromK8sV1alpha1WithImageRepositoryOverride stt p ov).1, none) :=
        Prod.ext rfl h2
      rw [KubernetesDiscovery.convertAll, e]
      simp only
      obtain ⟨q, v, hq, hv, hpv, hr⟩ := ih _ htail
      exact ⟨q, v, List.mem_cons_of_mem _ hq, hv, hpv, hr⟩

/-- Every record of the Kubernetes loop carries the backend's name and type. -/
theorem K8s_convertAll_stamp (k : KubernetesDiscovery) (stt : String → String)
    (ov : List (String × String)) :
    ∀ (ps : List CLIPlugin) (acc out : List Discovered),
      k.convertAll stt ov acc ps = .ok out →
      (∀ dp ∈ acc, dp.Source = k.Name ∧ dp.DiscoveryType = k.Type) →
      ∀ dp ∈ out, dp.Source = k.Name ∧ dp.DiscoveryType = k.Type := by
  intro ps
  induction ps with
  | nil =>
    intro acc out h hacc
    rw [KubernetesDiscovery.convertAll] at h
    injection h with h
    rw [← h]
    exact hacc
  | cons p rest ih =>
    intro acc out h hacc
    rw [KubernetesDiscovery.convertAll] at h
    cases he : (DiscoveredFromK8sV1alpha1WithImageRepositoryOverride stt p ov).2 with
    | some err =>
      have e : DiscoveredFromK8sV1alpha1WithImageRepositoryOverride stt p ov
          = ((DiscoveredFromK8sV1alpha1WithImageRepositoryOverride stt p ov).1, some err) :=
        Prod.ext rfl he
      rw [e] at h
      cases h
    | none =>
      have e : DiscoveredFromK8sV1alpha1WithImageRepositoryOverride stt p ov
          = ((DiscoveredFromK8sV1alpha1WithImageRepositoryOverride stt p ov).1, none) :=
        Prod.ext rfl he
      rw [e] at h
      simp only at h
      apply ih _ out h
      intro dp hdp
      rcases List.mem_append.mp hdp with hdp | hdp
      · exact hacc dp hdp
      · rw [List.mem_singleton] at hdp
        rw [hdp]
        exact ⟨rfl, rfl⟩

/-! ## Stamping of source and type -/

/-- Every record that `GetDiscoveredPlugins` returns carries the Kubernetes
backend's `Name()` as `Source` and its `Type()` as `DiscoveryType`. -/
theorem GetDiscoveredPlugins_stamped (k : KubernetesDiscovery) (stt : String → String)
    (client : ClusterClient) (out : List Discovered)
    (h : (k.GetDiscoveredPlugins stt client).1 = some out) :
    ∀ dp ∈ out, dp.Source = k.Name ∧ dp.DiscoveryType = k.Type := by
  unfold KubernetesDiscovery.GetDiscoveredPlugins at h
  split at h
  · cases h
  · split at h
    · cases h
    · split at h
      · cases h
      · next plugins hc =>
        simp only [Option.some.injEq] at h
        rw [← h]
        exact K8s_convertAll_stamp k stt _ _ [] plugins hc (fun dp hdp => by cases hdp)

/-- Every record that `RESTDiscovery.List` returns carries the backend's
`Name()` as `Source` and the empty string as `DiscoveryType`. -/
theorem REST_List_stamp (d : RESTDiscovery) (stt : String → String) (x : Exchange)
    (out : List Discovered) (h : (d.List stt x).1 = some out) :
    ∀ dp ∈ out, dp.Source = d.Name ∧ dp.DiscoveryType = "" := by
  unfold RESTDiscovery.List at h
  split at h
  · cases h
  · split at h
    · cases h
    · split at h
      · cases h
      · next plugins hc =>
        simp only [Option.some.injEq] at h
        rw [← h]
        exact REST_convertAll_stamp d stt _ [] plugins hc (fun dp hdp => by cases hdp)

/-- C16 (the code at the failing input): for the backend `central` and a
response with status 200 whose payload holds the one entry `foo`,
`RESTDiscovery.List` returns one record with `Source` equal to the backend's
name but with an empty `DiscoveryType`, whereas the backend's `Type()` is
`rest`.  The Kubernetes backend stamps both fields on the same plugin. -/
theorem REST_List_leaves_type_empty :
    (restCentral.List id (exchangeWith 200 [restFoo])).1.map
        (fun l => l.map (fun dp => (dp.Name, dp.Source, dp.DiscoveryType)))
      = some [("foo", "central", "")] ∧
    (restCentral.List id (exchangeWith 200 [restFoo])).2 = none ∧
    restCentral.Name = "central" ∧
    restCentral.Type = "rest" ∧
    (k8sCluster.GetDiscoveredPlugins id (clientWith [k8sFoo])).1.map
        (fun l => l.map (fun dp => (dp.Name, dp.Source, dp.DiscoveryType)))
      = some [("foo", k8sCluster.Name, k8sCluster.Type)] :=
  ⟨by decide, by decide, by decide, by decide, by decide⟩

/-! ## Missing resource type -/

/-- C17: a missing resource type is not an error.  When `VerifyCLIPluginCRD`
reports the CLIPlugin resource type as absent, or returns an error,
`GetDiscoveredPlugins` returns the nil list and the nil error, whatever the two
other methods of the cluster client would return. -/
theorem GetDiscoveredPlugins_without_CRD (k : KubernetesDiscovery)
    (StringToTarget : String → String) (clusterClient : ClusterClient)
    (h : clusterClient.VerifyCLIPluginCRD.1 = false ∨
      clusterClient.VerifyCLIPluginCRD.2 ≠ none) :
    k.GetDiscoveredPlugins StringToTarget clusterClient = (none, none) := by
  unfold KubernetesDiscovery.GetDiscoveredPlugins
  rw [if_pos h]

theorem GetDiscoveredPlugins_without_CRD_witness :
    (clientWithoutCRD.VerifyCLIPluginCRD.1 = false ∨
      clientWithoutCRD.VerifyCLIPluginCRD.2 ≠ none) ∧
    k8sCluster.GetDiscoveredPlugins id clientWithoutCRD = (none, none) :=
  ⟨by decide, GetDiscoveredPlugins_without_CRD k8sCluster id clientWithoutCRD (by decide)⟩

/-! ## Malformed versions -/

/-- C18: a malformed version aborts the whole listing.  On a cluster that has
the resource type and lists its resources without error, and for a REST response
with an accepted status and a decoded payload: when some listed plugin has an
artifact version key that does not parse, the backend returns the nil list
together with the error of `SortVersions` on a malformed version key of a listed
plugin (the first one in list order), wrapped under the message
`error parsing supported versions for plugin` followed by that plugin's name. -/
theorem malformed_version_aborts (StringToTarget : String → String) :
    (∀ (k : KubernetesDiscovery) (clusterClient : ClusterClient) (cliplugins : List CLIPlugin),
      clusterClient.VerifyCLIPluginCRD = (true, none) →
      clusterClient.ListCLIPluginResources = (cliplugins, none) →
      (∃ p ∈ cliplugins, ∃ v ∈ p.Spec.Artifacts.keys, parseVersion v = none) →
      ∃ p v, p ∈ cliplugins ∧ v ∈ p.Spec.Artifacts.keys ∧ parseVersion v = none ∧
        k.GetDiscoveredPlugins StringToTarget clusterClient
          = (none, some (.wrap ("error parsing supported versions for plugin " ++ p.Name)
              (.versionParse v)))) ∧
    (∀ (d : RESTDiscovery) (x : Exchange) (res : Response) (payload : ListPluginsResponse),
      x.newRequest = none → x.response = .ok res →
      200 ≤ res.StatusCode ∧ res.StatusCode < 400 → res.Body = .ok payload →
      (∃ p ∈ payload.Plugins, ∃ v ∈ p.Artifacts.keys, parseVersion v = none) →
      ∃ p v, p ∈ payload.Plugins ∧ v ∈ p.Artifacts.keys ∧ parseVersion v = none ∧
        d.List StringToTarget x
          = (none, some (.wrap ("error parsing supported versions for plugin " ++ p.Name)
              (.versionParse v)))) := by
  constructor
  · intro k client cliplugins hv hl hbad
    obtain ⟨p, v, hp, hvk, hpv, hc⟩ := K8s_convertAll_malformed k StringToTarget
      client.GetCLIPluginImageRepositoryOverride.1 cliplugins [] hbad
    refine ⟨p, v, hp, hvk, hpv, ?_⟩
    unfold KubernetesDiscovery.GetDiscoveredPlugins
    rw [if_neg (by rw [hv]; simp), hl]
    simp only [hc]
  · intro d x res payload hreq hres hstatus hbody hbad
    obtain ⟨p, v, hp, hvk, hpv, hc⟩ := REST_convertAll_malformed d StringToTarget
      payload.Plugins [] hbad
    refine ⟨p, v, hp, hvk, hpv, ?_⟩
    have hdo : RESTDiscovery.doRequest x.response = .ok payload := by
      rw [hres]
      unfold RESTDiscovery.doRequest
      simp only
      rw [if_neg (by omega), hbody]
    unfold RESTDiscovery.List
    rw [hreq]
    simp only [hdo, hc]

theorem malformed_version_aborts_witness :
    (∃ p ∈ [k8sFoo, k8sBar], ∃ v ∈ p.Spec.Artifacts.keys, parseVersion v = none) ∧
    (∃ p ∈ [restFoo, restBar], ∃ v ∈ p.Artifacts.keys, parseVersion v = none) ∧
    (∃ p v, p ∈ [k8sFoo, k8sBar] ∧ v ∈ p.Spec.Artifacts.keys ∧ parseVersion v = none ∧
      k8sCluster.GetDiscoveredPlugins id (clientWith [k8sFoo, k8sBar])
        = (none, some (.wrap ("error parsing supported versions for plugin " ++ p.Name)
            (.versionParse v)))) ∧
    (∃ p v, p ∈ [restFoo, restBar] ∧ v ∈ p.Artifacts.keys ∧ parseVersion v = none ∧
      restCentral.List id (exchangeWith 200 [restFoo, restBar])
        = (none, some (.wrap ("error parsing supported versions for plugin " ++ p.Name)
            (.versionParse v)))) :=
  ⟨⟨k8sBar, by simp, "latest", by decide, by decide⟩,
    ⟨restBar, by simp, "latest", by decide, by decide⟩,
    (malformed_version_aborts id).1 k8sCluster (clientWith [k8sFoo, k8sBar]) [k8sFoo, k8sBar]
      rfl rfl ⟨k8sBar, by simp, "latest", by decide, by decide⟩,
    (malformed_version_aborts id).2 restCentral (exchangeWith 200 [restFoo, restBar])
      { StatusCode := 200, Body := .ok { Plugins := [restFoo, restBar] } }
      { Plugins := [restFoo, restBar] } rfl rfl (by decide) rfl
      ⟨restBar, by simp, "latest", by decide, by decide⟩⟩

/-! ## Status codes -/

/-- C19 (as stated, refuted): the status code 300 is outside 200..299, yet for a
response with status 300 whose body decodes, `doRequest` returns the decoded
payload without error and `List` returns the records with the nil error. -/
theorem status_300_is_accepted :
    ¬ (200 ≤ (300 : Int) ∧ (300 : Int) ≤ 299) ∧
    (∃ payload, RESTDiscovery.doRequest (exchangeWith 300 [restFoo]).response = .ok payload) ∧
    (restCentral.List id (exchangeWith 300 [restFoo])).1.map
        (fun l => l.map (fun dp => dp.Name)) = some ["foo"] ∧
    (restCentral.List id (exchangeWith 300 [restFoo])).2 = none :=
  ⟨by decide, ⟨_, rfl⟩, by decide, by decide⟩

/-- A status code below 200 or from 400 on: `doRequest` returns the status error
and `List` the nil list with an error. -/
theorem List_of_rejected_status (d : RESTDiscovery) (StringToTarget : String → String)
    (x : Exchange) (res : Response) (hres : x.response = .ok res)
    (hstatus : res.StatusCode < 200 ∨ res.StatusCode ≥ 400) :
    RESTDiscovery.doRequest x.response = .error (.apiStatus res.StatusCode) ∧
    (d.List StringToTarget x).1 = none ∧
    (∃ err, (d.List StringToTarget x).2 = some err) ∧
    (x.newRequest = none →
      d.List StringToTarget x = (none, some (.apiStatus res.StatusCode))) := by
  have hdo : RESTDiscovery.doRequest x.response = .error (.apiStatus res.StatusCode) := by
    rw [hres]
    unfold RESTDiscovery.doRequest
    simp only
    rw [if_pos hstatus]
  refine ⟨hdo, ?_⟩
  unfold RESTDiscovery.List
  cases hreq : x.newRequest with
  | some err => exact ⟨rfl, ⟨err, rfl⟩, fun h => by cases h⟩
  | none => simp [hdo]

/-- A status code from 200 to 399: `doRequest` returns the outcome of decoding
the body. -/
theorem doRequest_of_accepted_status (res : Response)
    (hstatus : 200 ≤ res.StatusCode ∧ res.StatusCode ≤ 399) :
    RESTDiscovery.doRequest (.ok res) = res.Body := by
  unfold RESTDiscovery.doRequest
  simp only
  rw [if_neg]
  intro h
  rcases h with h | h
  · exact absurd hstatus.1 (not_le.2 h)
  · exact absurd (le_trans h hstatus.2) (by decide)

/-- C19 (amended): the status guard of `doRequest`.  For every response whose
status code is below 200 or at least 400, `doRequest` returns the status error,
which depends on the status code only (the outcome of decoding the body plays no
part), and `List` returns the nil list together with an error, which is that
status error when the request could be built.  For every response whose status
code is in 300..399, `doRequest` returns the outcome of decoding the body, and
both `doRequest` and `List` return what they return for the same response under
any status code in 200..299. -/
theorem doRequest_status_guard (d : RESTDiscovery) (StringToTarget : String → String)
    (x : Exchange) (res : Response) (hres : x.response = .ok res) :
    (res.StatusCode < 200 ∨ res.StatusCode ≥ 400 →
      RESTDiscovery.doRequest x.response = .error (.apiStatus res.StatusCode) ∧
      (d.List StringToTarget x).1 = none ∧
      (∃ err, (d.List StringToTarget x).2 = some err) ∧
      (x.newRequest = none →
        d.List StringToTarget x = (none, some (.apiStatus res.StatusCode)))) ∧
    (300 ≤ res.StatusCode ∧ res.StatusCode ≤ 399 →
      RESTDiscovery.doRequest x.response = res.Body ∧
      ∀ success : Int, 200 ≤ success ∧ success ≤ 299 →
        RESTDiscovery.doRequest x.response
          = RESTDiscovery.doRequest (.ok { res with StatusCode := success }) ∧
        d.List StringToTarget x
          = d.List StringToTarget
              { x with response := .ok { res with StatusCode := success } }) := by
  refine ⟨List_of_rejected_status d StringToTarget x res hres, fun h3 => ?_⟩
  have h1 : RESTDiscovery.doRequest x.response = res.Body := by
    rw [hres]
    exact doRequest_of_accepted_status res ⟨le_trans (by decide) h3.1, h3.2⟩
  refine ⟨h1, fun success hs => ?_⟩
  have h2 : RESTDiscovery.doRequest (.ok { res with StatusCode := success }) = res.Body :=
    doRequest_of_accepted_status { res with StatusCode := success }
      ⟨hs.1, le_trans hs.2 (by decide)⟩
  refine ⟨by rw [h1, h2], ?_⟩
  unfold RESTDiscovery.List
  simp only [h1, h2]

theorem doRequest_status_guard_witness :
    (exchangeWith 404 [restFoo]).response
      = .ok { StatusCode := 404, Body := .ok { Plugins := [restFoo] } } ∧
    ((404 : Int) < 200 ∨ (404 : Int) ≥ 400) ∧
    RESTDiscovery.doRequest (exchangeWith 404 [restFoo]).response = .error (.apiStatus 404) ∧
    restCentral.List id (exchangeWith 404 [restFoo]) = (none, some (.apiStatus 404)) ∧
    (exchangeWith 300 [restFoo]).response
      = .ok { StatusCode := 300, Body := .ok { Plugins := [restFoo] } } ∧
    (300 ≤ (300 : Int) ∧ (300 : Int) ≤ 399) ∧
    RESTDiscovery.doRequest (exchangeWith 300 [restFoo]).response
      = .ok { Plugins := [restFoo] } ∧
    restCentral.List id (exchangeWith 300 [restFoo])
      = restCentral.List id (exchangeWith 200 [restFoo]) ∧
    (restCentral.List id (exchangeWith 200 [restFoo])).1.map
        (fun l => l.map (fun dp => dp.Name)) = some ["foo"] :=
  ⟨rfl, by decide,
    ((doRequest_status_guard restCentral id (exchangeWith 404 [restFoo])
      { StatusCode := 404, Body := .ok { Plugins := [restFoo] } } rfl).1 (by decide)).1,
    ((doRequest_status_guard restCentral id (exchangeWith 404 [restFoo])
      { StatusCode := 404, Body := .ok { Plugins := [restFoo] } } rfl).1 (by decide)).2.2.2 rfl,
    rfl, by decide,
    ((doRequest_status_guard restCentral id (exchangeWith 300 [restFoo])
      { StatusCode := 300, Body := .ok { Plugins := [restFoo] } } rfl).2 (by decide)).1,
    (((doRequest_status_guard restCentral id (exchangeWith 300 [restFoo])
      { StatusCode := 300, Body := .ok { Plugins := [restFoo] } } rfl).2 (by decide)).2
        200 (by decide)).2,
    by decide⟩

/-! ## Entries with an empty name -/

/-- C20 (as stated, refuted): a successfully decoded payload of a response with
status 200 whose single entry has an empty name and the malformed version key
`latest` makes `List` fail: the result is the nil list and an error. -/
theorem unnamed_entry_can_be_fatal :
    restUnnamedMalformed.Name = "" ∧
    restCentral.List id (exchangeWith 200 [restUnnamedMalformed])
      = (none, some (.wrap "error parsing supported versions for plugin "
          (.versionParse "latest"))) :=
  ⟨rfl, rfl⟩

/-- C20 (amended): for every successfully decoded payload of a response with an
accepted status (200..399, so every 2xx) in which the artifact version keys of
every entry parse, `List` returns no error and the normalisation, stamped with
the backend's name, of exactly the entries with a non-empty name, in payload
order; no returned record has an empty `Name`. -/
theorem List_drops_unnamed (d : RESTDiscovery) (StringToTarget : String → String)
    (x : Exchange) (res : Response) (payload : ListPluginsResponse)
    (hreq : x.newRequest = none) (hres : x.response = .ok res)
    (hstatus : 200 ≤ res.StatusCode ∧ res.StatusCode < 400)
    (hbody : res.Body = .ok payload)
    (hparse : ∀ p ∈ payload.Plugins, ∀ v ∈ p.Artifacts.keys, (parseVersion v).isSome = true) :
    d.List StringToTarget x
      = (some ((payload.Plugins.filter (fun p => p.Name ≠ "")).map
          (fun p => { (DiscoveredFromREST StringToTarget p).1 with Source := d.name })), none) ∧
    ∀ out, (d.List StringToTarget x).1 = some out → ∀ dp ∈ out, dp.Name ≠ "" := by
  have hdo : RESTDiscovery.doRequest x.response = .ok payload := by
    rw [hres]
    unfold RESTDiscovery.doRequest
    simp only
    rw [if_neg (by omega), hbody]
  have hc := REST_convertAll_ok d StringToTarget payload.Plugins [] hparse
  have hl : d.List StringToTarget x
      = (some ((payload.Plugins.filter (fun p => p.Name ≠ "")).map
          (fun p => { (DiscoveredFromREST StringToTarget p).1 with Source := d.name })),
          none) := by
    unfold RESTDiscovery.List
    rw [hreq]
    simp only [hdo, hc, List.nil_append]
  refine ⟨hl, ?_⟩
  intro out hout dp hdp
  rw [hl] at hout
  simp only [Option.some.injEq] at hout
  rw [← hout, List.mem_map] at hdp
  obtain ⟨p, hp, hdpp⟩ := hdp
  rw [List.mem_filter] at hp
  have hn := (DiscoveredFromREST_of_all_parse StringToTarget p (hparse p hp.1)).2.2
  rw [← hdpp]
  simp only
  rw [hn]
  simpa using hp.2

theorem List_drops_unnamed_witness :
    (∀ p ∈ [restUnnamed, restFoo], ∀ v ∈ p.Artifacts.keys, (parseVersion v).isSome = true) ∧
    restCentral.List id (exchangeWith 200 [restUnnamed, restFoo])
      = (some (([restUnnamed, restFoo].filter (fun p => p.Name ≠ "")).map
          (fun p => { (DiscoveredFromREST id p).1 with Source := restCentral.name })), none) ∧
    (restCentral.List id (exchangeWith 200 [restUnnamed])).1.map List.length = some 0 :=
  ⟨by decide,
    (List_drops_unnamed restCentral id (exchangeWith 200 [restUnnamed, restFoo])
      { StatusCode := 200, Body := .ok { Plugins := [restUnnamed, restFoo] } }
      { Plugins := [restUnnamed, restFoo] } rfl rfl (by decide) rfl (by decide)).1,
    by decide⟩

/-! ## The image repository override -/

theorem HasPrefix_iff (s pre : String) :
    HasPrefix s pre = true ↔ ∃ rest : String, s = pre ++ rest := by
  unfold HasPrefix
  rw [List.isPrefixOf_iff_prefix]
  constructor
  · rintro ⟨t, ht⟩
    exact ⟨⟨t⟩, String.ext (by simp [← ht])⟩
  · rintro ⟨rest, h⟩
    exact ⟨rest.data, by simp [h]⟩

theorem replaceOnce_at_start (old new rest : List Char) :
    replaceOnce old new (old ++ rest) = new ++ rest := by
  cases h : old ++ rest with
  | nil =>
    have ho : old = [] := (List.append_eq_nil.1 h).1
    have hr : rest = [] := (List.append_eq_nil.1 h).2
    simp [replaceOnce, ho, hr]
  | cons c cs =>
    unfold replaceOnce
    have hp : old.isPrefixOf (c :: cs) = true := by
      rw [List.isPrefixOf_iff_prefix, ← h]
      exact List.prefix_append old rest
    rw [if_pos hp, ← h, List.drop_left]

theorem Replace1_at_start (original override rest : String) :
    Replace1 (original ++ rest) original override = override ++ rest := by
  unfold Replace1
  apply String.ext
  simp [replaceOnce_at_start]

theorem replaceImageRepository_nil (a : Artifact) : replaceImageRepository [] a = a := by
  unfold replaceImageRepository
  split <;> rfl

theorem replaceImageRepository_single (original override : String) (a : Artifact) :
    replaceImageRepository [(original, override)] a
      = if a.Image ≠ "" ∧ HasPrefix a.Image original = true then
          { a with Image := Replace1 a.Image original override }
        else a := by
  unfold replaceImageRepository
  by_cases h1 : a.Image = ""
  · simp [h1]
  · by_cases h2 : HasPrefix a.Image original = true
    · simp [h1, h2]
    · simp [h1, h2]

theorem mapValues_lookup {V W : Type} (f : V → W) (m : GoMap V) (k : String) :
    (m.mapValues f).lookup k = (m.lookup k).map f := by
  obtain ⟨entries, nd⟩ := m
  unfold GoMap.mapValues AList.lookup
  simp only
  clear nd
  induction entries with
  | nil => rfl
  | cons e es ih =>
    obtain ⟨k1, v1⟩ := e
    by_cases hk : k1 = k
    · subst hk
      simp [List.dlookup_cons_eq]
    · simp only [List.map_cons]
      rw [List.dlookup_cons_ne _ _ (fun h => hk h.symm), List.dlookup_cons_ne _ _ (fun h => hk h.symm)]
      exact ih

theorem mapValues_congr {V : Type} (f g : V → V) (m : GoMap V)
    (h : ∀ e ∈ m.entries, f e.2 = g e.2) : m.mapValues f = m.mapValues g := by
  apply AList.ext
  unfold GoMap.mapValues
  exact List.map_congr_left (fun e he => by rw [h e he])

theorem mapValues_id {V : Type} (f : V → V) (m : GoMap V)
    (h : ∀ e ∈ m.entries, f e.2 = e.2) : m.mapValues f = m := by
  apply AList.ext
  unfold GoMap.mapValues
  conv_rhs => rw [← List.map_id m.entries]
  exact List.map_congr_left (fun e he => by rw [h e he]; rfl)

theorem UpdateArtifacts_nil (p : CLIPlugin) :
    UpdateArtifactsBasedOnImageRepositoryOverride p [] = p := by
  have hid : replaceImageRepository [] = id := funext replaceImageRepository_nil
  unfold UpdateArtifactsBasedOnImageRepositoryOverride
  rw [mapValues_id _ _ (fun e _ => by rw [hid, List.map_id])]

theorem UpdateArtifacts_lookup (p : CLIPlugin) (ov : List (String × String)) (version : String) :
    (UpdateArtifactsBasedOnImageRepositoryOverride p ov).Spec.Artifacts.lookup version
      = (p.Spec.Artifacts.lookup version).map (List.map (replaceImageRepository ov)) := by
  unfold UpdateArtifactsBasedOnImageRepositoryOverride
  exact mapValues_lookup _ _ _

/-- The relation between an artifact and its rewrite under the single pair
original, override. -/
theorem replaceImageRepository_single_spec (original override : String) (a : Artifact) :
    (replaceImageRepository [(original, override)] a).URI = a.URI ∧
    (replaceImageRepository [(original, override)] a).Digest = a.Digest ∧
    (replaceImageRepository [(original, override)] a).OS = a.OS ∧
    (replaceImageRepository [(original, override)] a).Arch = a.Arch ∧
    (replaceImageRepository [(original, override)] a).ArtifactType = a.ArtifactType ∧
    (a.Image = "" → (replaceImageRepository [(original, override)] a).Image = "") ∧
    ((∀ rest : String, a.Image ≠ original ++ rest) →
      (replaceImageRepository [(original, override)] a).Image = a.Image) ∧
    (∀ rest : String, a.Image ≠ "" → a.Image = original ++ rest →
      (replaceImageRepository [(original, override)] a).Image = override ++ rest) := by
  rw [replaceImageRepository_single]
  by_cases h : a.Image ≠ "" ∧ HasPrefix a.Image original = true
  · rw [if_pos h]
    refine ⟨rfl, rfl, rfl, rfl, rfl, fun h0 => absurd h0 h.1, fun hn => ?_, fun rest _ hr => ?_⟩
    · obtain ⟨rest, hr⟩ := (HasPrefix_iff _ _).1 h.2
      exact absurd hr (hn rest)
    · show Replace1 a.Image original override = override ++ rest
      rw [hr, Replace1_at_start]
  · rw [if_neg h]
    refine ⟨rfl, rfl, rfl, rfl, rfl, fun h0 => h0, fun _ => rfl, fun rest h0 hr => ?_⟩
    exact absurd ⟨h0, (HasPrefix_iff _ _).2 ⟨rest, hr⟩⟩ h

/-- C21: the image-repository override with a single pair rewrites matching
prefixes only.  `UpdateArtifactsBasedOnImageRepositoryOverride` with the one pair
original, override keeps the name, the other fields of the spec and the version
keys; under every version each artifact keeps its place and all its fields
except the image; an empty image stays empty, an image that does not start with
`original` is unchanged, and a non-empty image `original ++ rest` becomes
`override ++ rest`.  With no override pair the plugin is unchanged. -/
theorem override_single_pair (p : CLIPlugin) (original override : String) :
    (UpdateArtifactsBasedOnImageRepositoryOverride p [(original, override)]).Name = p.Name ∧
    (UpdateArtifactsBasedOnImageRepositoryOverride p [(original, override)]).Spec.Description
      = p.Spec.Description ∧
    (UpdateArtifactsBasedOnImageRepositoryOverride p
      [(original, override)]).Spec.RecommendedVersion = p.Spec.RecommendedVersion ∧
    (UpdateArtifactsBasedOnImageRepositoryOverride p [(original, override)]).Spec.Optional
      = p.Spec.Optional ∧
    (UpdateArtifactsBasedOnImageRepositoryOverride p [(original, override)]).Spec.Target
      = p.Spec.Target ∧
    (UpdateArtifactsBasedOnImageRepositoryOverride p [(original, override)]).Spec.Artifacts.keys
      = p.Spec.Artifacts.keys ∧
    (∀ version artifacts, p.Spec.Artifacts.lookup version = some artifacts →
      ∃ updated,
        (UpdateArtifactsBasedOnImageRepositoryOverride p
          [(original, override)]).Spec.Artifacts.lookup version = some updated ∧
        List.Forall₂
          (fun a b : Artifact =>
            b.URI = a.URI ∧ b.Digest = a.Digest ∧ b.OS = a.OS ∧ b.Arch = a.Arch ∧
            b.ArtifactType = a.ArtifactType ∧
            (a.Image = "" → b.Image = "") ∧
            ((∀ rest : String, a.Image ≠ original ++ rest) → b.Image = a.Image) ∧
            (∀ rest : String, a.Image ≠ "" → a.Image = original ++ rest →
              b.Image = override ++ rest))
          artifacts updated) ∧
    UpdateArtifactsBasedOnImageRepositoryOverride p [] = p := by
  refine ⟨rfl, rfl, rfl, rfl, rfl, UpdateArtifacts_keys p _, fun version artifacts hl => ?_,
    UpdateArtifacts_nil p⟩
  refine ⟨artifacts.map (replaceImageRepository [(original, override)]), ?_, ?_⟩
  · rw [UpdateArtifacts_lookup, hl]
    rfl
  · rw [List.forall₂_map_right_iff]
    exact List.forall₂_same.2 (fun a _ => replaceImageRepository_single_spec original override a)

theorem override_single_pair_witness :
    tkgPlugin.Spec.Artifacts.lookup "v1.0.0" = some [tkgArtifact] ∧
    tkgArtifact.Image ≠ "" ∧
    tkgArtifact.Image = "a.com" ++ "/tkg/p:v1" ∧
    ∃ updated,
      (UpdateArtifactsBasedOnImageRepositoryOverride tkgPlugin
        [("a.com", "mirror.local")]).Spec.Artifacts.lookup "v1.0.0" = some updated ∧
      updated.map Artifact.Image = ["mirror.local" ++ "/tkg/p:v1"] := by
  refine ⟨by decide, by decide, by decide, ?_⟩
  obtain ⟨updated, hl, hf⟩ :=
    (override_single_pair tkgPlugin "a.com" "mirror.local").2.2.2.2.2.2.1 "v1.0.0" [tkgArtifact]
      (by decide)
  refine ⟨updated, hl, ?_⟩
  obtain ⟨b, rest, hb, hrest, hu⟩ := List.forall₂_cons_left_iff.1 hf
  rw [List.forall₂_nil_left_iff] at hrest
  rw [hu, hrest, List.map_cons, List.map_nil,
    hb.2.2.2.2.2.2.2 "/tkg/p:v1" (by decide) (by decide)]

/-! ## The visiting order of the override pairs -/

theorem replaceImageRepository_eq (ov : List (String × String)) (a : Artifact) :
    replaceImageRepository ov a = if a.Image ≠ "" then ov.foldl overrideStep a else a := rfl

theorem overrideStep_foldl_stable (l : List (String × String)) (a : Artifact)
    (h : ∀ y ∈ l, HasPrefix a.Image y.1 = false) : l.foldl overrideStep a = a := by
  induction l with
  | nil => rfl
  | cons x xs ih =>
    have hx : overrideStep a x = a := by
      unfold overrideStep
      rw [h x (List.mem_cons_self _ _)]
      rfl
    rw [List.foldl_cons, hx]
    exact ih (fun y hy => h y (List.mem_cons_of_mem _ hy))

theorem overrideStep_foldl_unique (l : List (String × String)) (a : Artifact)
    (pair : String × String) (hkeys : (l.map Prod.fst).Nodup) (hmem : pair ∈ l)
    (hpre : HasPrefix a.Image pair.1 = true)
    (hother : ∀ other ∈ l, other.1 ≠ pair.1 →
      HasPrefix a.Image other.1 = false ∧
      HasPrefix (Replace1 a.Image pair.1 pair.2) other.1 = false) :
    l.foldl overrideStep a = { a with Image := Replace1 a.Image pair.1 pair.2 } := by
  induction l with
  | nil => cases hmem
  | cons x xs ih =>
    rw [List.map_cons, List.nodup_cons] at hkeys
    rw [List.foldl_cons]
    by_cases hx : x = pair
    · subst hx
      have hs : overrideStep a x = { a with Image := Replace1 a.Image x.1 x.2 } := by
        unfold overrideStep
        rw [hpre]
        rfl
      rw [hs]
      apply overrideStep_foldl_stable
      intro y hy
      have hne : y.1 ≠ x.1 := fun e => hkeys.1 (e ▸ List.mem_map_of_mem Prod.fst hy)
      exact (hother y (List.mem_cons_of_mem _ hy) hne).2
    · have hmem' : pair ∈ xs := by
        rcases List.mem_cons.1 hmem with h | h
        · exact absurd h.symm hx
        · exact h
      have hne : x.1 ≠ pair.1 := fun e => hkeys.1 (e ▸ List.mem_map_of_mem Prod.fst hmem')
      have hs : overrideStep a x = a := by
        unfold overrideStep
        rw [(hother x (List.mem_cons_self _ _) hne).1]
        rfl
      rw [hs]
      exact ih hkeys.2 hmem' (fun other ho => hother other (List.mem_cons_of_mem _ ho))

theorem replaceImageRepository_perm (ov ov' : List (String × String)) (a : Artifact)
    (hperm : ov.Perm ov') (hkeys : (ov.map Prod.fst).Nodup)
    (hni : nonInterfering ov a.Image) :
    replaceImageRepository ov a = replaceImageRepository ov' a := by
  rw [replaceImageRepository_eq, replaceImageRepository_eq]
  by_cases h0 : a.Image = ""
  · simp [h0]
  · rw [if_pos h0, if_pos h0]
    by_cases hex : ∃ pair ∈ ov, HasPrefix a.Image pair.1 = true
    · obtain ⟨pair, hmem, hpre⟩ := hex
      have hkeys' : (ov'.map Prod.fst).Nodup := (hperm.map Prod.fst).nodup_iff.1 hkeys
      rw [overrideStep_foldl_unique ov a pair hkeys hmem hpre (hni pair hmem hpre),
        overrideStep_foldl_unique ov' a pair hkeys' (hperm.mem_iff.1 hmem) hpre
          (fun other ho => hni pair hmem hpre other (hperm.mem_iff.2 ho))]
    · have hno : ∀ y ∈ ov, HasPrefix a.Image y.1 = false := by
        intro y hy
        cases hh : HasPrefix a.Image y.1 with
        | false => rfl
        | true => exact absurd ⟨y, hy, hh⟩ hex
      rw [overrideStep_foldl_stable ov a hno,
        overrideStep_foldl_stable ov' a (fun y hy => hno y (hperm.mem_iff.2 hy))]

/-- C28, as stated, fails: the override map with the pairs `a.com/tkg` to
`x.com/tkg` and `a.com` to `y.com` has two pairs with distinct originals, and
the image `a.com/tkg/p:v1` becomes `x.com/tkg/p:v1` when the pairs are visited in
this order and `y.com/tkg/p:v1` when they are visited in the reverse order. -/
theorem override_depends_on_order :
    2 ≤ overlappingOverride.length ∧
    (overlappingOverride.map Prod.fst).Nodup ∧
    overlappingOverride.reverse.Perm overlappingOverride ∧
    ((UpdateArtifactsBasedOnImageRepositoryOverride tkgPlugin
        overlappingOverride).Spec.Artifacts.lookup "v1.0.0").map (List.map Artifact.Image)
      = some ["x.com/tkg/p:v1"] ∧
    ((UpdateArtifactsBasedOnImageRepositoryOverride tkgPlugin
        overlappingOverride.reverse).Spec.Artifacts.lookup "v1.0.0").map (List.map Artifact.Image)
      = some ["y.com/tkg/p:v1"] :=
  ⟨by decide, by decide, List.reverse_perm _, by decide, by decide⟩

/-- C28, amended: the override does not depend on the visiting order when the
pairs do not interact.  For every CLIPlugin and every two visiting orders of one
override map (pairs with distinct originals), if on every artifact image of the
plugin the pairs do not interact (when the original of one pair is a prefix of the
image, the original of no other pair is a prefix of the image or of the image as
that pair rewrites it), both orders give the same plugin. -/
theorem override_order_independent (p : CLIPlugin) (ov ov' : List (String × String))
    (hperm : ov.Perm ov') (hkeys : (ov.map Prod.fst).Nodup)
    (hni : ∀ e ∈ p.Spec.Artifacts.entries, ∀ a ∈ e.2, nonInterfering ov a.Image) :
    UpdateArtifactsBasedOnImageRepositoryOverride p ov
      = UpdateArtifactsBasedOnImageRepositoryOverride p ov' := by
  unfold UpdateArtifactsBasedOnImageRepositoryOverride
  rw [mapValues_congr (fun l => l.map (replaceImageRepository ov))
    (fun l => l.map (replaceImageRepository ov')) p.Spec.Artifacts
    (fun e he => List.map_congr_left
      (fun a ha => replaceImageRepository_perm ov ov' a hperm hkeys (hni e he a ha)))]

theorem override_order_independent_witness :
    2 ≤ disjointOverride.length ∧
    disjointOverride.Perm disjointOverride.reverse ∧
    (disjointOverride.map Prod.fst).Nodup ∧
    (∀ e ∈ tkgPlugin.Spec.Artifacts.entries, ∀ a ∈ e.2,
      nonInterfering disjointOverride a.Image) ∧
    UpdateArtifactsBasedOnImageRepositoryOverride tkgPlugin disjointOverride
      = UpdateArtifactsBasedOnImageRepositoryOverride tkgPlugin disjointOverride.reverse :=
  ⟨by decide, (List.reverse_perm _).symm, by decide, by decide,
    override_order_independent tkgPlugin disjointOverride disjointOverride.reverse
      (List.reverse_perm _).symm (by decide) (by decide)⟩

/-! ## Trimming and splitting -/

theorem trimChars_decompose (p : Char → Bool) (cs : List Char) :
    ∃ l r : List Char, cs = l ++ trimChars p cs ++ r ∧
      (∀ c ∈ l, p c = true) ∧ (∀ c ∈ r, p c = true) := by
  refine ⟨cs.takeWhile p, ((cs.dropWhile p).reverse.takeWhile p).reverse, ?_, ?_, ?_⟩
  · have h1 : (cs.dropWhile p).reverse
        = (cs.dropWhile p).reverse.takeWhile p ++ (cs.dropWhile p).reverse.dropWhile p :=
      (List.takeWhile_append_dropWhile p _).symm
    have h2 : cs.dropWhile p
        = ((cs.dropWhile p).reverse.dropWhile p).reverse
          ++ ((cs.dropWhile p).reverse.takeWhile p).reverse := by
      have := congrArg List.reverse h1
      rw [List.reverse_reverse, List.reverse_append] at this
      exact this
    unfold trimChars
    rw [List.append_assoc, ← h2, List.takeWhile_append_dropWhile]
  · intro c hc
    exact List.mem_takeWhile_imp hc
  · intro c hc
    rw [List.mem_reverse] at hc
    exact List.mem_takeWhile_imp hc

theorem trimChars_head (p : Char → Bool) (cs : List Char) (c : Char)
    (h : (trimChars p cs).head? = some c) : p c = false := by
  have h1 : (cs.dropWhile p).reverse
      = (cs.dropWhile p).reverse.takeWhile p ++ (cs.dropWhile p).reverse.dropWhile p :=
    (List.takeWhile_append_dropWhile p _).symm
  have h2 : cs.dropWhile p
      = trimChars p cs ++ ((cs.dropWhile p).reverse.takeWhile p).reverse := by
    have := congrArg List.reverse h1
    rw [List.reverse_reverse, List.reverse_append] at this
    exact this
  have h3 : (cs.dropWhile p).head? = some c := by
    rw [h2]
    cases ht : trimChars p cs with
    | nil => rw [ht] at h; cases h
    | cons a t =>
      rw [ht] at h
      simpa using h
  have := List.head?_dropWhile_not p cs
  rw [h3] at this
  simpa using this

theorem trimChars_getLast (p : Char → Bool) (cs : List Char) (c : Char)
    (h : (trimChars p cs).getLast? = some c) : p c = false := by
  unfold trimChars at h
  rw [List.getLast?_reverse] at h
  have := List.head?_dropWhile_not p (cs.dropWhile p).reverse
  rw [h] at this
  simpa using this

/-! ## The registry trust set -/

theorem appendTrimmed_eq (acc : List String) (list : String) :
    appendTrimmed acc list = acc ++ (Split list ',').map TrimSpace := by
  unfold appendTrimmed
  generalize Split list ',' = l
  induction l generalizing acc with
  | nil => simp
  | cons r rs ih => simp [List.foldl_cons, ih]

theorem GetAdditionalTestDiscoveryImages_eq (env : Environment) :
    GetAdditionalTestDiscoveryImages env =
      ((Split env.ConfigVariableAdditionalDiscoveryForTesting ',').map TrimSpace).filter
        (fun image => image ≠ "") := by
  unfold GetAdditionalTestDiscoveryImages
  suffices h : ∀ (l : List String) (acc : List String),
      l.foldl (fun additionalImages image =>
        if TrimSpace image ≠ "" then additionalImages ++ [TrimSpace image]
        else additionalImages) acc
        = acc ++ (l.map TrimSpace).filter (fun image => image ≠ "") by
    simpa using h _ []
  intro l
  induction l with
  | nil => simp
  | cons r rs ih =>
    intro acc
    rw [List.foldl_cons, ih]
    by_cases hr : TrimSpace r = ""
    · simp [hr]
    · simp [hr, List.filter_cons]

/-- The host names `appendHostname` adds for a list of images. -/
theorem appendHostname_foldl (P : String → Except GoError URL) (images : List String)
    (acc : List String) (x : String) :
    x ∈ images.foldl (appendHostname P) acc ↔
      x ∈ acc ∨ ∃ image ∈ images, ∃ u, P ("https://" ++ image) = .ok u ∧ x = u.Hostname := by
  induction images generalizing acc with
  | nil => simp
  | cons i is ih =>
    rw [List.foldl_cons, ih]
    unfold appendHostname
    cases hp : P ("https://" ++ i) with
    | ok u =>
      simp only [List.mem_append, List.mem_cons, List.not_mem_nil, or_false, exists_eq_or_imp, hp]
      constructor
      · rintro ((h | h) | h)
        · exact Or.inl h
        · exact Or.inr (Or.inl ⟨u, rfl, h⟩)
        · exact Or.inr (Or.inr h)
      · rintro (h | ⟨v, hv, h⟩ | h)
        · exact Or.inl (Or.inl h)
        · cases hv
          exact Or.inl (Or.inr h)
        · exact Or.inr h
    | error e =>
      simp only [List.mem_cons, exists_eq_or_imp, hp]
      constructor
      · rintro (h | h)
        · exact Or.inl h
        · exact Or.inr (Or.inr h)
      · rintro (h | ⟨v, hv, _⟩ | h)
        · exact Or.inl h
        · cases hv
        · exact Or.inr h

theorem appendHostname_mem (P : String → Except GoError URL) (acc : List String)
    (image x : String) :
    x ∈ appendHostname P acc image ↔
      x ∈ acc ∨ ∃ u, P ("https://" ++ image) = .ok u ∧ x = u.Hostname := by
  have := appendHostname_foldl P [image] acc x
  simpa using this

theorem GetTrustedRegistries_mem (P : String → Except GoError URL) (D : String)
    (b : BuildVariables) (env : Environment) (x : String) :
    x ∈ GetTrustedRegistries P D b env ↔
      (b.DefaultAllowedPluginRepositories ≠ "" ∧
        x ∈ (Split b.DefaultAllowedPluginRepositories ',').map TrimSpace) ∨
      (env.ConfigVariableCustomImageRepository ≠ "" ∧
        x = env.ConfigVariableCustomImageRepository) ∨
      (env.ConfigVariablePreReleasePluginRepoImage ≠ "" ∧
        ∃ u, P ("https://" ++ env.ConfigVariablePreReleasePluginRepoImage) = .ok u ∧
          x = u.Hostname) ∨
      (∃ u, P ("https://" ++ D) = .ok u ∧ x = u.Hostname) ∨
      (∃ image ∈ GetAdditionalTestDiscoveryImages env,
        ∃ u, P ("https://" ++ image) = .ok u ∧ x = u.Hostname) ∨
      (env.AllowedRegistries ≠ "" ∧ x ∈ (Split env.AllowedRegistries ',').map TrimSpace) := by
  unfold GetTrustedRegistries
  simp only []
  by_cases h1 : b.DefaultAllowedPluginRepositories = "" <;>
  by_cases h2 : env.ConfigVariableCustomImageRepository = "" <;>
  by_cases h3 : env.ConfigVariablePreReleasePluginRepoImage = "" <;>
  by_cases h4 : env.AllowedRegistries = "" <;>
  simp [h1, h2, h3, h4, appendTrimmed_eq, appendHostname_foldl, appendHostname_mem, or_assoc]

/-- What `TrimSpace` removes from either end of a string is white space only,
and what it leaves neither starts nor ends with white space. -/
theorem TrimSpace_decompose (s : String) :
    ∃ l r : List Char, s.data = l ++ (TrimSpace s).data ++ r ∧
      (∀ c ∈ l, IsSpace c = true) ∧ (∀ c ∈ r, IsSpace c = true) ∧
      (∀ c, (TrimSpace s).data.head? = some c → IsSpace c = false) ∧
      (∀ c, (TrimSpace s).data.getLast? = some c → IsSpace c = false) := by
  obtain ⟨l, r, h, hl, hr⟩ := trimChars_decompose IsSpace s.data
  exact ⟨l, r, h, hl, hr, fun c hc => trimChars_head IsSpace s.data c hc,
    fun c hc => trimChars_getLast IsSpace s.data c hc⟩

/-- C22: the registry trust set is the stated union.  For every build-time and
environment configuration, a string is an element of `GetTrustedRegistries`
exactly when it is (a) a trimmed piece of the comma-separated, non-empty
`DefaultAllowedPluginRepositories`, (b) the custom image repository, when set,
(c) the host name of the pre-release repo image, when set and parsed, (d) the
host name of the default central discovery image, (e) the host name of an
additional test discovery image (the non-empty trimmed pieces of that
variable), or (f) a trimmed piece of the comma-separated, non-empty
`AllowedRegistries`.  With `DefaultAllowedPluginRepositories = "a.com,b.com"` and
`AllowedRegistries = "c.com"` the result contains `a.com`, `b.com`, `c.com` and
the host name of the default discovery image.  Trimming removes white space
only, from both ends, and leaves none at either end; blank, tab, line feed and
carriage return are white space, letters, digits and the punctuation of a
registry name are not; the allow-lists ` a.com ,<tab>b.com` and `  c.com ` with
the test images ` x.example/a , ,y.example/b<line feed>` give `a.com`, `b.com`,
the host of the central image, `x.example`, `y.example` and `c.com`. -/
theorem GetTrustedRegistries_is_union (ParseRequestURI : String → Except GoError URL)
    (centralDiscoveryImage : String) (b : BuildVariables) (env : Environment) :
    (∀ x : String, x ∈ GetTrustedRegistries ParseRequestURI centralDiscoveryImage b env ↔
      (b.DefaultAllowedPluginRepositories ≠ "" ∧
        x ∈ (Split b.DefaultAllowedPluginRepositories ',').map TrimSpace) ∨
      (env.ConfigVariableCustomImageRepository ≠ "" ∧
        x = env.ConfigVariableCustomImageRepository) ∨
      (env.ConfigVariablePreReleasePluginRepoImage ≠ "" ∧
        ∃ u, ParseRequestURI ("https://" ++ env.ConfigVariablePreReleasePluginRepoImage) = .ok u ∧
          x = u.Hostname) ∨
      (∃ u, ParseRequestURI ("https://" ++ centralDiscoveryImage) = .ok u ∧ x = u.Hostname) ∨
      (∃ image ∈ GetAdditionalTestDiscoveryImages env,
        ∃ u, ParseRequestURI ("https://" ++ image) = .ok u ∧ x = u.Hostname) ∨
      (env.AllowedRegistries ≠ "" ∧ x ∈ (Split env.AllowedRegistries ',').map TrimSpace)) ∧
    (∀ image : String, image ∈ GetAdditionalTestDiscoveryImages env ↔
      image ≠ "" ∧
      image ∈ (Split env.ConfigVariableAdditionalDiscoveryForTesting ',').map TrimSpace) ∧
    (b.DefaultAllowedPluginRepositories = "a.com,b.com" → env.AllowedRegistries = "c.com" →
      "a.com" ∈ GetTrustedRegistries ParseRequestURI centralDiscoveryImage b env ∧
      "b.com" ∈ GetTrustedRegistries ParseRequestURI centralDiscoveryImage b env ∧
      "c.com" ∈ GetTrustedRegistries ParseRequestURI centralDiscoveryImage b env ∧
      ∀ u, ParseRequestURI ("https://" ++ centralDiscoveryImage) = .ok u →
        u.Hostname ∈ GetTrustedRegistries ParseRequestURI centralDiscoveryImage b env) ∧
    (∀ s : String, ∃ l r : List Char, s.data = l ++ (TrimSpace s).data ++ r ∧
      (∀ c ∈ l, IsSpace c = true) ∧ (∀ c ∈ r, IsSpace c = true) ∧
      (∀ c, (TrimSpace s).data.head? = some c → IsSpace c = false) ∧
      (∀ c, (TrimSpace s).data.getLast? = some c → IsSpace c = false)) ∧
    ((∀ c ∈ [' ', Char.ofNat 9, Char.ofNat 10, Char.ofNat 11, Char.ofNat 12, Char.ofNat 13,
        Char.ofNat 133, Char.ofNat 160], IsSpace c = true) ∧
      (∀ c ∈ ['a', 'z', 'A', 'Z', '0', '9', '.', '-', '_', '/', ':', ','],
        IsSpace c = false)) ∧
    (Split " a.com ,\tb.com" ',' = [" a.com ", "\tb.com"] ∧
      TrimSpace " a.com " = "a.com" ∧ TrimSpace "\tb.com" = "b.com" ∧
      TrimSpace "a b" = "a b" ∧ TrimSpace " \t" = "") ∧
    GetAdditionalTestDiscoveryImages spacedEnvironment = ["x.example/a", "y.example/b"] ∧
    GetTrustedRegistries hostBeforePath centralImage spacedDefaults spacedEnvironment
      = ["a.com", "b.com", "registry.example", "x.example", "y.example", "c.com"] := by
  refine ⟨GetTrustedRegistries_mem ParseRequestURI centralDiscoveryImage b env, fun image => ?_,
    fun hb he => ⟨?_, ?_, ?_, fun u hu => ?_⟩, TrimSpace_decompose,
    ⟨by decide, by decide⟩, ⟨by decide, by decide, by decide, by decide, by decide⟩,
    by decide, by decide⟩
  · rw [GetAdditionalTestDiscoveryImages_eq, List.mem_filter]
    simp [and_comm]
  · rw [GetTrustedRegistries_mem, hb]
    exact Or.inl ⟨by decide, by decide⟩
  · rw [GetTrustedRegistries_mem, hb]
    exact Or.inl ⟨by decide, by decide⟩
  · rw [GetTrustedRegistries_mem, he]
    exact Or.inr (Or.inr (Or.inr (Or.inr (Or.inr ⟨by decide, by decide⟩))))
  · rw [GetTrustedRegistries_mem]
    exact Or.inr (Or.inr (Or.inr (Or.inl ⟨u, hu, rfl⟩)))

theorem GetTrustedRegistries_is_union_witness :
    trustDefaults.DefaultAllowedPluginRepositories = "a.com,b.com" ∧
    allowedEnvironment.AllowedRegistries = "c.com" ∧
    hostBeforePath ("https://" ++ centralImage) = .ok ⟨"registry.example"⟩ ∧
    "a.com" ∈ GetTrustedRegistries hostBeforePath centralImage trustDefaults allowedEnvironment ∧
    "b.com" ∈ GetTrustedRegistries hostBeforePath centralImage trustDefaults allowedEnvironment ∧
    "c.com" ∈ GetTrustedRegistries hostBeforePath centralImage trustDefaults allowedEnvironment ∧
    "registry.example"
      ∈ GetTrustedRegistries hostBeforePath centralImage trustDefaults allowedEnvironment ∧
    spacedDefaults.DefaultAllowedPluginRepositories = " a.com ,\tb.com" ∧
    spacedEnvironment.AllowedRegistries = "  c.com " ∧
    "a.com" ∈ GetTrustedRegistries hostBeforePath centralImage spacedDefaults spacedEnvironment ∧
    "b.com" ∈ GetTrustedRegistries hostBeforePath centralImage spacedDefaults spacedEnvironment ∧
    "c.com" ∈ GetTrustedRegistries hostBeforePath centralImage spacedDefaults spacedEnvironment ∧
    " a.com "
      ∉ GetTrustedRegistries hostBeforePath centralImage spacedDefaults spacedEnvironment ∧
    "  c.com "
      ∉ GetTrustedRegistries hostBeforePath centralImage spacedDefaults spacedEnvironment ∧
    "x.example/a" ∈ GetAdditionalTestDiscoveryImages spacedEnvironment ∧
    GetTrustedRegistries hostBeforePath centralImage spacedDefaults spacedEnvironment
      = ["a.com", "b.com", "registry.example", "x.example", "y.example", "c.com"] :=
  ⟨rfl, rfl, rfl,
    ((GetTrustedRegistries_is_union hostBeforePath centralImage trustDefaults
      allowedEnvironment).2.2.1 rfl rfl).1,
    ((GetTrustedRegistries_is_union hostBeforePath centralImage trustDefaults
      allowedEnvironment).2.2.1 rfl rfl).2.1,
    ((GetTrustedRegistries_is_union hostBeforePath centralImage trustDefaults
      allowedEnvironment).2.2.1 rfl rfl).2.2.1,
    ((GetTrustedRegistries_is_union hostBeforePath centralImage trustDefaults
      allowedEnvironment).2.2.1 rfl rfl).2.2.2 ⟨"registry.example"⟩ rfl,
    rfl, rfl,
    ((GetTrustedRegistries_is_union hostBeforePath centralImage spacedDefaults
      spacedEnvironment).1 "a.com").2 (Or.inl ⟨by decide, by decide⟩),
    ((GetTrustedRegistries_is_union hostBeforePath centralImage spacedDefaults
      spacedEnvironment).1 "b.com").2 (Or.inl ⟨by decide, by decide⟩),
    ((GetTrustedRegistries_is_union hostBeforePath centralImage spacedDefaults
      spacedEnvironment).1 "c.com").2
        (Or.inr (Or.inr (Or.inr (Or.inr (Or.inr ⟨by decide, by decide⟩))))),
    by decide, by decide,
    ((GetTrustedRegistries_is_union hostBeforePath centralImage spacedDefaults
      spacedEnvironment).2.1 "x.example/a").2 ⟨by decide, by decide⟩,
    (GetTrustedRegistries_is_union hostBeforePath centralImage spacedDefaults
      spacedEnvironment).2.2.2.2.2.2.2⟩

/-! ## Empty strings in the trust set -/

/-- C27 fails on the code: `GetTrustedRegistries` returns the empty string as a
registry.  With `DefaultAllowedPluginRepositories = "a.com,"` (a trailing comma)
or `" "` (one blank), and with `AllowedRegistries = "c.com,,d.com"`, the empty
string is an element of the result, whatever the rest of the configuration is;
under the stand-in parser and no environment variable the first case returns
`a.com`, the empty string and the host of the central image. -/
theorem GetTrustedRegistries_holds_empty_registry :
    (∀ (ParseRequestURI : String → Except GoError URL) (centralDiscoveryImage : String)
        (env : Environment),
      "" ∈ GetTrustedRegistries ParseRequestURI centralDiscoveryImage trailingCommaDefaults env) ∧
    (∀ (ParseRequestURI : String → Except GoError URL) (centralDiscoveryImage : String)
        (env : Environment),
      "" ∈ GetTrustedRegistries ParseRequestURI centralDiscoveryImage blankDefaults env) ∧
    (∀ (ParseRequestURI : String → Except GoError URL) (centralDiscoveryImage : String)
        (b : BuildVariables),
      "" ∈ GetTrustedRegistries ParseRequestURI centralDiscoveryImage b emptyPieceEnvironment) ∧
    GetTrustedRegistries hostBeforePath centralImage trailingCommaDefaults unsetEnvironment
      = ["a.com", "", "registry.example"] := by
  refine ⟨fun P D env => ?_, fun P D env => ?_, fun P D b => ?_, by decide⟩
  · rw [GetTrustedRegistries_mem]
    exact Or.inl ⟨by decide, by decide⟩
  · rw [GetTrustedRegistries_mem]
    exact Or.inl ⟨by decide, by decide⟩
  · rw [GetTrustedRegistries_mem]
    exact Or.inr (Or.inr (Or.inr (Or.inr (Or.inr ⟨by decide, by decide⟩))))

/-! ## Trusted artifact locations -/

/-- C23: the trusted artifact URI prefixes are a fixed pair.
`GetTrustedArtifactLocations` reads neither the environment nor a build-time
variable and returns the HTTPS URI of the advanced-plugins bucket followed by the
TMC artifact repository. -/
theorem GetTrustedArtifactLocations_fixed_pair :
    GetTrustedArtifactLocations =
      ["https://storage.googleapis.com/tanzu-cli-advanced-plugins/",
        "https://tmc-cli.s3-us-west-2.amazonaws.com/plugins/artifacts"] := by
  decide

/-! ## The default discovery image -/

/-- The three choices of `GetDefaultStandaloneDiscoveryImage` written out. -/
theorem effective_default (b : BuildVariables) (env : Environment) :
    GetDefaultStandaloneDiscoveryImage b env =
      Trim (if env.ConfigVariableCustomImageRepository ≠ "" then
              env.ConfigVariableCustomImageRepository
            else b.DefaultStandaloneDiscoveryRepository) "/" ++ "/" ++
        Trim (if env.ConfigVariableDefaultStandaloneDiscoveryImagePath ≠ "" then
                env.ConfigVariableDefaultStandaloneDiscoveryImagePath
              else b.DefaultStandaloneDiscoveryImagePath) "/" ++ ":" ++
        (if env.ConfigVariableDefaultStandaloneDiscoveryImageTag ≠ "" then
            env.ConfigVariableDefaultStandaloneDiscoveryImageTag
          else b.DefaultStandaloneDiscoveryImageTag) := rfl

theorem Trim_slash_decompose (s : String) :
    ∃ l r : List Char, s.data = l ++ (Trim s "/").data ++ r ∧
      (∀ c ∈ l, c = '/') ∧ (∀ c ∈ r, c = '/') ∧
      (Trim s "/").data.head? ≠ some '/' ∧ (Trim s "/").data.getLast? ≠ some '/' := by
  obtain ⟨l, r, h, hl, hr⟩ := trimChars_decompose (fun c => ("/" : String).data.contains c) s.data
  refine ⟨l, r, h, ?_, ?_, ?_, ?_⟩
  · intro c hc
    simpa using hl c hc
  · intro c hc
    simpa using hr c hc
  · intro hh
    have := trimChars_head _ _ _ hh
    simp at this
  · intro hh
    have := trimChars_getLast _ _ _ hh
    simp at this

/-- C24: the default discovery image is composed with override precedence.  For
all build-time defaults and every environment the result is repository, `/`,
image path, `:` and tag, where each of the three is the environment override when
that variable is non-empty and the build-time default otherwise, and repository
and path are trimmed of slashes: what `Trim` removes from either end of a string
is slashes only, and what it leaves neither starts nor ends with a slash.  The
defaults of the tests give `fake.image.repo/package/standalone-plugins:v1.0.0`,
and with the three overrides of the test set the result is
`env.fake.image.repo/package/env/standalone-plugins:v2.0.0`. -/
theorem GetDefaultStandaloneDiscoveryImage_composition (b : BuildVariables)
    (env : Environment) :
    GetDefaultStandaloneDiscoveryImage b env =
      Trim (if env.ConfigVariableCustomImageRepository ≠ "" then
              env.ConfigVariableCustomImageRepository
            else b.DefaultStandaloneDiscoveryRepository) "/" ++ "/" ++
        Trim (if env.ConfigVariableDefaultStandaloneDiscoveryImagePath ≠ "" then
                env.ConfigVariableDefaultStandaloneDiscoveryImagePath
              else b.DefaultStandaloneDiscoveryImagePath) "/" ++ ":" ++
        (if env.ConfigVariableDefaultStandaloneDiscoveryImageTag ≠ "" then
            env.ConfigVariableDefaultStandaloneDiscoveryImageTag
          else b.DefaultStandaloneDiscoveryImageTag) ∧
    (∀ s : String, ∃ l r : List Char, s.data = l ++ (Trim s "/").data ++ r ∧
      (∀ c ∈ l, c = '/') ∧ (∀ c ∈ r, c = '/') ∧
      (Trim s "/").data.head? ≠ some '/' ∧ (Trim s "/").data.getLast? ≠ some '/') ∧
    GetDefaultStandaloneDiscoveryImage testDefaults unsetEnvironment
      = "fake.image.repo/package/standalone-plugins:v1.0.0" ∧
    GetDefaultStandaloneDiscoveryImage testDefaults testEnvironment
      = "env.fake.image.repo/package/env/standalone-plugins:v2.0.0" :=
  ⟨effective_default b env, Trim_slash_decompose, by decide, by decide⟩

theorem GetDefaultStandaloneDiscoveryImage_composition_witness :
    GetDefaultStandaloneDiscoveryImage
        { testDefaults with DefaultStandaloneDiscoveryRepository := "/fake.image.repo/" }
        { unsetEnvironment with ConfigVariableDefaultStandaloneDiscoveryImageTag := "v2.0.0" }
      = Trim "/fake.image.repo/" "/" ++ "/" ++ Trim "package/standalone-plugins" "/" ++ ":"
          ++ "v2.0.0" ∧
    Trim "/fake.image.repo/" "/" = "fake.image.repo" :=
  ⟨(GetDefaultStandaloneDiscoveryImage_composition
      { testDefaults with DefaultStandaloneDiscoveryRepository := "/fake.image.repo/" }
      { unsetEnvironment with ConfigVariableDefaultStandaloneDiscoveryImageTag := "v2.0.0" }).1,
    by decide⟩

/-! ## Comparing discovery sources -/

/-- C25: `CompareDiscoverySource` decides sameness for the given type.  The
result is true exactly when the type string is one of `local`, `oci`,
`kubernetes`, `gcp`, `rest`, both sources carry the configuration of that type,
and the compared fields agree (local: name, path; oci: name, image; kubernetes:
name, path, context; gcp: name, bucket, manifest path; rest: name, base path,
endpoint).  For every other type string the result is false. -/
theorem CompareDiscoverySource_decides (ds1 ds2 : PluginDiscovery) (t : String) :
    (CompareDiscoverySource ds1 ds2 t = true ↔
      (t = "local" ∧ ∃ a b, ds1.Local = some a ∧ ds2.Local = some b ∧
        a.Name = b.Name ∧ a.Path = b.Path) ∨
      (t = "oci" ∧ ∃ a b, ds1.OCI = some a ∧ ds2.OCI = some b ∧
        a.Name = b.Name ∧ a.Image = b.Image) ∨
      (t = "kubernetes" ∧ ∃ a b, ds1.Kubernetes = some a ∧ ds2.Kubernetes = some b ∧
        a.Name = b.Name ∧ a.Path = b.Path ∧ a.Context = b.Context) ∨
      (t = "gcp" ∧ ∃ a b, ds1.GCP = some a ∧ ds2.GCP = some b ∧
        a.Name = b.Name ∧ a.Bucket = b.Bucket ∧ a.ManifestPath = b.ManifestPath) ∨
      (t = "rest" ∧ ∃ a b, ds1.REST = some a ∧ ds2.REST = some b ∧
        a.Name = b.Name ∧ a.BasePath = b.BasePath ∧ a.Endpoint = b.Endpoint)) ∧
    (t ∉ ["local", "oci", "kubernetes", "gcp", "rest"] →
      CompareDiscoverySource ds1 ds2 t = false) := by
  constructor
  · unfold CompareDiscoverySource
    by_cases h1 : t = DiscoveryTypeLocal
    · subst h1
      rw [if_pos rfl]
      unfold compareLocalDiscoverySources
      cases ds1.Local <;> cases ds2.Local <;> simp [DiscoveryTypeLocal]
    · rw [if_neg h1]
      by_cases h2 : t = DiscoveryTypeOCI
      · subst h2
        rw [if_pos rfl]
        unfold compareOCIDiscoverySources
        cases ds1.OCI <;> cases ds2.OCI <;> simp [DiscoveryTypeOCI]
      · rw [if_neg h2]
        by_cases h3 : t = DiscoveryTypeKubernetes
        · subst h3
          rw [if_pos rfl]
          unfold compareK8sDiscoverySources
          cases ds1.Kubernetes <;> cases ds2.Kubernetes <;>
            simp [DiscoveryTypeKubernetes, and_assoc]
        · rw [if_neg h3]
          by_cases h4 : t = DiscoveryTypeGCP
          · subst h4
            rw [if_pos rfl]
            unfold compareGCPDiscoverySources
            cases ds1.GCP <;> cases ds2.GCP <;> simp [DiscoveryTypeGCP, and_assoc]
          · rw [if_neg h4]
            by_cases h5 : t = DiscoveryTypeREST
            · subst h5
              rw [if_pos rfl]
              unfold compareRESTDiscoverySources
              cases ds1.REST <;> cases ds2.REST <;> simp [DiscoveryTypeREST, and_assoc]
            · rw [if_neg h5]
              simp only [DiscoveryTypeLocal, DiscoveryTypeOCI, DiscoveryTypeKubernetes,
                DiscoveryTypeGCP, DiscoveryTypeREST] at h1 h2 h3 h4 h5
              simp [h1, h2, h3, h4, h5]
  · intro h
    simp only [List.mem_cons, List.mem_singleton, List.not_mem_nil, or_false, not_or] at h
    obtain ⟨h1, h2, h3, h4, h5⟩ := h
    simp [CompareDiscoverySource, DiscoveryTypeLocal, DiscoveryTypeOCI, DiscoveryTypeKubernetes,
      DiscoveryTypeGCP, DiscoveryTypeREST, h1, h2, h3, h4, h5]

theorem CompareDiscoverySource_decides_witness :
    CompareDiscoverySource ociSource ociSource "oci" = true ∧
    CompareDiscoverySource ociSource ociSourceOther "oci" = false ∧
    "helm" ∉ ["local", "oci", "kubernetes", "gcp", "rest"] ∧
    CompareDiscoverySource ociSource ociSource "helm" = false :=
  ⟨(CompareDiscoverySource_decides ociSource ociSource "oci").1.2
      (Or.inr (Or.inl ⟨rfl, _, _, rfl, rfl, rfl, rfl⟩)),
    by decide, by decide,
    (CompareDiscoverySource_decides ociSource ociSource "helm").2 (by decide)⟩

/-! ## `Upsert` followed by `Get` -/

/-- The `IndexByPath` entries after `deleteOldTargetEntries key`: the entry of
the path at which the key was active is gone, every other entry is as before. -/
theorem deleteOld_IndexByPath_lookup (c : ContextCatalog) (key p : String) :
    (c.deleteOldTargetEntries key).sharedCatalog.IndexByPath.lookup p
      = if c.activePath key = some p then none else c.sharedCatalog.IndexByPath.lookup p := by
  cases ha : c.activePath key with
  | none =>
    rw [deleteOld_of_inactive c key ha, if_neg (by simp)]
  | some path =>
    obtain ⟨m, hp, hl⟩ := plugins_of_activePath c key path ha
    rw [deleteOld_IndexByPath c m key path hp hl]
    by_cases hpp : p = path
    · rw [hpp, AList.lookup_erase, if_pos rfl]
    · rw [AList.lookup_erase_ne hpp, if_neg (fun h => hpp (Option.some.inj h).symm)]

/-- The `IndexByPath` entries after the eviction step of `Upsert`. -/
theorem evict_IndexByPath_lookup (c : ContextCatalog) (plugin : PluginInfo) (p : String) :
    (c.evictOtherTargets plugin).sharedCatalog.IndexByPath.lookup p
      = if ∃ k ∈ evictedKeys plugin, c.activePath k = some p then none
        else c.sharedCatalog.IndexByPath.lookup p := by
  unfold ContextCatalog.evictOtherTargets evictedKeys
  by_cases h1 : plugin.Target = TargetGlobal ∨ plugin.Target = TargetK8s
  · rw [if_pos h1, if_pos h1, deleteOld_IndexByPath_lookup]
    simp only [List.mem_singleton, exists_eq_left]
  · rw [if_neg h1, if_neg h1]
    by_cases h2 : plugin.Target = TargetUnknown
    · rw [if_pos h2, if_pos h2, deleteOld_IndexByPath_lookup, deleteOld_IndexByPath_lookup,
        deleteOld_activePath, if_neg (key_global_ne_k8s plugin.Name).symm]
      simp only [List.mem_cons, List.mem_singleton, List.not_mem_nil, or_false,
        exists_eq_or_imp, exists_eq_left]
      by_cases hg : c.activePath (PluginNameTarget plugin.Name TargetGlobal) = some p <;>
      by_cases hk : c.activePath (PluginNameTarget plugin.Name TargetK8s) = some p <;>
      simp [hg, hk]
    · rw [if_neg h2, if_neg h2]
      simp

/-- `Upsert` followed by `Get` of the plugin's key, on a view whose active map is
the non-nil `m`: the call returns, and `Get` finds the plugin unless a key that
`Upsert` evicts was active at the plugin's own installation path, in which case
the entry just written to `IndexByPath` is deleted again and `Get` misses. -/
theorem Upsert_then_Get_cases (save : Catalog → Option String) (c : ContextCatalog)
    (m : GoMap String) (plugin : PluginInfo) (hp : c.plugins = some m) :
    ∃ c', c.Upsert save plugin = some (c', save c'.sharedCatalog) ∧
      c'.Get (PluginNameTarget plugin.Name plugin.Target)
        = if ∃ k ∈ evictedKeys plugin, m.lookup k = some plugin.InstallationPath
          then (PluginInfo.zero, false) else (plugin, true) := by
  refine ⟨_, Upsert_of_plugins save c m plugin hp, ?_⟩
  have hact : ((c.recordPlugin m plugin).evictOtherTargets plugin).activePath
      (PluginNameTarget plugin.Name plugin.Target) = some plugin.InstallationPath := by
    rw [evict_activePath, if_neg (key_not_evicted plugin),
      activePath_of_plugins _ _ _ (recordPlugin_plugins c m plugin), AList.lookup_insert]
  have hev : (∃ k ∈ evictedKeys plugin,
        (c.recordPlugin m plugin).activePath k = some plugin.InstallationPath)
      ↔ ∃ k ∈ evictedKeys plugin, m.lookup k = some plugin.InstallationPath := by
    constructor
    · rintro ⟨k, hk, h⟩
      refine ⟨k, hk, ?_⟩
      rwa [recordPlugin_activePath_ne c m plugin k
        (fun e => key_not_evicted plugin (e ▸ hk))] at h
    · rintro ⟨k, hk, h⟩
      refine ⟨k, hk, ?_⟩
      rwa [recordPlugin_activePath_ne c m plugin k
        (fun e => key_not_evicted plugin (e ▸ hk))]
  have hidx := evict_IndexByPath_lookup (c.recordPlugin m plugin) plugin plugin.InstallationPath
  rw [recordPlugin_IndexByPath, AList.lookup_insert] at hidx
  by_cases he : ∃ k ∈ evictedKeys plugin, m.lookup k = some plugin.InstallationPath
  · rw [if_pos he]
    rw [if_pos (hev.2 he)] at hidx
    exact Get_of_dangling _ _ _ hact hidx
  · rw [if_neg he]
    rw [if_neg (fun h => he (hev.1 h))] at hidx
    exact Get_of_found _ _ _ _ hact hidx

/-- C26 fails on the code: `Upsert` followed by `Get` can miss the plugin.  On
the stand-alone view of the store in which the unknown-target `foo` is active at
`/p`, `Upsert` of the global `foo` installed at the same path `/p` returns
without error, and `Get` of the key `foo_global` on the view it leaves returns
the zero `PluginInfo` with `false`: the eviction of the unknown-target entry
deletes the `IndexByPath` entry of `/p` that the call has just written. -/
theorem Upsert_then_Get_misses :
    (NewContextCatalog legacyStore "").plugins = some legacyStore.StandAlonePlugins ∧
    ∃ c', (NewContextCatalog legacyStore "").Upsert saveOk fooGlobalAtP = some (c', none) ∧
      c'.Get (PluginNameTarget fooGlobalAtP.Name fooGlobalAtP.Target)
        = (PluginInfo.zero, false) ∧
      c'.Get (PluginNameTarget fooGlobalAtP.Name fooGlobalAtP.Target) ≠ (fooGlobalAtP, true) :=
  ⟨rfl, _, rfl, by decide, by decide⟩
